import Mathlib

/-!
Verification of the GFF codec core of `ndu.py` (nwnee-data-utilities).

Shallow embedding conventions:
* Python `str` values are modeled as `List Char` (`PyStr`).  All string
  operations the source uses (`strip`, `rstrip`, `strip('"')`, `replace`,
  `startswith`, `in`) are defined below with Python semantics.  Python's
  `str.strip` removes the six ASCII whitespace characters; `\w` of the
  tokenizer regex is modeled on the ASCII range, which covers every label
  the formats admit.
* Python `int` is `Int` (unbounded, as in Python).
* Python `float` values are modeled opaquely by their `repr` text
  (`floatV r`): the DSL writer prints a float with `str(v)` and the reader
  re-parses with `float(s)`, and CPython guarantees `float(repr(x)) == x`,
  so a float value is faithfully carried as its canonical decimal text.
* Files are modeled at the line level: the DSL writer joins its emitted
  lines with a single newline and the reader splits the file back into
  lines; well-formed emitted lines contain no newline or carriage return,
  for which joining and splitting are mutually inverse.
* Exceptions are modeled with `Except`; the distinction between Python's
  `ValueError` (caught by the loader entry points) and any other
  exception type is kept in `PyErr`.
-/

/-- Python strings as lists of characters. -/
abbrev PyStr := List Char

/-- Shorthand turning a Lean string literal into a `PyStr`. -/
def pys (s : String) : PyStr := s.data

/-- The characters Python's `str.strip()` removes. -/
def isPyWs (c : Char) : Bool :=
  c = ' ' || c = '\t' || c = '\n' || c = '\r' || c = '\x0b' || c = '\x0c'

/-- Strip characters satisfying `p` from both ends (Python `str.strip(chars)`). -/
def pyStripBy (p : Char → Bool) (s : PyStr) : PyStr :=
  ((s.dropWhile p).reverse.dropWhile p).reverse

/-- Python `str.strip()` (whitespace from both ends). -/
def pyStrip (s : PyStr) : PyStr := pyStripBy isPyWs s

/-- Python `str.rstrip()` (whitespace from the right end). -/
def pyRstrip (s : PyStr) : PyStr := (s.reverse.dropWhile isPyWs).reverse

/-- Python `s.strip('"')` as used by `unquote_quoted_string`. -/
def pyStripQuotes (s : PyStr) : PyStr := pyStripBy (· = '"') s

/-- Boolean prefix test on character lists. -/
def isPre : PyStr → PyStr → Bool
  | [], _ => true
  | _ :: _, [] => false
  | a :: as, b :: bs => if a = b then isPre as bs else false

/-- Python `pat in s` for a multi-character pattern: substring occurrence. -/
def occursIn (pat : PyStr) : PyStr → Bool
  | [] => isPre pat []
  | c :: rest => if isPre pat (c :: rest) then true else occursIn pat rest

/-- Python `str.replace(pat, rep)`: scan left to right, replacing
non-overlapping occurrences.  Structured with a step-count so that it
is structurally recursive (each step consumes at least one character
when the pattern is nonempty, so `s.length` steps always suffice);
`pyReplace_cons` below recovers the natural unfolding. -/
def pyReplaceF (pat rep : PyStr) : Nat → PyStr → PyStr
  | _, [] => []
  | 0, s => s
  | fuel + 1, c :: rest =>
    if isPre pat (c :: rest) then
      rep ++ pyReplaceF pat rep fuel ((c :: rest).drop pat.length)
    else
      c :: pyReplaceF pat rep fuel rest

def pyReplace (pat rep : PyStr) (s : PyStr) : PyStr :=
  if pat = [] then s else pyReplaceF pat rep s.length s

/-- Python `str.lower()` (ASCII range; extensions and type names are ASCII). -/
def pyLower (s : PyStr) : PyStr := s.map Char.toLower

/-- Membership of a string in a list of strings (Python `in` on a set/list). -/
def memS (t : PyStr) : List PyStr → Bool
  | [] => false
  | x :: xs => if x = t then true else memS t xs

/-- `\w` of the `regex` tokenizer plus the space allowed by `[\w ]`
(ASCII range: labels in the GFF formats are ASCII). -/
def isWordOrSpace (c : Char) : Bool :=
  c.isAlphanum || c = '_' || c = ' '

/-- ASCII decimal digit (`\d` of the tokenizer regex). -/
def isDigitC (c : Char) : Bool := c.isDigit

/-! ## Field keys and the internal value model

`_Gff._Single._Field._Key` carries a DSL type name, a field name and
(for structs) a struct id.  Internal values are Python `int`, `float`,
`str`, `dict` or `list`; dictionary keys are `_Key` objects, which have
identity hashing in Python, so a loaded dictionary is faithfully an
ordered association list that may even hold repeated labels. -/

structure NduKey where
  ftype : PyStr
  name : PyStr
  fid : Option Int
deriving DecidableEq, Repr

mutual
inductive NduVal where
  | intV (n : Int)
  | floatV (r : PyStr)
  | strV (s : PyStr)
  | dictV (d : NduDict)
  | listV (l : NduList)
deriving Repr

inductive NduDict where
  | nil
  | cons (k : NduKey) (v : NduVal) (rest : NduDict)
deriving Repr

inductive NduList where
  | lnil
  | lcons (elem : NduDict) (rest : NduList)
deriving Repr
end

mutual
def NduVal.beqV : NduVal → NduVal → Bool
  | .intV a, .intV b => a = b
  | .floatV a, .floatV b => a = b
  | .strV a, .strV b => a = b
  | .dictV a, .dictV b => NduDict.beqD a b
  | .listV a, .listV b => NduList.beqL a b
  | _, _ => false

def NduDict.beqD : NduDict → NduDict → Bool
  | .nil, .nil => true
  | .cons k v r, .cons k2 v2 r2 =>
    decide (k = k2) && NduVal.beqV v v2 && NduDict.beqD r r2
  | _, _ => false

def NduList.beqL : NduList → NduList → Bool
  | .lnil, .lnil => true
  | .lcons e r, .lcons e2 r2 => NduDict.beqD e e2 && NduList.beqL r r2
  | _, _ => false
end

mutual
theorem NduVal.beqV_iff : ∀ a b : NduVal, NduVal.beqV a b = true ↔ a = b
  | .intV a, .intV b => by simp [NduVal.beqV]
  | .intV _, .floatV _ => by simp [NduVal.beqV]
  | .intV _, .strV _ => by simp [NduVal.beqV]
  | .intV _, .dictV _ => by simp [NduVal.beqV]
  | .intV _, .listV _ => by simp [NduVal.beqV]
  | .floatV _, .intV _ => by simp [NduVal.beqV]
  | .floatV a, .floatV b => by simp [NduVal.beqV]
  | .floatV _, .strV _ => by simp [NduVal.beqV]
  | .floatV _, .dictV _ => by simp [NduVal.beqV]
  | .floatV _, .listV _ => by simp [NduVal.beqV]
  | .strV _, .intV _ => by simp [NduVal.beqV]
  | .strV _, .floatV _ => by simp [NduVal.beqV]
  | .strV a, .strV b => by simp [NduVal.beqV]
  | .strV _, .dictV _ => by simp [NduVal.beqV]
  | .strV _, .listV _ => by simp [NduVal.beqV]
  | .dictV _, .intV _ => by simp [NduVal.beqV]
  | .dictV _, .floatV _ => by simp [NduVal.beqV]
  | .dictV _, .strV _ => by simp [NduVal.beqV]
  | .dictV a, .dictV b => by simp [NduVal.beqV, NduDict.beqD_iff a b]
  | .dictV _, .listV _ => by simp [NduVal.beqV]
  | .listV _, .intV _ => by simp [NduVal.beqV]
  | .listV _, .floatV _ => by simp [NduVal.beqV]
  | .listV _, .strV _ => by simp [NduVal.beqV]
  | .listV _, .dictV _ => by simp [NduVal.beqV]
  | .listV a, .listV b => by simp [NduVal.beqV, NduList.beqL_iff a b]

theorem NduDict.beqD_iff : ∀ a b : NduDict, NduDict.beqD a b = true ↔ a = b
  | .nil, .nil => by simp [NduDict.beqD]
  | .nil, .cons _ _ _ => by simp [NduDict.beqD]
  | .cons _ _ _, .nil => by simp [NduDict.beqD]
  | .cons k v r, .cons k2 v2 r2 => by
    simp [NduDict.beqD, NduVal.beqV_iff v v2, NduDict.beqD_iff r r2, and_assoc]

theorem NduList.beqL_iff : ∀ a b : NduList, NduList.beqL a b = true ↔ a = b
  | .lnil, .lnil => by simp [NduList.beqL]
  | .lnil, .lcons _ _ => by simp [NduList.beqL]
  | .lcons _ _, .lnil => by simp [NduList.beqL]
  | .lcons e r, .lcons e2 r2 => by
    simp [NduList.beqL, NduDict.beqD_iff e e2, NduList.beqL_iff r r2]
end

instance : DecidableEq NduVal := fun a b =>
  decidable_of_iff (NduVal.beqV a b = true) (NduVal.beqV_iff a b)

instance : DecidableEq NduDict := fun a b =>
  decidable_of_iff (NduDict.beqD a b = true) (NduDict.beqD_iff a b)

instance : DecidableEq NduList := fun a b =>
  decidable_of_iff (NduList.beqL a b = true) (NduList.beqL_iff a b)

/-- Build an `NduDict` from a list of key/value pairs (notation helper). -/
def NduDict.ofList : List (NduKey × NduVal) → NduDict
  | [] => .nil
  | (k, v) :: r => .cons k v (NduDict.ofList r)

/-- Build an `NduList` from a list of element dictionaries. -/
def NduList.ofList : List NduDict → NduList
  | [] => .lnil
  | e :: r => .lcons e (NduList.ofList r)

/-- Python `dict.update({k: v})` where `k` is a fresh `_Key` object:
identity hashing means the pair is always appended at the end. -/
def NduDict.push : NduDict → NduKey → NduVal → NduDict
  | .nil, k, v => .cons k v .nil
  | .cons k0 v0 r, k, v => .cons k0 v0 (r.push k v)

/-- Python `list.append` on a list of structs. -/
def NduList.push : NduList → NduDict → NduList
  | .lnil, e => .lcons e .lnil
  | .lcons e0 r, e => .lcons e0 (r.push e)

/-! ## The field type registry (`_FIELD_TYPES` and the categorial sets) -/

/-- `internal_value_type` of a registry row (`int`, `float`, `str`, `dict`, `list`). -/
inductive VKind
  | vint | vfloat | vstr | vdict | vlist
deriving DecidableEq, Repr

/-- `gff_value_type` of a registry row, as a tag (the nwn library constructors
are external; `write_gff` only dispatches on their identity). -/
inductive GKind
  | gByte | gChar | gWord | gShort | gInt | gDword | gInt64 | gDword64
  | gFloat | gDouble | gStr | gResRef | gCExoString | gLang | gVoid
  | gLocString | gStruct | gList
deriving DecidableEq, Repr

structure FieldInfo where
  dslName : PyStr
  vkind : VKind
  jsonName : Option PyStr
  gkind : GKind
deriving DecidableEq, Repr

/-- `_FIELD_TYPES`, in source (insertion) order. -/
def FIELD_TYPES : List FieldInfo := [
  ⟨pys "gff.Byte", .vint, some (pys "byte"), .gByte⟩,
  ⟨pys "gff.Char", .vint, some (pys "char"), .gChar⟩,
  ⟨pys "gff.Word", .vint, some (pys "word"), .gWord⟩,
  ⟨pys "gff.Short", .vint, some (pys "short"), .gShort⟩,
  ⟨pys "gff.Int", .vint, some (pys "int"), .gInt⟩,
  ⟨pys "gff.Dword", .vint, some (pys "dword"), .gDword⟩,
  ⟨pys "gff.Int64", .vint, some (pys "int64"), .gInt64⟩,
  ⟨pys "gff.Dword64", .vint, some (pys "dword64"), .gDword64⟩,
  ⟨pys "gff.Float", .vfloat, some (pys "float"), .gFloat⟩,
  ⟨pys "gff.Double", .vfloat, some (pys "double"), .gDouble⟩,
  ⟨pys "gff.MagicTag", .vstr, some (pys "__data_type"), .gStr⟩,
  ⟨pys "gff.ResRef", .vstr, some (pys "resref"), .gResRef⟩,
  ⟨pys "gff.CExoString", .vstr, some (pys "cexostring"), .gCExoString⟩,
  ⟨pys "gff.Language", .vstr, none, .gLang⟩,
  ⟨pys "gff.Base64String", .vstr, some (pys "void"), .gVoid⟩,
  ⟨pys "gff.CExoLocString", .vdict, some (pys "cexolocstring"), .gLocString⟩,
  ⟨pys "gff.Struct", .vdict, some (pys "struct"), .gStruct⟩,
  ⟨pys "gff.List", .vlist, some (pys "list"), .gList⟩]

/-- The DSL type names in registry order (the tokenizer alternation and
the `reorder` sort key both use this order). -/
def DSL_TYPE_NAMES : List PyStr := FIELD_TYPES.map (·.dslName)

def NODE_TYPES : List PyStr :=
  [pys "gff.CExoLocString", pys "gff.Struct", pys "gff.List"]

def ESCAPED_STRING_TYPES : List PyStr := [pys "gff.CExoString", pys "gff.Language"]

def LITERAL_STRING_TYPES : List PyStr :=
  [pys "gff.ResRef", pys "gff.MagicTag", pys "gff.Base64String"]

def GFF_UINT32_SENTINEL : Int := 4294967295

def PRETTY_SENTINEL : Int := -1

/-- Registry lookup of `internal_value_type` by DSL type name
(`set_constructor` / `get_ndugff_value_type`). -/
def vkindOf (t : PyStr) : Option VKind :=
  (FIELD_TYPES.find? (fun fi => fi.dslName = t)).map (·.vkind)

/-- Registry lookup of `gff_value_type` by DSL type name (`get_gff_value_type`). -/
def gkindOf (t : PyStr) : Option GKind :=
  (FIELD_TYPES.find? (fun fi => fi.dslName = t)).map (·.gkind)

/-- Registry lookup of the DSL name by JSON name (`get_dsl_type` in `load_json`).
The scan compares `arg_json_type == v["json_type_name"]`; the `gff.Language`
row has JSON name `None`, which never equals a string. -/
def dslTypeOfJson (jt : PyStr) : Option PyStr :=
  (FIELD_TYPES.find? (fun fi => fi.jsonName = some jt)).map (·.dslName)

/-! ## Python `int` text conversions

`str(int)` and `int(str)` as the DSL codec uses them.  Python's `int()`
additionally tolerates surrounding whitespace and underscores between
digits; those inputs never arise in this development and are parsed as
errors here. -/

/-- One decimal digit character. -/
def digitChar (m : Nat) : Char :=
  if m = 0 then '0' else if m = 1 then '1' else if m = 2 then '2'
  else if m = 3 then '3' else if m = 4 then '4' else if m = 5 then '5'
  else if m = 6 then '6' else if m = 7 then '7' else if m = 8 then '8' else '9'

/-- Numeric value of a decimal digit character. -/
def digitVal (c : Char) : Nat := c.toNat - 48

/-- Decimal digits of `n` (most significant first, empty for zero),
with a step count for structural recursion (`n` steps always suffice). -/
def natDigitsF : Nat → Nat → PyStr
  | _, 0 => []
  | 0, _ + 1 => []
  | fuel + 1, n + 1 => natDigitsF fuel ((n + 1) / 10) ++ [digitChar ((n + 1) % 10)]

def natDigits (n : Nat) : PyStr := natDigitsF n n

/-- Python `str(n)` for a natural number. -/
def natReprPy (n : Nat) : PyStr := if n = 0 then pys "0" else natDigits n

/-- Python `str(n)` for an integer. -/
def intReprPy (n : Int) : PyStr :=
  if n < 0 then '-' :: natReprPy n.natAbs else natReprPy n.natAbs

/-- Value of a nonempty digit string. -/
def natOfDigits (ds : PyStr) : Nat := ds.foldl (fun a c => 10 * a + digitVal c) 0

/-- Parse an unsigned decimal digit run (helper for `int(str)`). -/
def decDigitsVal (ds : PyStr) : Option Nat :=
  if ds ≠ [] ∧ ds.all isDigitC then some (natOfDigits ds) else none

/-- Python `int(s)` (sign and decimal digits). -/
def pyIntOfStr (s : PyStr) : Option Int :=
  match s with
  | [] => none
  | c :: ds =>
    if c = '-' then (decDigitsVal ds).map (fun n => -(n : Int))
    else if c = '+' then (decDigitsVal ds).map (fun n => (n : Int))
    else (decDigitsVal (c :: ds)).map (fun n => (n : Int))

/-- Lexical test for Python `float(s)`: sign, then either `inf`/`infinity`/
`nan` (any case) or a decimal mantissa with optional fraction and exponent.
(Whitespace and underscore tolerances of CPython are not modeled; no input
in this development uses them.) -/
def pyFloatOk (s : PyStr) : Bool :=
  let body := match s with
    | '-' :: r => r
    | '+' :: r => r
    | r => r
  let lower := pyLower body
  if lower = pys "inf" || lower = pys "infinity" || lower = pys "nan" then true
  else
    let mant := body.takeWhile isDigitC
    let r1 := body.dropWhile isDigitC
    let (frac, r2) := match r1 with
      | '.' :: t => (t.takeWhile isDigitC, t.dropWhile isDigitC)
      | t => ([], t)
    if mant = [] ∧ frac = [] then false
    else match r2 with
      | [] => true
      | 'e' :: t | 'E' :: t =>
        let t2 := match t with
          | '-' :: u => u
          | '+' :: u => u
          | u => u
        t2 ≠ [] && t2.all isDigitC
      | _ => false

/-! ## DSL tokenizer

`_DSL_TOKENIZER` is the regex

`(?P<type>gff.Byte|...|gff.List)\((?P<name>[\w ]*)\)`
`(?:\.id\((?P<struct_id>-?\d+)\))?(?:\:[ ]*(?P<value>.+)$)?`

matched with `regex.match` (anchored at the start only).  The `.` in each
alternative is the regex any-character metacharacter.  Since everything
after the alternation up to the mandatory `\(` is optional, the engine's
backtracking is equivalent to: take the first alternative (in registry
order) whose wildcard pattern matches and is followed by `(`; the greedy
`[\w ]*`/`\d+` runs are deterministic because `)` is neither a word
character nor a digit. -/

/-- Match one alternative pattern (a DSL type name whose `.` is a regex
wildcard) against the start of the input; returns the captured text and
the rest. -/
def wcMatchType : PyStr → PyStr → Option (PyStr × PyStr)
  | [], cs => some ([], cs)
  | _ :: _, [] => none
  | p :: ps, c :: cs =>
    if (if p = '.' then c ≠ '\n' else c = p) then
      match wcMatchType ps cs with
      | some (cap, rest) => some (c :: cap, rest)
      | none => none
    else none

/-- The type alternation: first alternative that matches and is followed
by `(`. -/
def matchTypeAlt : List PyStr → PyStr → Option (PyStr × PyStr)
  | [], _ => none
  | t :: ts, cs =>
    match wcMatchType t cs with
    | some (cap, rest) =>
      match rest with
      | '(' :: _ => some (cap, rest)
      | _ => matchTypeAlt ts cs
    | none => matchTypeAlt ts cs

/-- The optional sign of the `-?\d+` struct-id capture. -/
def signSplit : PyStr → Bool × PyStr
  | '-' :: t => (true, t)
  | t => (false, t)

/-- The optional `(?:\.id\((?P<struct_id>-?\d+)\))?` group: on failure the
group matches empty and the position is restored. -/
def parseIdGroup (cs : PyStr) : Option PyStr × PyStr :=
  if isPre (pys ".id(") cs then
    let r1 := cs.drop 4
    let (neg, r2) : Bool × PyStr := signSplit r1
    let ds := r2.takeWhile isDigitC
    let r3 := r2.dropWhile isDigitC
    if ds = [] then (none, cs)
    else
      match r3 with
      | ')' :: rest => (some ((if neg then ['-'] else []) ++ ds), rest)
      | _ => (none, cs)
  else (none, cs)

/-- The optional `(?:\:[ ]*(?P<value>.+)$)?` group.  `.` does not cross a
newline; lines handed to the tokenizer come from `readlines` + `strip` and
contain none. -/
def parseValueGroup (cs : PyStr) : Option PyStr :=
  match cs with
  | ':' :: r =>
    let v := r.dropWhile (· = ' ')
    if v = [] || v.any (· = '\n') then none else some v
  | _ => none

structure DslTokens where
  ttype : PyStr
  name : PyStr
  structId : Option PyStr
  value : Option PyStr
deriving DecidableEq, Repr

/-- `self._DSL_TOKENIZER.match(arg_line)` with its named groups. -/
def tokenizeDsl (line : PyStr) : Option DslTokens :=
  match matchTypeAlt DSL_TYPE_NAMES line with
  | none => none
  | some (cap, rest) =>
    match rest with
    | '(' :: r1 =>
      let nm := r1.takeWhile isWordOrSpace
      let r2 := r1.dropWhile isWordOrSpace
      match r2 with
      | ')' :: r3 =>
        let (sid, r4) := parseIdGroup r3
        some ⟨cap, nm, sid, parseValueGroup r4⟩
      | _ => none
    | _ => none

/-! ## `load_ndugff`: line building and the parser state machine -/

/-- Outcome of `build_dsl_line` for one stripped line. -/
inductive DslLine
  | skip
  | nodeEnd
  | field (ttype : PyStr) (name : PyStr) (structId : Option PyStr)
      (value : Option PyStr) (isNode : Bool)
deriving DecidableEq, Repr

/-- `unescape_escaped_string`: literal `\r\n` → `\n`, `\"` → `"`,
`\t` → TAB, `\n` → LF, then `rstrip`. -/
def unescape_escaped_string (v : PyStr) : PyStr :=
  pyRstrip
    (pyReplace (pys "\\n") (pys "\n")
      (pyReplace (pys "\\t") (pys "\t")
        (pyReplace (pys "\\\"") (pys "\"")
          (pyReplace (pys "\\r\\n") (pys "\\n") v))))

/-- `get_unprettified_sentinel` of `load_ndugff` (string form):
`str(0xFFFFFFFF) if v == str(-1) else v`. -/
def get_unprettified_sentinel_str (v : PyStr) : PyStr :=
  if v = pys "-1" then pys "4294967295" else v

/-- `normalize_magic_tag`: `value[:4].ljust(4)`. -/
def normalize_magic_tag (v : PyStr) : PyStr :=
  let t := v.take 4
  t ++ List.replicate (4 - t.length) ' '

/-- `build_dsl_line` applied to one already-stripped line.  Errors are the
`ValueError`s raised through `log_and_raise`. -/
def build_dsl_line (line : PyStr) : Except PyStr DslLine :=
  if line = [] || isPre (pys "#") line then .ok .skip
  else if line = pys "end()" then .ok .nodeEnd
  else
    match tokenizeDsl line with
    | none => .error (pys "no tokenizer match")
    | some tk =>
      if memS tk.ttype NODE_TYPES then
        if tk.ttype = pys "gff.Struct" then
          match tk.structId with
          | none => .error (pys "gff.Struct is missing its id")
          | some sid =>
            .ok (.field tk.ttype tk.name (some (get_unprettified_sentinel_str sid)) tk.value true)
        else .ok (.field tk.ttype tk.name tk.structId tk.value true)
      else
        if tk.name = [] then .error (pys "missing field name")
        else
          match tk.value with
          | none => .error (pys "missing value")
          | some v0 =>
            let v1 := pyStripQuotes v0
            let esc : Except PyStr PyStr :=
              if v1.any (· = '\\') then
                if memS tk.ttype ESCAPED_STRING_TYPES then .ok (unescape_escaped_string v1)
                else if memS tk.ttype LITERAL_STRING_TYPES then
                  .error (pys "Backslashes are not allowed in literal strings")
                else .error (pys "Backslashes are not allowed in values")
              else .ok v1
            match esc with
            | .error e => .error e
            | .ok v2 =>
              let v3 := if tk.ttype = pys "gff.MagicTag" then normalize_magic_tag v2 else v2
              let v4 := if tk.ttype = pys "gff.Dword" then get_unprettified_sentinel_str v3 else v3
              .ok (.field tk.ttype tk.name tk.structId (some v4) false)

/-- `build_ndugff_field`: struct-id conversion, `set_constructor` and the
value conversion.  For node fields the constructor is called with no
arguments (`dict()`/`list()`); for leaves it is applied to the token text. -/
def build_ndugff_field (t nm : PyStr) (sid : Option PyStr) (v : Option PyStr)
    (isNode : Bool) : Except PyStr (NduKey × NduVal) :=
  let idStep : Except PyStr (Option Int) :=
    if t = pys "gff.Struct" then
      match sid with
      | none => .error (pys "Could not convert id")
      | some s =>
        match pyIntOfStr s with
        | none => .error (pys "Could not convert id")
        | some i => .ok (some i)
    else .ok none
  match idStep with
  | .error e => .error e
  | .ok fid =>
    match vkindOf t with
    | none => .error (pys "Unknown value type")
    | some vk =>
      let key : NduKey := ⟨t, nm, fid⟩
      if isNode then
        -- `constructor()`: `dict()`, `list()`, `int()`, `float()`, `str()`.
        let fresh : NduVal :=
          match vk with
          | .vdict => .dictV .nil
          | .vlist => .listV .lnil
          | .vint => .intV 0
          | .vfloat => .floatV (pys "0.0")
          | .vstr => .strV []
        .ok (key, fresh)
      else
        match v with
        | none => .error (pys "Could not convert value")
        | some s =>
          match vk with
          | .vint =>
            match pyIntOfStr s with
            | none => .error (pys "Could not convert value")
            | some n => .ok (key, .intV n)
          | .vfloat =>
            if pyFloatOk s then .ok (key, .floatV s)
            else .error (pys "Could not convert value")
          | .vstr => .ok (key, .strV s)
          | .vdict => .error (pys "Could not convert value")
          | .vlist => .error (pys "Could not convert value")

/-- One stack frame of `build_ndugff_dict`: the single-entry dictionary
`{key: container}`; the bottom frame is `{"root": dict()}` (key `none`). -/
inductive FrameBody
  | fdict (d : NduDict)
  | flist (l : NduList)
deriving DecidableEq, Repr

structure Frame where
  key : Option NduKey
  body : FrameBody
deriving DecidableEq, Repr

/-- The machine stack, top frame first (`stack[-1]` is the head,
`stack[0]` the last element). -/
abbrev MachState := List Frame

def FrameBody.toVal : FrameBody → NduVal
  | .fdict d => .dictV d
  | .flist l => .listV l

/-- One parsed line applied to the stack (the loop body of
`build_ndugff_dict`). -/
def applyLine (st : MachState) (l : DslLine) : Except PyStr MachState :=
  match l with
  | .skip => .ok st
  | .nodeEnd =>
    match st with
    | top :: parent :: rest =>
      match top.key with
      | none => .error (pys "internal: root frame popped")
      | some k =>
        match parent.body with
        | .flist pl =>
          .ok ({ parent with body := .flist (pl.push (.cons k top.body.toVal .nil)) } :: rest)
        | .fdict pd =>
          .ok ({ parent with body := .fdict (pd.push k top.body.toVal) } :: rest)
    | _ => .error (pys "Unexpected end() without matching open node")
  | .field t nm sid v isNode =>
    match build_ndugff_field t nm sid v isNode with
    | .error e => .error e
    | .ok (k, fv) =>
      if isNode then
        match fv with
        | .dictV d => .ok (⟨some k, .fdict d⟩ :: st)
        | .listV l => .ok (⟨some k, .flist l⟩ :: st)
        | _ => .error (pys "internal: non-container node")
      else
        match st with
        | top :: rest =>
          match top.body with
          | .fdict d => .ok ({ top with body := .fdict (d.push k fv) } :: rest)
          | .flist _ => .error (pys "This field should be under a gff.Struct")
        | [] => .error (pys "internal: empty stack")

/-- Run the machine over a list of already-stripped lines. -/
def runLinesM : MachState → List PyStr → Except PyStr MachState
  | st, [] => .ok st
  | st, ln :: rest =>
    match build_dsl_line ln with
    | .error e => .error e
    | .ok dl =>
      match applyLine st dl with
      | .error e => .error e
      | .ok st2 => runLinesM st2 rest

/-- `build_ndugff_dict` on the raw file lines: strip each line, run the
machine from `[{"root": dict()}]`, and take `stack[0]["root"]`.  Note that
no check of the final stack height is performed: unclosed nodes at
end-of-file are silently discarded. -/
def build_ndugff_dict (lines : List PyStr) : Except PyStr NduDict :=
  match runLinesM [⟨none, .fdict .nil⟩] (lines.map pyStrip) with
  | .error e => .error e
  | .ok st =>
    match st.getLast? with
    | some f =>
      match f.body with
      | .fdict d => .ok d
      | .flist _ => .error (pys "internal: root frame is not a dict")
    | none => .error (pys "internal: empty stack")

/-! ## `_Dict.reorder`: the canonical ordering -/

/-- `list(arg_field_types).index(arg_key.type)` (total here: parsed keys
always carry registry types; Python raises for others). -/
def typeIndex (t : PyStr) : Nat := DSL_TYPE_NAMES.findIdx (fun x => x = t)

/-- Python `str` comparison, lexicographic by code point. -/
def strLeC : PyStr → PyStr → Bool
  | [], _ => true
  | _ :: _, [] => false
  | a :: as, b :: bs => if a = b then strLeC as bs else decide (a.val < b.val)

/-- The `sort_key` tuple order: `(type_index, name.lower())`. -/
def sortKeyLe (a b : NduKey) : Bool :=
  if typeIndex a.ftype = typeIndex b.ftype then strLeC (pyLower a.name) (pyLower b.name)
  else decide (typeIndex a.ftype < typeIndex b.ftype)

/-- Stable insertion of one pair into an already sorted dictionary
(equal keys keep the earlier element first, as Python's stable `sorted`). -/
def insertSorted (k : NduKey) (v : NduVal) : NduDict → NduDict
  | .nil => .cons k v .nil
  | .cons k2 v2 r =>
    if sortKeyLe k k2 then .cons k v (.cons k2 v2 r)
    else .cons k2 v2 (insertSorted k v r)

/-- Stable sort of one dictionary level (Python's stable `sorted`). -/
def insertionSortD : NduDict → NduDict
  | .nil => .nil
  | .cons k v r => insertSorted k v (insertionSortD r)

mutual
def NduVal.szV : NduVal → Nat
  | .dictV d => d.szD + 1
  | .listV l => l.szL + 1
  | _ => 1

def NduDict.szD : NduDict → Nat
  | .nil => 0
  | .cons _ v r => v.szV + r.szD + 1

def NduList.szL : NduList → Nat
  | .lnil => 0
  | .lcons e r => e.szD + r.szL + 1
end

theorem szD_insertSorted (k : NduKey) (v : NduVal) :
    ∀ d : NduDict, (insertSorted k v d).szD = v.szV + d.szD + 1
  | .nil => by simp [insertSorted, NduDict.szD]
  | .cons k2 v2 r => by
    by_cases h : sortKeyLe k k2 = true
    · simp [insertSorted, h, NduDict.szD]
    · simp only [insertSorted, h, if_false, NduDict.szD, Bool.false_eq_true]
      rw [szD_insertSorted k v r]
      omega

theorem szD_insertionSortD : ∀ d : NduDict, (insertionSortD d).szD = d.szD
  | .nil => rfl
  | .cons k v r => by
    simp only [insertionSortD, NduDict.szD, szD_insertSorted, szD_insertionSortD r]

mutual
/-- `sort_recursive` on a dictionary.  Python sorts one level and then
rebuilds it recursing into the values; since the comparator reads only
keys, sorting and the recursion into values commute, and this fused form
(insert each recursed pair into the sorted rest) is definitionally
structural.  `sortRecD_eq_python_order` below proves it equal to the
literal sort-then-map composition. -/
def sortRecD : NduDict → NduDict
  | .nil => .nil
  | .cons k v r => insertSorted k (sortRecV v) (sortRecD r)

def sortRecV : NduVal → NduVal
  | .dictV d => .dictV (sortRecD d)
  | .listV l => .listV (sortRecL l)
  | v => v

def sortRecL : NduList → NduList
  | .lnil => .lnil
  | .lcons e r => .lcons (sortRecD e) (sortRecL r)
end

/-- The value-recursion pass alone (the dict comprehension
`{k: sort_recursive(v) for k, v in sorted_items}`). -/
def mapSortVals : NduDict → NduDict
  | .nil => .nil
  | .cons k v r => .cons k (sortRecV v) (mapSortVals r)

theorem mapSortVals_insertSorted (k : NduKey) (v : NduVal) :
    ∀ d : NduDict, mapSortVals (insertSorted k v d) =
      insertSorted k (sortRecV v) (mapSortVals d)
  | .nil => rfl
  | .cons k2 v2 r => by
    by_cases h : sortKeyLe k k2 = true
    · simp [insertSorted, h, mapSortVals]
    · simp [insertSorted, h, mapSortVals, mapSortVals_insertSorted k v r]

/-- The fused `sortRecD` equals Python's literal order of operations:
sort the level first, then recurse into the values of the sorted items. -/
theorem sortRecD_eq_python_order : ∀ d : NduDict,
    sortRecD d = mapSortVals (insertionSortD d)
  | .nil => rfl
  | .cons k v r => by
    simp [sortRecD, insertionSortD, mapSortVals_insertSorted,
      sortRecD_eq_python_order r]

/-- `_Dict.reorder(self._FIELD_TYPES)`. -/
def reorder (d : NduDict) : NduDict := sortRecD d

/-- The dictionary produced by `load_ndugff` from the file's lines
(conversion plus the final `reorder`). -/
def load_ndugff_lines (lines : List PyStr) : Except PyStr NduDict :=
  match build_ndugff_dict lines with
  | .error e => .error e
  | .ok d => .ok (reorder d)

/-! ## `write_ndugff`: the DSL emitter -/

/-- `get_escaped_string`: `"` → `\"`, TAB → `\t`, CRLF → `\n`, LF → `\n`. -/
def get_escaped_string (v : PyStr) : PyStr :=
  pyReplace (pys "\n") (pys "\\n")
    (pyReplace (pys "\r\n") (pys "\\n")
      (pyReplace (pys "\t") (pys "\\t")
        (pyReplace (pys "\"") (pys "\\\"") v)))

/-- `get_pretty_sentinel`: `-1 if v == 0xFFFFFFFF else v`. -/
def get_pretty_sentinel (v : Int) : Int :=
  if v = GFF_UINT32_SENTINEL then PRETTY_SENTINEL else v

/-- `get_indent`: four spaces per depth level. -/
def get_indent (depth : Nat) : PyStr := List.replicate (4 * depth) ' '

/-- The indent of an `end()` line: `int(4 * (depth + 0.5))` spaces. -/
def get_indent_end (depth : Nat) : PyStr := List.replicate (4 * depth + 2) ' '

/-- The text Python's f-string interpolation produces for a leaf value
(`{v}` for an `int`, `float` or `str`).  The container cases are
unreachable for the keys this is called on (Python would interpolate the
container's `repr`); well-formedness excludes them. -/
def pyStrOfVal : NduVal → PyStr
  | .intV n => intReprPy n
  | .floatV r => r
  | .strV s => s
  | .dictV _ => []
  | .listV _ => []

/-- `get_formatted_key`. -/
def get_formatted_key (k : NduKey) : PyStr :=
  if k.ftype = pys "gff.Struct" then
    k.ftype ++ pys "(" ++ k.name ++ pys ").id(" ++
      (match k.fid with
       | some i => intReprPy (get_pretty_sentinel i)
       | none => pys "None") ++ pys ")"
  else k.ftype ++ pys "(" ++ k.name ++ pys ")"

/-- `get_formatted_value` (the `: value` tail of a leaf line). -/
def get_formatted_value (k : NduKey) (v : NduVal) : PyStr :=
  let s :=
    if memS k.ftype ESCAPED_STRING_TYPES then get_escaped_string (pyStrOfVal v)
    else if k.ftype = pys "gff.Dword" then
      match v with
      | .intV n => intReprPy (get_pretty_sentinel n)
      | other => pyStrOfVal other
    else pyStrOfVal v
  let s2 :=
    if memS k.ftype ESCAPED_STRING_TYPES || memS k.ftype LITERAL_STRING_TYPES then
      pys "\"" ++ s ++ pys "\""
    else s
  pys ": " ++ s2

mutual
/-- `dump_dict_lines`: one line per field; a `dict`-valued field recurses
then closes with `end()`, a `list`-valued field dumps each element then
closes with one `end()`. -/
def dump_dict_lines (d : NduDict) (depth : Nat) : List PyStr :=
  match d with
  | .nil => []
  | .cons k v r =>
    let fieldLine := get_indent depth ++ get_formatted_key k ++
      (if memS k.ftype NODE_TYPES then [] else get_formatted_value k v)
    let sub : List PyStr :=
      match v with
      | .dictV dv => dump_dict_lines dv (depth + 1) ++ [get_indent_end depth ++ pys "end()"]
      | .listV lv => dump_list_lines lv (depth + 1) ++ [get_indent_end depth ++ pys "end()"]
      | _ => []
    (fieldLine :: sub) ++ dump_dict_lines r depth

def dump_list_lines (l : NduList) (depth : Nat) : List PyStr :=
  match l with
  | .lnil => []
  | .lcons e r => dump_dict_lines e depth ++ dump_list_lines r depth
end

/-- The lines `write_ndugff` emits for a loaded dictionary (the file on
disk is these lines joined with a single newline). -/
def write_ndugff_lines (d : NduDict) : List PyStr := dump_dict_lines d 0

/-! ## Well-formedness of a loaded dictionary

`WfDict d` captures the shape every well-behaved loaded document has:
registry-typed keys whose value variant matches the registry's
`internal_value_type`, tokenizer-compatible names, struct ids only on
structs, and string payloads whose text survives the DSL quoting layer
(no backslash or carriage return, no trailing quote or trailing
whitespace in escaped strings, no quote/newline in literal strings, a
4-character magic tag).  These are hypotheses of the round-trip theorems;
the corrected claims record exactly which of them the source forces. -/

def wfEscapedStr (s : PyStr) : Bool :=
  !(s.any (fun c => c = '\\' || c = '\r')) && pyRstrip s = s &&
    (s.getLast? ≠ some '"')

def wfLiteralStr (s : PyStr) : Bool :=
  !(s.any (fun c => c = '\\' || c = '\r' || c = '\n' || c = '"'))

def wfName (n : PyStr) : Bool := n.all isWordOrSpace

/-- The characters a CPython `repr(float)` can produce (digits, sign,
point, exponent marker, `inf`/`nan` letters — all alphanumeric or one of
`.`, `+`, `-`). -/
def floatTokenChar (c : Char) : Bool :=
  c.isAlphanum || c = '.' || c = '+' || c = '-' 

mutual
def wfPair (k : NduKey) (v : NduVal) : Bool :=
  wfName k.name &&
  (if k.ftype = pys "gff.Struct" then
    (match k.fid, v with
     | some i, .dictV d => decide (i ≠ -1) && wfDict d
     | _, _ => false)
  else if k.ftype = pys "gff.CExoLocString" then
    (match k.fid, v with
     | none, .dictV d => wfDict d
     | _, _ => false)
  else if k.ftype = pys "gff.List" then
    (match k.fid, v with
     | none, .listV l => wfList l
     | _, _ => false)
  else
    decide (k.name ≠ []) && decide (k.fid = none) &&
    (match vkindOf k.ftype, v with
     | some .vint, .intV n =>
       if k.ftype = pys "gff.Dword" then decide (n ≠ -1) else true
     | some .vfloat, .floatV r => pyFloatOk r && r.all floatTokenChar
     | some .vstr, .strV s =>
       if memS k.ftype ESCAPED_STRING_TYPES then wfEscapedStr s
       else if k.ftype = pys "gff.MagicTag" then wfLiteralStr s && decide (s.length = 4)
       else wfLiteralStr s
     | _, _ => false))

def wfDict : NduDict → Bool
  | .nil => true
  | .cons k v r => wfPair k v && wfDict r

def wfList : NduList → Bool
  | .lnil => true
  | .lcons e r => wfElem e && wfList r

def wfElem : NduDict → Bool
  | .cons k v .nil => wfPair k v && memS k.ftype NODE_TYPES
  | _ => false
end

/-! ## `_Paths`: extension validation

`_is_file_of_type` inspects `Path(arg_path).suffixes`; the embedding takes
that suffix list directly (the `pathlib` split itself is library code).
The filesystem existence test (`fp.is_file()` / `fp.is_dir()` guarded by
`try`) is abstracted by the boolean `fsOk`. -/

def GFF_EXTENSIONS : List PyStr :=
  [pys ".are", pys ".git", pys ".gic", pys ".bic", pys ".dlg", pys ".gff",
   pys ".gui", pys ".ifo", pys ".fac", pys ".jrl", pys ".itp",
   pys ".utc", pys ".utd", pys ".ute", pys ".uti", pys ".utm", pys ".utp",
   pys ".uts", pys ".utt", pys ".utw"]

def ERF_EXTENSIONS : List PyStr := [pys ".erf", pys ".hak", pys ".mod", pys ".nwm"]

/-- The `FILE_EXTENSIONS` table: a single extension or an extension family. -/
inductive ExtEntry
  | single (e : PyStr)
  | family (es : List PyStr)

def FILE_EXTENSIONS (key : PyStr) : Option ExtEntry :=
  if key = pys "ndugff" then some (.single (pys ".ndugff"))
  else if key = pys "json" then some (.single (pys ".json"))
  else if key = pys "gff" then some (.family GFF_EXTENSIONS)
  else if key = pys "erf" then some (.family ERF_EXTENSIONS)
  else none

/-- Does a suffix satisfy a `FILE_EXTENSIONS` entry? -/
def extMatches (entry : ExtEntry) (sfx : PyStr) : Bool :=
  match entry with
  | .single e => sfx = e
  | .family es => memS sfx es

/-- `_Paths._is_file_of_type` on the suffix list of the argument path. -/
def is_file_of_type (suffixes : List PyStr) (skipExist fsOk : Bool)
    (targetType : PyStr) (baseType : Option PyStr) : Bool :=
  -- one or two suffixes, else reject
  match hlen : suffixes with
  | [s1, s2] =>
    let targetSuffix := pyLower s2
    let baseSuffix := some (pyLower s1)
    check1 targetSuffix baseSuffix skipExist fsOk targetType baseType
  | [s1] => check1 (pyLower s1) none skipExist fsOk targetType baseType
  | _ => false
where
  check1 (targetSuffix : PyStr) (baseSuffix : Option PyStr) (skipExist fsOk : Bool)
      (targetType : PyStr) (baseType : Option PyStr) : Bool :=
    match FILE_EXTENSIONS targetType with
    | none => false
    | some te =>
      if !extMatches te targetSuffix then false
      else
        -- `if arg_base_type and base_suffix:` — the base check is skipped
        -- when either is missing
        let baseOk :=
          match baseType, baseSuffix with
          | some bt, some bs =>
            match FILE_EXTENSIONS bt with
            | none => false
            | some be => extMatches be bs
          | _, _ => true
        if !baseOk then false
        else skipExist || fsOk

/-- `_Paths.is_gff_file`. -/
def is_gff_file (suffixes : List PyStr) (skipExist fsOk : Bool) : Bool :=
  is_file_of_type suffixes skipExist fsOk (pys "gff") none

/-- `_Paths.is_ndugff_file`. -/
def is_ndugff_file (suffixes : List PyStr) (skipExist fsOk : Bool) : Bool :=
  is_file_of_type suffixes skipExist fsOk (pys "ndugff") (some (pys "gff"))

/-- `_Paths.is_json_file`. -/
def is_json_file (suffixes : List PyStr) (skipExist fsOk : Bool) : Bool :=
  is_file_of_type suffixes skipExist fsOk (pys "json") (some (pys "gff"))

/-! ## `_Erf._Single`: output file type selection -/

/-- `_ERF_TYPES` (bytes values modeled as character lists). -/
def ERF_TYPES (ext : PyStr) : Option PyStr :=
  if ext = pys ".erf" then some (pys "ERF ")
  else if ext = pys ".mod" then some (pys "MOD ")
  else if ext = pys ".hak" then some (pys "HAK ")
  else if ext = pys ".nvm" then some (pys "NVM ")
  else none

/-- `_get_erf_type_by_extension`: the returned file type together with
whether the warning was printed to the diagnostic stream.  Note the
fallback literal in the source is `b"ERF"` (three bytes). -/
def get_erf_type_by_extension (ext : PyStr) : PyStr × Bool :=
  match ERF_TYPES (pyLower ext) with
  | some t => (t, false)
  | none => (pys "ERF", true)

/-! ## `load_json`: value conversion

The JSON text itself is decoded by Python's `json.load` (library code);
the embedding starts from the decoded value tree. -/

inductive JVal where
  | jnull
  | jbool (b : Bool)
  | jint (n : Int)
  | jfloat (r : PyStr)
  | jstr (s : PyStr)
  | jarr (elems : List JVal)
  | jobj (fields : List (PyStr × JVal))
deriving Repr

/-- `get_unprettified_sentinel` of `load_json` compares the JSON value to
the `int` `-1`.  (Python would also equate `-1.0` and no other value in
this codec's inputs; the float case is not modeled — no field reaches it.) -/
def get_unprettified_sentinel_j (v : JVal) : JVal :=
  match v with
  | .jint n => if n = PRETTY_SENTINEL then .jint GFF_UINT32_SENTINEL else v
  | _ => v

/-- Python `int(x)` on a decoded JSON value (`bool` is an `int` subclass;
a float truncates toward zero — only plain decimal forms are modeled,
nothing in this development reaches the others). -/
def jsonToInt : JVal → Option Int
  | .jint n => some n
  | .jbool b => some (if b then 1 else 0)
  | .jstr s => pyIntOfStr s
  | .jfloat r =>
    (match r with
     | '-' :: t =>
       (decDigitsVal (t.takeWhile isDigitC)).map (fun n => -(n : Int))
     | t => (decDigitsVal (t.takeWhile isDigitC)).map (fun n => (n : Int)))
  | _ => none

/-- Python `float(x)` on a decoded JSON value, in the repr-text model. -/
def jsonToFloatRepr : JVal → Option PyStr
  | .jfloat r => some r
  | .jint n => some (intReprPy n ++ pys ".0")
  | .jbool b => some (if b then pys "1.0" else pys "0.0")
  | .jstr s => if pyFloatOk s then some s else none
  | _ => none

/-- Python `str(x)` on a decoded JSON value (containers would stringify to
their repr; they never reach this converter through the validated paths
and are modeled as failures). -/
def jsonToStr : JVal → Option PyStr
  | .jstr s => some s
  | .jint n => some (intReprPy n)
  | .jbool b => some (if b then pys "True" else pys "False")
  | .jnull => some (pys "None")
  | .jfloat r => some r
  | _ => none

/-- `get_ndugff_value` of `load_json`: the backslash rejection for
literal-string types, the (raw-string) `\r\n` → `\n` rewrite and `rstrip`
for escaped-string types, the sentinel mapping for `gff.Dword`, then the
`internal_value_type` conversion. -/
def get_ndugff_value_json (t : PyStr) (v : JVal) : Except PyStr NduVal :=
  let bsCheck : Except PyStr Unit :=
    if memS t LITERAL_STRING_TYPES then
      match v with
      | .jstr s => if s.any (· = '\\') then .error (pys "Backslashes are not allowed in literal strings") else .ok ()
      | _ => .error (pys "literal value is not a string")
    else .ok ()
  match bsCheck with
  | .error e => .error e
  | .ok _ =>
    let v2 : Except PyStr JVal :=
      if memS t ESCAPED_STRING_TYPES then
        match v with
        | .jstr s => .ok (.jstr (pyRstrip (pyReplace (pys "\\r\\n") (pys "\\n") s)))
        | _ => .error (pys "escaped value is not a string")
      else if t = pys "gff.Dword" then .ok (get_unprettified_sentinel_j v)
      else .ok v
    match v2 with
    | .error e => .error e
    | .ok w =>
      match vkindOf t with
      | none => .error (pys "Unknown DSL type")
      | some vk =>
        match vk with
        | .vint =>
          match jsonToInt w with
          | some n => .ok (.intV n)
          | none => .error (pys "Could not convert value")
        | .vfloat =>
          match jsonToFloatRepr w with
          | some r => .ok (.floatV r)
          | none => .error (pys "Could not convert value")
        | .vstr =>
          match jsonToStr w with
          | some s => .ok (.strV s)
          | none => .error (pys "Could not convert value")
        | .vdict => .error (pys "Could not convert value")
        | .vlist => .error (pys "Could not convert value")

/-- `get_ndugff_value` of `load_gff` on a string-valued field (the
escaped-string normalization; `str(...)` is then the identity). -/
def get_ndugff_value_gff_str (t : PyStr) (s : PyStr) : PyStr :=
  if memS t ESCAPED_STRING_TYPES then pyRstrip (pyReplace (pys "\r\n") (pys "\n") s)
  else s

/-! ## `write_gff`: conversion to the nwn value tree

The nwn constructors themselves are external; the embedding tags values
with the constructor chosen by `get_gff_value_type` and models the one
stdlib conversion performed inside this file, `base64.b64decode`. -/

inductive GffV where
  | gIntV (k : GKind) (n : Int)
  | gFloatVal (k : GKind) (r : PyStr)
  | gStrVal (s : PyStr)
  | gResRefVal (s : PyStr)
  | gCExoStrVal (s : PyStr)
  | gVoidVal (data : PyStr)
  | gLocStrVal (strref : Int) (entries : List (Nat × PyStr))
  | gStructVal (sid : Int) (fields : List (PyStr × GffV))
  | gListVal (elems : List GffV)
deriving Repr

/-- `self._LANGUAGES`. -/
def LANGUAGES : List (Nat × PyStr) :=
  [(0, pys "ENGLISH"), (1, pys "ENGLISH_F"), (2, pys "FRENCH"), (3, pys "FRENCH_F"),
   (4, pys "GERMAN"), (5, pys "GERMAN_F"), (6, pys "ITALIAN"), (7, pys "ITALIAN_F"),
   (8, pys "SPANISH"), (9, pys "SPANISH_F"), (10, pys "POLISH"), (11, pys "POLISH_F")]

/-- `get_gff_language`: language id by name. -/
def get_gff_language (nm : PyStr) : Except PyStr Nat :=
  match LANGUAGES.find? (fun p => p.2 = nm) with
  | some p => .ok p.1
  | none => .error (pys "Unknown Language Name")

/-- The standard base64 alphabet without padding. -/
def b64DataChar (c : Char) : Bool :=
  c.isAlpha || c.isDigit || c = '+' || c = '/'

/-- `base64.b64decode` with `validate=False` (as called): characters
outside the alphabet are discarded, then the padding is checked; a data
length of 1 more than a multiple of 4 or insufficient padding raises
`binascii.Error` (a `ValueError` subclass).  The decoded payload is
abstracted as the retained data characters. -/
def pyB64Decode (s : PyStr) : Except PyStr PyStr :=
  let data := s.filter b64DataChar
  let pads := (s.filter (· = '=')).length
  if data.length % 4 = 1 then
    .error (pys "Invalid base64-encoded string")
  else if data.length % 4 ≠ 0 ∧ pads < 4 - data.length % 4 then
    .error (pys "Incorrect padding")
  else .ok data

/-- `get_gff_value`: look the constructor up by DSL type, special-casing
`gff.VOID`.  The external nwn constructors are modeled as tags; cases
where Python would hand a container to an external constructor are
modeled as failures (they are unreachable from loader-produced data). -/
def get_gff_value (k : NduKey) (v : NduVal) : Except PyStr GffV :=
  match gkindOf k.ftype with
  | none => .error (pys "Unknown DSL type")
  | some gk =>
    match gk with
    | .gVoid =>
      match v with
      | .strV s =>
        match pyB64Decode s with
        | .ok data => .ok (.gVoidVal data)
        | .error e => .error e
      | _ => .error (pys "external: non-string void payload")
    | .gByte | .gChar | .gWord | .gShort | .gInt | .gDword | .gInt64 | .gDword64 =>
      match v with
      | .intV n => .ok (.gIntV gk n)
      | _ => .error (pys "external: non-int payload")
    | .gFloat | .gDouble =>
      match v with
      | .floatV r => .ok (.gFloatVal gk r)
      | _ => .error (pys "external: non-float payload")
    | .gStr =>
      match v with
      | .strV s => .ok (.gStrVal s)
      | .intV n => .ok (.gStrVal (intReprPy n))
      | .floatV r => .ok (.gStrVal r)
      | _ => .error (pys "external: container payload")
    | .gResRef =>
      match v with
      | .strV s => .ok (.gResRefVal s)
      | _ => .error (pys "external: non-string payload")
    | .gCExoString =>
      match v with
      | .strV s => .ok (.gCExoStrVal s)
      | _ => .error (pys "external: non-string payload")
    | _ => .error (pys "external: constructor not applicable")

/-- `get_gff_cexolocstring`. -/
def get_gff_cexolocstring (d : NduDict) : Except PyStr GffV :=
  go d GFF_UINT32_SENTINEL []
where
  go : NduDict → Int → List (Nat × PyStr) → Except PyStr GffV
  | .nil, strref, entries => .ok (.gLocStrVal strref entries)
  | .cons k v r, strref, entries =>
    match gkindOf k.ftype with
    | none => .error (pys "Unknown DSL type")
    | some gk =>
      if gk = .gDword ∧ k.name = pys "strref" then
        match get_gff_value k v with
        | .ok (.gIntV _ n) => go r n entries
        | .ok _ => .error (pys "external: unexpected strref value")
        | .error e => .error e
      else if gk = .gLang then
        match get_gff_language k.name with
        | .ok lid =>
          match v with
          | .strV s => go r strref (entries ++ [(lid, s)])
          | .intV n => go r strref (entries ++ [(lid, intReprPy n)])
          | .floatV fr => go r strref (entries ++ [(lid, fr)])
          | _ => .error (pys "external: container language text")
        | .error e => .error e
      else go r strref entries

/-! `get_gff_struct` and its mutual helpers, written with a step count so
that the recursion is structural (the nesting depth of a dictionary is
bounded by its size, so `szD`-based fuel always suffices; exhausting it
is unreachable and mapped to an internal error). -/

mutual
def gffStructF : Nat → NduKey → NduDict → Except PyStr GffV
  | 0, _, _ => .error (pys "internal: fuel")
  | fuel + 1, k, d =>
    match gffFieldsF fuel d with
    | .error e => .error e
    | .ok fields => .ok (.gStructVal (k.fid.getD 0) fields)

def gffFieldsF : Nat → NduDict → Except PyStr (List (PyStr × GffV))
  | 0, _ => .error (pys "internal: fuel")
  | _ + 1, .nil => .ok []
  | fuel + 1, .cons k v r =>
    let one : Except PyStr GffV :=
      if k.ftype = pys "gff.Struct" then
        match v with
        | .dictV dv => gffStructF fuel k dv
        | _ => .error (pys "external: struct value is not a dict")
      else if k.ftype = pys "gff.List" then
        match v with
        | .listV lv =>
          match gffListF fuel lv with
          | .ok elems => .ok (.gListVal elems)
          | .error e => .error e
        | _ => .error (pys "external: list value is not a list")
      else if k.ftype = pys "gff.CExoLocString" then
        match v with
        | .dictV dv => get_gff_cexolocstring dv
        | _ => .error (pys "external: locstring value is not a dict")
      else get_gff_value k v
    match one with
    | .error e => .error e
    | .ok gv =>
      match gffFieldsF fuel r with
      | .error e => .error e
      | .ok rest => .ok ((k.name, gv) :: rest)

def gffListF : Nat → NduList → Except PyStr (List GffV)
  | 0, _ => .error (pys "internal: fuel")
  | _ + 1, .lnil => .ok []
  | fuel + 1, .lcons e r =>
    match gffElemF fuel e with
    | .error er => .error er
    | .ok gvs =>
      match gffListF fuel r with
      | .error er => .error er
      | .ok rest => .ok (gvs ++ rest)

/-- One list element: `for k, v in child.items(): gff_value.append(get_gff_struct(k, v))`. -/
def gffElemF : Nat → NduDict → Except PyStr (List GffV)
  | 0, _ => .error (pys "internal: fuel")
  | _ + 1, .nil => .ok []
  | fuel + 1, .cons k v r =>
    match v with
    | .dictV dv =>
      match gffStructF fuel k dv with
      | .error er => .error er
      | .ok gv =>
        match gffElemF fuel r with
        | .error er => .error er
        | .ok rest => .ok (gv :: rest)
    | _ => .error (pys "external: list child entry is not a dict")
end

/-- `get_gff_struct`. -/
def get_gff_struct (k : NduKey) (d : NduDict) : Except PyStr GffV :=
  gffStructF (d.szD + 1) k d

/-- `get_gff_data`: pick out `__root__` and `__type__` from the loaded
dictionary. -/
def get_gff_data (d : NduDict) : Except PyStr (Option GffV × Option GffV) :=
  go d none none
where
  go : NduDict → Option GffV → Option GffV → Except PyStr (Option GffV × Option GffV)
  | .nil, root, ty => .ok (root, ty)
  | .cons k v r, root, ty =>
    if k.name = pys "__root__" then
      match v with
      | .dictV dv =>
        match get_gff_struct k dv with
        | .ok gv => go r (some gv) ty
        | .error e => .error e
      | _ => .error (pys "external: root value is not a dict")
    else if k.name = pys "__type__" then
      match get_gff_value k v with
      | .ok gv => go r root (some gv)
      | .error e => .error e
    else go r root ty

/-! ## The chainable single-file operations

Each loader's entry point validates the path, runs the conversion inside
`try: ... except ValueError: ...`, and always returns `self`; a failed
validation or a caught error leaves `self._ndugff_dict` untouched.  The
writers validate the path and the presence (and Python truthiness) of a
loaded dictionary, but run their conversion with no handler. -/

/-- `load_ndugff` as an operation on the codec state: the loaded
dictionary (`self._ndugff_dict`), or `None`.  The returned state is the
only outcome — no exception escapes. -/
def load_ndugff_op (st : Option NduDict) (validPath : Bool) (lines : List PyStr) :
    Option NduDict :=
  if validPath then
    match load_ndugff_lines lines with
    | .ok d => some d
    | .error _ => st
  else st

/-- The entry-point shape shared by `load_json` and `load_gff`: the try
block's conversion outcome is the argument (their inner pipelines run
through external decoders first). -/
def load_entry_op (st : Option NduDict) (validPath : Bool)
    (body : Except PyStr NduDict) : Option NduDict :=
  if validPath then
    match body with
    | .ok d => some d
    | .error _ => st
  else st

/-- `write_gff` as an operation: when the path validates and a (truthy)
dictionary is loaded, the conversion runs with no exception handler; the
boolean records whether an output file is produced. -/
def write_gff_op (st : Option NduDict) (validPath : Bool) :
    Except PyStr (Option NduDict × Bool) :=
  match st with
  | some d =>
    if validPath ∧ d ≠ .nil then
      match get_gff_data d with
      | .error e => .error e
      | .ok _ => .ok (st, true)
    else .ok (st, false)
  | none => .ok (st, false)

/-- `write_ndugff` as an operation (its conversion is pure; only path
validation and state truthiness gate the write). -/
def write_ndugff_op (st : Option NduDict) (validPath : Bool) :
    Except PyStr (Option NduDict × Bool) :=
  match st with
  | some d => if validPath ∧ d ≠ .nil then .ok (st, true) else .ok (st, false)
  | none => .ok (st, false)

/-- The amended acceptance condition, written from the amended claim: a
path is accepted exactly when the existence gate passes and the suffixes
are `[inner, target]` with a GFF-family inner suffix, or just `[target]`
(no inner suffix present, in which case the inner check is skipped). -/
def acceptedSuffixesSpec (target : PyStr) (sfxs : List PyStr) : Bool :=
  match sfxs with
  | [s1, s2] => pyLower s2 = target && memS (pyLower s1) GFF_EXTENSIONS
  | [s1] => pyLower s1 = target
  | _ => false

/-- The ten decimal digit characters. -/
def TEN_DIGITS : PyStr := pys "0123456789"

/-- Concatenation map over the characters of a string. -/
def cmStr (f : Char → PyStr) : PyStr → PyStr
  | [] => []
  | c :: r => f c ++ cmStr f r

/-- Per-character view of `get_escaped_string` (valid when the input has
no carriage return, which `wfEscapedStr` guarantees). -/
def escChar (c : Char) : PyStr :=
  if c = '"' then ['\\', '"']
  else if c = '\t' then ['\\', 't']
  else if c = '\n' then ['\\', 'n']
  else [c]

def escStr : PyStr → PyStr
  | [] => []
  | c :: r => escChar c ++ escStr r

/-- The intermediate per-character images after each unescape stage. -/
def esc1 (c : Char) : PyStr :=
  if c = '"' then ['"']
  else if c = '\t' then ['\\', 't']
  else if c = '\n' then ['\\', 'n']
  else [c]

def esc2 (c : Char) : PyStr :=
  if c = '\n' then ['\\', 'n'] else [c]

def NduDict.appD : NduDict → NduDict → NduDict
  | .nil, e => e
  | .cons k v r, e => .cons k v (r.appD e)

def NduList.appL : NduList → NduList → NduList
  | .lnil, e => e
  | .lcons x r, e => .lcons x (r.appL e)

def catD : NduDict → NduDict → NduDict
  | d, .nil => d
  | d, .cons k v r => catD (d.push k v) r

def catL : NduList → NduList → NduList
  | l, .lnil => l
  | l, .lcons e r => catL (l.push e) r

/-- The token-processing tail of `build_dsl_line` (everything after the
tokenizer has matched), split out to state lemmas about emitted lines. -/
def build_dsl_from_tokens (tk : DslTokens) : Except PyStr DslLine :=
  if memS tk.ttype NODE_TYPES then
    if tk.ttype = pys "gff.Struct" then
      match tk.structId with
      | none => .error (pys "gff.Struct is missing its id")
      | some sid =>
        .ok (.field tk.ttype tk.name (some (get_unprettified_sentinel_str sid))
          tk.value true)
    else .ok (.field tk.ttype tk.name tk.structId tk.value true)
  else
    if tk.name = [] then .error (pys "missing field name")
    else
      match tk.value with
      | none => .error (pys "missing value")
      | some v0 =>
        let v1 := pyStripQuotes v0
        let esc : Except PyStr PyStr :=
          if v1.any (· = '\\') then
            if memS tk.ttype ESCAPED_STRING_TYPES then .ok (unescape_escaped_string v1)
            else if memS tk.ttype LITERAL_STRING_TYPES then
              .error (pys "Backslashes are not allowed in literal strings")
            else .error (pys "Backslashes are not allowed in values")
          else .ok v1
        match esc with
        | .error e => .error e
        | .ok v2 =>
          let v3 := if tk.ttype = pys "gff.MagicTag" then normalize_magic_tag v2 else v2
          let v4 := if tk.ttype = pys "gff.Dword" then get_unprettified_sentinel_str v3
            else v3
          .ok (.field tk.ttype tk.name tk.structId (some v4) false)

/-- A loaded document whose `CExoString` value holds a backslash: the text
`\tx` (backslash, `t`, `x`), which `load_json` produces unchanged. -/
def docC1 : NduDict :=
  .cons ⟨pys "gff.CExoString", pys "Text", none⟩ (.strV (pys "\\tx")) .nil

/-- A richly typed, canonically ordered document whose escaped string
holds a quote, a tab and a newline. -/
def docW : NduDict := NduDict.ofList [
  (⟨pys "gff.Byte", pys "Alpha", none⟩, .intV 3),
  (⟨pys "gff.Dword", pys "Sentinel", none⟩, .intV 4294967295),
  (⟨pys "gff.Float", pys "Speed", none⟩, .floatV (pys "1.5")),
  (⟨pys "gff.MagicTag", pys "__data_type", none⟩, .strV (pys "GFF ")),
  (⟨pys "gff.CExoString", pys "Desc", none⟩,
    .strV (pys "say \"hi\"\there\nok")),
  (⟨pys "gff.CExoLocString", pys "Loc", none⟩,
    .dictV (NduDict.ofList [(⟨pys "gff.Language", pys "0", none⟩,
      .strV (pys "hello"))])),
  (⟨pys "gff.Struct", pys "S", some 4294967295⟩,
    .dictV (NduDict.ofList [(⟨pys "gff.Int", pys "N", none⟩, .intV (-5))])),
  (⟨pys "gff.List", pys "Items", none⟩,
    .listV (NduList.ofList [NduDict.ofList
      [(⟨pys "gff.Struct", pys "", some 0⟩,
        .dictV (NduDict.ofList [(⟨pys "gff.Word", pys "W", none⟩,
          .intV 7)]))]]))]

/-- A well-formed document whose fields are not in canonical order. -/
def docW8 : NduDict := NduDict.ofList [
  (⟨pys "gff.CExoString", pys "Name", none⟩, .strV (pys "x")),
  (⟨pys "gff.Byte", pys "A", none⟩, .intV 1)]

/-! ## Helper lemmas -/

theorem tokenizeDsl_nil : tokenizeDsl [] = none := rfl

theorem tokenizeDsl_end : tokenizeDsl (pys "end()") = none := rfl

theorem tokenizeDsl_hash (r : PyStr) : tokenizeDsl ('#' :: r) = none := rfl

theorem isPre_hash (line : PyStr) :
    isPre (pys "#") line = true → ∃ r, line = '#' :: r := by
  cases line with
  | nil => intro h; simp [pys, isPre] at h
  | cons c r =>
    intro h
    refine ⟨r, ?_⟩
    have : c = '#' := by
      by_contra hc
      have : ¬ ('#' = c) := fun hx => hc hx.symm
      simp [pys, isPre, this] at h
    rw [this]

/-- The three literal-string types, by cases. -/
theorem memS_literal_cases (t : PyStr) (h : memS t LITERAL_STRING_TYPES = true) :
    t = pys "gff.ResRef" ∨ t = pys "gff.MagicTag" ∨ t = pys "gff.Base64String" := by
  simp only [LITERAL_STRING_TYPES, memS] at h
  by_cases h1 : pys "gff.ResRef" = t
  · exact Or.inl h1.symm
  · simp only [h1, if_false] at h
    by_cases h2 : pys "gff.MagicTag" = t
    · exact Or.inr (Or.inl h2.symm)
    · simp only [h2, if_false] at h
      by_cases h3 : pys "gff.Base64String" = t
      · exact Or.inr (Or.inr h3.symm)
      · simp [h3] at h

/-! ## Claim C7 -/

/-- Claim C7: on an unrecognized output extension the ERF writer warns on
the diagnostic channel and falls back — but the fallback the source
returns is the three-byte `b"ERF"`, not the four-byte `b"ERF "` the claim
(and the `_ERF_TYPES` table itself) uses. -/
theorem C7_erf_fallback_three_bytes :
    get_erf_type_by_extension (pys ".xyz") = (pys "ERF", true) ∧
    (pys "ERF").length = 3 ∧
    ERF_TYPES (pys ".erf") = some (pys "ERF ") ∧
    (pys "ERF ").length = 4 ∧
    pys "ERF" ≠ pys "ERF " := by
  refine ⟨rfl, rfl, rfl, rfl, ?_⟩
  decide

/-! ## Claim C9 -/

/-- Claim C9 counterexample: a path with a single `.ndugff` suffix and no
inner GFF suffix at all is accepted by `is_ndugff_file` (existence check
passed), and likewise for `is_json_file` — the validators do not require
two suffixes. -/
theorem C9_single_suffix_accepted :
    is_ndugff_file [pys ".ndugff"] false true = true ∧
    is_json_file [pys ".json"] false true = true := by
  constructor <;> rfl

/-- Claim C9 (amended): `is_ndugff_file` and `is_json_file` accept a path
iff its suffix list satisfies `acceptedSuffixesSpec` for `.ndugff` /
`.json` and the existence gate passes — two suffixes with a GFF-family
inner one, or a single target suffix with the inner check skipped. -/
theorem C9_amended_validator_characterization (sfxs : List PyStr) (skipExist fsOk : Bool) :
    is_ndugff_file sfxs skipExist fsOk =
      (acceptedSuffixesSpec (pys ".ndugff") sfxs && (skipExist || fsOk)) ∧
    is_json_file sfxs skipExist fsOk =
      (acceptedSuffixesSpec (pys ".json") sfxs && (skipExist || fsOk)) := by
  constructor
  · match sfxs with
    | [] => rfl
    | [s1] =>
      simp only [is_ndugff_file, is_file_of_type, is_file_of_type.check1,
        FILE_EXTENSIONS, extMatches, acceptedSuffixesSpec]
      by_cases h : pyLower s1 = pys ".ndugff" <;> simp [h, pys]
    | [s1, s2] =>
      simp only [is_ndugff_file, is_file_of_type, is_file_of_type.check1,
        FILE_EXTENSIONS, extMatches, acceptedSuffixesSpec]
      by_cases h : pyLower s2 = pys ".ndugff" <;>
        by_cases h2 : memS (pyLower s1) GFF_EXTENSIONS = true <;>
          simp [h, h2, pys]
    | s1 :: s2 :: s3 :: r => rfl
  · match sfxs with
    | [] => rfl
    | [s1] =>
      simp only [is_json_file, is_file_of_type, is_file_of_type.check1,
        FILE_EXTENSIONS, extMatches, acceptedSuffixesSpec]
      by_cases h : pyLower s1 = pys ".json" <;> simp [h, pys]
    | [s1, s2] =>
      simp only [is_json_file, is_file_of_type, is_file_of_type.check1,
        FILE_EXTENSIONS, extMatches, acceptedSuffixesSpec]
      by_cases h : pyLower s2 = pys ".json" <;>
        by_cases h2 : memS (pyLower s1) GFF_EXTENSIONS = true <;>
          simp [h, h2, pys]
    | s1 :: s2 :: s3 :: r => rfl

/-! ## Claim C4 -/

/-- Claim C4: `0xFFFFFFFF` is written as `-1` exactly in Dword values and
struct ids, the DSL reader maps `-1` back to `0xFFFFFFFF` in exactly those
two positions, no other value is mapped either way by the rule, and the
rule is not applied to other integer positions (e.g. `gff.Int`). -/
theorem C4_sentinel_rule :
    -- the two mapping functions, exactly at the sentinel
    get_pretty_sentinel GFF_UINT32_SENTINEL = PRETTY_SENTINEL ∧
    (∀ v : Int, v ≠ GFF_UINT32_SENTINEL → get_pretty_sentinel v = v) ∧
    get_unprettified_sentinel_str (pys "-1") = pys "4294967295" ∧
    (∀ s : PyStr, s ≠ pys "-1" → get_unprettified_sentinel_str s = s) ∧
    -- writer: a Dword value and a struct id
    (∀ nm : PyStr, get_formatted_value ⟨pys "gff.Dword", nm, none⟩
      (.intV GFF_UINT32_SENTINEL) = pys ": -1") ∧
    (∀ nm : PyStr, get_formatted_key ⟨pys "gff.Struct", nm, some GFF_UINT32_SENTINEL⟩ =
      pys "gff.Struct(" ++ nm ++ pys ").id(-1)") ∧
    -- reader: those two positions come back as the sentinel
    build_dsl_line (pys "gff.Dword(strref): -1") =
      .ok (.field (pys "gff.Dword") (pys "strref") none (some (pys "4294967295")) false) ∧
    build_dsl_line (pys "gff.Struct(A).id(-1)") =
      .ok (.field (pys "gff.Struct") (pys "A") (some (pys "4294967295")) none true) ∧
    -- the rule does not reach other positions: gff.Int is unaffected
    (∀ nm : PyStr, get_formatted_value ⟨pys "gff.Int", nm, none⟩
      (.intV GFF_UINT32_SENTINEL) = pys ": 4294967295") ∧
    build_dsl_line (pys "gff.Int(x): -1") =
      .ok (.field (pys "gff.Int") (pys "x") none (some (pys "-1")) false) := by
  refine ⟨rfl, ?_, rfl, ?_, fun nm => rfl, ?_, rfl, rfl, fun nm => rfl, rfl⟩
  · intro v hv
    simp [get_pretty_sentinel, hv]
  · intro s hs
    simp [get_unprettified_sentinel_str, hs]
  · intro nm
    show pys "gff.Struct" ++ pys "(" ++ nm ++ pys ").id(" ++
      intReprPy (get_pretty_sentinel GFF_UINT32_SENTINEL) ++ pys ")" =
      pys "gff.Struct(" ++ nm ++ pys ").id(-1)"
    have h1 : intReprPy (get_pretty_sentinel GFF_UINT32_SENTINEL) = pys "-1" := rfl
    rw [h1]
    simp [pys, List.append_assoc]

/-- Claim C4 witness: the universally quantified parts evaluated at
concrete inputs through the theorem itself. -/
theorem C4_sentinel_rule_witness :
    get_pretty_sentinel 7 = 7 ∧ get_unprettified_sentinel_str (pys "42") = pys "42" ∧
    get_formatted_value ⟨pys "gff.Dword", pys "n", none⟩ (.intV GFF_UINT32_SENTINEL) =
      pys ": -1" ∧
    get_formatted_key ⟨pys "gff.Struct", pys "A", some GFF_UINT32_SENTINEL⟩ =
      pys "gff.Struct(" ++ pys "A" ++ pys ").id(-1)" := by
  refine ⟨C4_sentinel_rule.2.1 7 (by decide), C4_sentinel_rule.2.2.2.1 (pys "42") (by decide),
    C4_sentinel_rule.2.2.2.2.1 (pys "n"), C4_sentinel_rule.2.2.2.2.2.1 (pys "A")⟩

/-! ## Claim C6 -/

/-- Claim C6: the claim says every reader folds CRLF to LF.  `load_gff`
does fold an actual CRLF and strips trailing whitespace, but `load_json`
replaces the *literal four-character text* `\r\n` (a raw-string slip), so
an actual CR+LF in a JSON string value survives into the loaded document,
and literal backslash text is corrupted instead. -/
theorem C6_json_crlf_not_folded :
    -- load_gff: actual CRLF folded, trailing whitespace stripped
    get_ndugff_value_gff_str (pys "gff.CExoString") (pys "a\r\nb  ") = pys "a\nb" ∧
    -- load_json: actual CRLF kept (claim says it must be folded)
    get_ndugff_value_json (pys "gff.CExoString") (.jstr (pys "a\r\nb")) =
      .ok (.strV (pys "a\r\nb")) ∧
    -- load_json: the literal text backslash-r-backslash-n is rewritten
    get_ndugff_value_json (pys "gff.CExoString") (.jstr (pys "a\\r\\nb")) =
      .ok (.strV (pys "a\\nb")) := by
  exact ⟨rfl, rfl, rfl⟩

/-! ## Claim C3 -/

/-- Claim C3: any literal-string-typed value (ResRef, MagicTag,
Base64String) containing a backslash is rejected with a parse error, in
the DSL line builder and in the JSON value converter; and the whole DSL
load of such a line is an error. -/
theorem C3_literal_backslash_rejected :
    (∀ (line : PyStr) (t nm : PyStr) (sid : Option PyStr) (v : PyStr),
      tokenizeDsl line = some ⟨t, nm, sid, some v⟩ →
      memS t LITERAL_STRING_TYPES = true →
      (pyStripQuotes v).any (· = '\\') = true →
      ∃ e, build_dsl_line line = .error e) ∧
    (∀ (t : PyStr) (s : PyStr),
      memS t LITERAL_STRING_TYPES = true →
      s.any (· = '\\') = true →
      get_ndugff_value_json t (.jstr s) =
        .error (pys "Backslashes are not allowed in literal strings")) ∧
    load_ndugff_lines [pys "gff.ResRef(Item): \"a\\b\""] =
      .error (pys "Backslashes are not allowed in literal strings") := by
  refine ⟨?_, ?_, rfl⟩
  · intro line t nm sid v htok hlit hbs
    have hne : ¬ (line = [] || isPre (pys "#") line) = true := by
      intro h
      rcases Bool.or_eq_true_iff.mp h with h1 | h1
      · have : line = [] := by simpa using h1
        rw [this, tokenizeDsl_nil] at htok; cases htok
      · obtain ⟨r, hr⟩ := isPre_hash line h1
        rw [hr, tokenizeDsl_hash] at htok; cases htok
    have hnend : ¬ line = pys "end()" := by
      intro h
      rw [h, tokenizeDsl_end] at htok; cases htok
    have hnotnode : memS t NODE_TYPES = false := by
      rcases memS_literal_cases t hlit with h | h | h <;> subst h <;> rfl
    unfold build_dsl_line
    rw [if_neg hne, if_neg hnend, htok]
    simp only [hnotnode, Bool.false_eq_true, if_false]
    by_cases hnm : nm = []
    · exact ⟨_, by rw [if_pos hnm]⟩
    · rw [if_neg hnm]
      have hesc : memS t ESCAPED_STRING_TYPES = false := by
        rcases memS_literal_cases t hlit with h | h | h <;> subst h <;> rfl
      simp only [hbs, if_true, hesc, Bool.false_eq_true, if_false, hlit]
      exact ⟨_, rfl⟩
  · intro t s hlit hbs
    unfold get_ndugff_value_json
    simp only [hlit, if_true, hbs]

/-- Claim C3 witness: concrete rejections through the theorem itself. -/
theorem C3_literal_backslash_rejected_witness :
    (∃ e, build_dsl_line (pys "gff.ResRef(Item): \"a\\b\"") = .error e) ∧
    get_ndugff_value_json (pys "gff.MagicTag") (.jstr (pys "U\\TC")) =
      .error (pys "Backslashes are not allowed in literal strings") := by
  refine ⟨C3_literal_backslash_rejected.1 (pys "gff.ResRef(Item): \"a\\b\"")
    (pys "gff.ResRef") (pys "Item") none (pys "\"a\\b\"") rfl (by decide) (by decide),
    C3_literal_backslash_rejected.2.1 (pys "gff.MagicTag") (pys "U\\TC")
      (by decide) (by decide)⟩

/-! ## Claim C5 -/

/-- Claim C5 counterexample: a DSL input that opens a node (`gff.List`)
and ends without the matching `end()` is *not* rejected — the parser
silently returns the root dictionary with the unclosed node discarded,
instead of raising the UnbalancedScope error the claim requires. -/
theorem C5_missing_end_not_rejected :
    build_dsl_line (pys "gff.List(Items)") =
      .ok (.field (pys "gff.List") (pys "Items") none none true) ∧
    load_ndugff_lines [pys "gff.List(Items)"] = .ok .nil ∧
    load_ndugff_lines
      [pys "gff.Struct(A).id(0)", pys "    gff.Byte(b): 1"] = .ok .nil := by
  exact ⟨rfl, rfl, rfl⟩

/-- Claim C5 (amended): an `end()` with no open node is rejected with the
UnbalancedScope `ValueError` (shown for an `end()` arriving at the empty
stack, whatever follows), but end-of-file with open nodes is not — the
parser commits the root and drops the unclosed nodes. -/
theorem C5_amended_unbalanced_end_only (rest : List PyStr) :
    load_ndugff_lines (pys "end()" :: rest) =
      .error (pys "Unexpected end() without matching open node") ∧
    load_ndugff_lines [pys "gff.List(Items)"] = .ok .nil := by
  exact ⟨rfl, rfl⟩

/-! ## Claim C2 -/

/-- Claim C2 counterexample: a DSL input whose parse raises internally
(`ValueError` through `log_and_raise`), yet the top-level `load_ndugff`
returns the codec instance with its previous document intact — the error
does not surface to the caller. -/
theorem C2_load_error_swallowed :
    load_ndugff_lines [pys "garbage"] = .error (pys "no tokenizer match") ∧
    load_ndugff_op (some (.cons ⟨pys "gff.Byte", pys "a", none⟩ (.intV 1) .nil))
      true [pys "garbage"] =
      some (.cons ⟨pys "gff.Byte", pys "a", none⟩ (.intV 1) .nil) := by
  exact ⟨rfl, rfl⟩

/-- Claim C2 (amended): every conversion error propagates exactly up to
the top-level load operation's entry point, where the `except ValueError`
handler absorbs it: the operation returns the codec instance with the
previously loaded document unchanged, and no error reaches the caller
(the operations' return type carries no error at all). -/
theorem C2_amended_errors_caught_at_entry :
    (∀ (st : Option NduDict) (lines : List PyStr) (e : PyStr),
      load_ndugff_lines lines = .error e → load_ndugff_op st true lines = st) ∧
    (∀ (st : Option NduDict) (body : Except PyStr NduDict) (e : PyStr),
      body = .error e → load_entry_op st true body = st) := by
  constructor
  · intro st lines e he
    simp [load_ndugff_op, he]
  · intro st body e he
    simp [load_entry_op, he]

/-- Claim C2 amended witness. -/
theorem C2_amended_errors_caught_at_entry_witness :
    load_ndugff_op none true [pys "garbage"] = none ∧
    load_entry_op (some .nil) true (.error (pys "boom")) = some .nil := by
  exact ⟨C2_amended_errors_caught_at_entry.1 none [pys "garbage"]
      (pys "no tokenizer match") rfl,
    C2_amended_errors_caught_at_entry.2 (some .nil) (.error (pys "boom"))
      (pys "boom") rfl⟩

/-! ## Claim C8 -/

/-- Claim C8 counterexample: the DSL *reader* does not preserve insertion
order — `load_ndugff` applies the canonical reordering to its result
(as do the other loaders), so a text file listing a `CExoString` before a
`Byte` loads with the `Byte` first; the dictionary as built before the
`reorder` call still has the insertion order. -/
theorem C8_reader_reorders :
    build_ndugff_dict
      [pys "gff.CExoString(b): \"x\"", pys "gff.Byte(a): 1"] =
      .ok (.cons ⟨pys "gff.CExoString", pys "b", none⟩ (.strV (pys "x"))
        (.cons ⟨pys "gff.Byte", pys "a", none⟩ (.intV 1) .nil)) ∧
    load_ndugff_lines
      [pys "gff.CExoString(b): \"x\"", pys "gff.Byte(a): 1"] =
      .ok (.cons ⟨pys "gff.Byte", pys "a", none⟩ (.intV 1)
        (.cons ⟨pys "gff.CExoString", pys "b", none⟩ (.strV (pys "x")) .nil)) ∧
    (NduDict.cons ⟨pys "gff.Byte", pys "a", none⟩ (.intV 1)
        (.cons ⟨pys "gff.CExoString", pys "b", none⟩ (.strV (pys "x")) .nil)) ≠
      (.cons ⟨pys "gff.CExoString", pys "b", none⟩ (.strV (pys "x"))
        (.cons ⟨pys "gff.Byte", pys "a", none⟩ (.intV 1) .nil)) := by
  refine ⟨rfl, rfl, ?_⟩
  decide

/-! ## Claim C10 -/

/-- Claim C10 counterexample: chaining can fail.  The DSL input below
loads successfully (a `Base64String` value is only checked for
backslashes at load time), producing a reachable codec state; calling
`write_gff` on it then raises from `base64.b64decode` (`binascii.Error`,
one data character) — the write runs with no exception handler, so the
error propagates instead of the operation being a no-op returning
`self`. -/
theorem C10_chained_write_raises :
    load_ndugff_lines
      [pys "gff.MagicTag(__type__): \"GFF \"",
       pys "gff.Struct(__root__).id(-1)",
       pys "    gff.Base64String(blob): \"A\"",
       pys "  end()"] =
      .ok (.cons ⟨pys "gff.MagicTag", pys "__type__", none⟩ (.strV (pys "GFF "))
        (.cons ⟨pys "gff.Struct", pys "__root__", some 4294967295⟩
          (.dictV (.cons ⟨pys "gff.Base64String", pys "blob", none⟩
            (.strV (pys "A")) .nil)) .nil)) ∧
    write_gff_op
      (some (.cons ⟨pys "gff.MagicTag", pys "__type__", none⟩ (.strV (pys "GFF "))
        (.cons ⟨pys "gff.Struct", pys "__root__", some 4294967295⟩
          (.dictV (.cons ⟨pys "gff.Base64String", pys "blob", none⟩
            (.strV (pys "A")) .nil)) .nil)))
      true = .error (pys "Invalid base64-encoded string") := by
  exact ⟨rfl, rfl⟩

/-- Claim C10 (amended): the *load* operations are no-ops returning the
instance on failed path validation or on an internal `ValueError`; the
*write* operations are no-ops returning the instance on failed path
validation (or an empty document), but an error raised while converting
the document propagates to the caller. -/
theorem C10_amended_noop_scope :
    (∀ (st : Option NduDict) (lines : List PyStr),
      load_ndugff_op st false lines = st) ∧
    (∀ (st : Option NduDict) (lines : List PyStr) (e : PyStr),
      load_ndugff_lines lines = .error e → load_ndugff_op st true lines = st) ∧
    (∀ (st : Option NduDict) (body : Except PyStr NduDict),
      load_entry_op st false body = st) ∧
    (∀ st : Option NduDict, write_gff_op st false = .ok (st, false)) ∧
    (∀ st : Option NduDict, write_ndugff_op st false = .ok (st, false)) ∧
    (∀ (d : NduDict) (e : PyStr),
      get_gff_data d = .error e → write_gff_op (some d) true = .error e) := by
  refine ⟨fun st lines => rfl, ?_, fun st body => rfl, ?_, ?_, ?_⟩
  · intro st lines e he
    simp [load_ndugff_op, he]
  · intro st
    cases st <;> rfl
  · intro st
    cases st <;> rfl
  · intro d e he
    have hne : d ≠ .nil := by
      intro h
      rw [h] at he
      cases he
    simp [write_gff_op, hne, he]

/-- Claim C10 amended witness. -/
theorem C10_amended_noop_scope_witness :
    load_ndugff_op (some .nil) true [pys "garbage"] = some .nil ∧
    write_gff_op
      (some (.cons ⟨pys "gff.Struct", pys "__root__", some 4294967295⟩
        (.dictV (.cons ⟨pys "gff.Base64String", pys "blob", none⟩
          (.strV (pys "A")) .nil)) .nil))
      true = .error (pys "Invalid base64-encoded string") := by
  exact ⟨C10_amended_noop_scope.2.1 (some .nil) [pys "garbage"]
      (pys "no tokenizer match") rfl,
    C10_amended_noop_scope.2.2.2.2.2
      (.cons ⟨pys "gff.Struct", pys "__root__", some 4294967295⟩
        (.dictV (.cons ⟨pys "gff.Base64String", pys "blob", none⟩
          (.strV (pys "A")) .nil)) .nil)
      (pys "Invalid base64-encoded string") rfl⟩

/-! ## Round-trip groundwork: characters and integers -/

theorem isPyWs_cases (c : Char) (h : isPyWs c = true) :
    c = ' ' ∨ c = '\t' ∨ c = '\n' ∨ c = '\r' ∨ c = '\x0b' ∨ c = '\x0c' := by
  simp only [isPyWs, Bool.or_eq_true, decide_eq_true_eq] at h
  tauto

theorem digitChar_mem_ten (m : Nat) : digitChar m ∈ TEN_DIGITS := by
  simp only [digitChar]
  split <;> first | decide | (split <;> first | decide | (split <;> first | decide |
    (split <;> first | decide | (split <;> first | decide | (split <;> first | decide |
    (split <;> first | decide | (split <;> first | decide | (split <;> decide))))))))

theorem ten_digit_props (c : Char) (h : c ∈ TEN_DIGITS) :
    isDigitC c = true ∧ isPyWs c = false ∧ c ≠ '"' ∧ c ≠ '\\' ∧ c ≠ '\n' ∧
      c ≠ '-' ∧ c ≠ '+' ∧ c ≠ ' ' ∧ c ≠ '(' ∧ c ≠ ')' := by
  have he : TEN_DIGITS = ['0', '1', '2', '3', '4', '5', '6', '7', '8', '9'] := rfl
  rw [he] at h
  simp only [List.mem_cons, List.not_mem_nil, or_false] at h
  rcases h with h | h | h | h | h | h | h | h | h | h <;> subst h <;> decide

theorem digitVal_digitChar (m : Nat) (h : m < 10) : digitVal (digitChar m) = m := by
  interval_cases m <;> rfl

theorem natDigitsF_mem (f n : Nat) (c : Char) (h : c ∈ natDigitsF f n) :
    c ∈ TEN_DIGITS := by
  induction f generalizing n with
  | zero =>
    cases n with
    | zero => simp [natDigitsF] at h
    | succ m => simp [natDigitsF] at h
  | succ f ih =>
    cases n with
    | zero => simp [natDigitsF] at h
    | succ m =>
      simp only [natDigitsF, List.mem_append, List.mem_singleton] at h
      rcases h with h | h
      · exact ih _ h
      · rw [h]; exact digitChar_mem_ten _

theorem natOfDigits_append_one (xs : PyStr) (c : Char) :
    natOfDigits (xs ++ [c]) = 10 * natOfDigits xs + digitVal c := by
  simp [natOfDigits, List.foldl_append]

theorem natOfDigits_natDigitsF (f n : Nat) (h : n ≤ f) :
    natOfDigits (natDigitsF f n) = n := by
  induction f generalizing n with
  | zero =>
    interval_cases n
    rfl
  | succ f ih =>
    cases n with
    | zero => rfl
    | succ m =>
      have hdiv : (m + 1) / 10 ≤ f := by
        have := Nat.div_lt_self (Nat.succ_pos m) (by omega : 1 < 10)
        omega
      simp only [natDigitsF, natOfDigits_append_one, ih _ hdiv,
        digitVal_digitChar _ (Nat.mod_lt _ (by omega))]
      omega

theorem natDigitsF_ne_nil (f n : Nat) (h0 : n ≠ 0) (h : n ≤ f) :
    natDigitsF f n ≠ [] := by
  cases n with
  | zero => exact absurd rfl h0
  | succ m =>
    cases f with
    | zero => omega
    | succ f => simp [natDigitsF]

theorem natDigits_all_ten (n : Nat) (c : Char) (h : c ∈ natDigits n) : c ∈ TEN_DIGITS :=
  natDigitsF_mem n n c h

theorem natReprPy_mem_ten (n : Nat) (c : Char) (h : c ∈ natReprPy n) : c ∈ TEN_DIGITS := by
  by_cases h0 : n = 0
  · subst h0
    simp only [natReprPy, if_pos rfl] at h
    have he : pys "0" = ['0'] := rfl
    rw [he] at h
    have : c = '0' := by simpa using h
    subst this
    decide
  · simp only [natReprPy, if_neg h0] at h
    exact natDigits_all_ten n c h

/-- Characters of `str(int)`: the optional sign, then digits. -/
theorem intReprPy_chars (n : Int) (c : Char) (h : c ∈ intReprPy n) :
    c ∈ TEN_DIGITS ∨ c = '-' := by
  simp only [intReprPy] at h
  split at h
  · rcases List.mem_cons.mp h with h | h
    · right; exact h
    · left; exact natReprPy_mem_ten _ _ h
  · left; exact natReprPy_mem_ten _ _ h

theorem natReprPy_ne_nil (n : Nat) : natReprPy n ≠ [] := by
  by_cases h0 : n = 0
  · subst h0; decide
  · simp only [natReprPy, if_neg h0]
    exact natDigitsF_ne_nil n n h0 le_rfl

theorem decDigitsVal_natReprPy (n : Nat) : decDigitsVal (natReprPy n) = some n := by
  by_cases h0 : n = 0
  · subst h0; rfl
  · have hall : (natReprPy n).all isDigitC = true := by
      rw [List.all_eq_true]
      intro c hc
      exact (ten_digit_props c (natReprPy_mem_ten n c hc)).1
    have hval : natOfDigits (natReprPy n) = n := by
      simp only [natReprPy, if_neg h0]
      exact natOfDigits_natDigitsF n n le_rfl
    simp [decDigitsVal, natReprPy_ne_nil n, hall, hval]

theorem pyIntOfStr_intReprPy (n : Int) : pyIntOfStr (intReprPy n) = some n := by
  by_cases hn : n < 0
  · simp only [intReprPy, if_pos hn]
    simp only [pyIntOfStr, if_pos rfl, decDigitsVal_natReprPy]
    show some (-(n.natAbs : Int)) = some n
    congr 1
    omega
  · simp only [intReprPy, if_neg hn]
    obtain ⟨c, cs, hcs⟩ := List.exists_cons_of_ne_nil (natReprPy_ne_nil n.natAbs)
    have hmem : c ∈ TEN_DIGITS :=
      natReprPy_mem_ten _ c (by rw [hcs]; exact List.mem_cons_self c cs)
    obtain ⟨_, _, _, _, _, hminus, hplus, _, _, _⟩ := ten_digit_props c hmem
    rw [hcs]
    simp only [pyIntOfStr, if_neg hminus, if_neg hplus]
    rw [← hcs, decDigitsVal_natReprPy]
    show some ((n.natAbs : Int)) = some n
    congr 1
    omega

theorem intReprPy_eq_neg_one_iff (n : Int) : intReprPy n = pys "-1" ↔ n = -1 := by
  constructor
  · intro h
    have := pyIntOfStr_intReprPy n
    rw [h] at this
    have h2 : pyIntOfStr (pys "-1") = some (-1) := rfl
    rw [h2] at this
    exact (Option.some_inj.mp this).symm
  · intro h; subst h; rfl

theorem natDigitsF_snoc (f n : Nat) (h0 : n ≠ 0) (h : n ≤ f) :
    ∃ B c, natDigitsF f n = B ++ [c] ∧ c ∈ TEN_DIGITS := by
  cases n with
  | zero => exact absurd rfl h0
  | succ m =>
    cases f with
    | zero => omega
    | succ f =>
      exact ⟨natDigitsF f ((m + 1) / 10), digitChar ((m + 1) % 10), rfl,
        digitChar_mem_ten _⟩

theorem intReprPy_snoc (n : Int) :
    ∃ B c, intReprPy n = B ++ [c] ∧ c ∈ TEN_DIGITS := by
  have hrepr : ∃ B c, natReprPy n.natAbs = B ++ [c] ∧ c ∈ TEN_DIGITS := by
    by_cases h0 : n.natAbs = 0
    · rw [h0]
      exact ⟨[], '0', rfl, by decide⟩
    · simp only [natReprPy, if_neg h0]
      exact natDigitsF_snoc _ _ h0 le_rfl
  obtain ⟨B, c, hbc, hc⟩ := hrepr
  by_cases hn : n < 0
  · exact ⟨'-' :: B, c, by simp [intReprPy, if_pos hn, hbc], hc⟩
  · exact ⟨B, c, by simp [intReprPy, if_neg hn, hbc], hc⟩

theorem pyFloatOk_ne_nil (r : PyStr) (h : pyFloatOk r = true) : r ≠ [] := by
  intro he
  subst he
  simp [pyFloatOk, pyLower, pys] at h

/-! ## Round-trip groundwork: replace and strip -/

theorem pyReplaceF_nil (pat rep : PyStr) (f : Nat) : pyReplaceF pat rep f [] = [] := by
  cases f <;> rfl

theorem pyReplaceF_congr (pat rep : PyStr) (hp : pat ≠ []) :
    ∀ (f1 : Nat), ∀ (f2 : Nat) (s : PyStr), s.length ≤ f1 → s.length ≤ f2 →
      pyReplaceF pat rep f1 s = pyReplaceF pat rep f2 s := by
  intro f1
  induction f1 with
  | zero =>
    intro f2 s h1 _
    have : s = [] := List.length_eq_zero.mp (Nat.le_zero.mp h1)
    subst this
    rw [pyReplaceF_nil, pyReplaceF_nil]
  | succ f1 ih =>
    intro f2 s h1 h2
    match s, f2 with
    | [], f2 => rw [pyReplaceF_nil, pyReplaceF_nil]
    | c :: rest, 0 => simp at h2
    | c :: rest, f2 + 1 =>
      simp only [pyReplaceF]
      by_cases hpre : isPre pat (c :: rest) = true
      · rw [if_pos hpre, if_pos hpre]
        have hlen : ((c :: rest).drop pat.length).length ≤ f1 := by
          simp only [List.length_drop, List.length_cons]
          have : 0 < pat.length := List.length_pos.mpr hp
          simp only [List.length_cons] at h1
          omega
        have hlen2 : ((c :: rest).drop pat.length).length ≤ f2 := by
          simp only [List.length_drop, List.length_cons]
          have : 0 < pat.length := List.length_pos.mpr hp
          simp only [List.length_cons] at h2
          omega
        rw [ih f2 _ hlen hlen2]
      · rw [if_neg hpre, if_neg hpre]
        have hlen : rest.length ≤ f1 := by simp only [List.length_cons] at h1; omega
        have hlen2 : rest.length ≤ f2 := by simp only [List.length_cons] at h2; omega
        rw [ih f2 rest hlen hlen2]

theorem pyReplace_nil (pat rep : PyStr) : pyReplace pat rep [] = [] := by
  by_cases hp : pat = [] <;> simp [pyReplace, hp, pyReplaceF]

theorem pyReplace_cons (pat rep : PyStr) (hp : pat ≠ []) (c : Char) (rest : PyStr) :
    pyReplace pat rep (c :: rest) =
      if isPre pat (c :: rest) then rep ++ pyReplace pat rep ((c :: rest).drop pat.length)
      else c :: pyReplace pat rep rest := by
  have hlenpos : 0 < pat.length := List.length_pos.mpr hp
  simp only [pyReplace, if_neg hp, List.length_cons, pyReplaceF]
  by_cases hpre : isPre pat (c :: rest) = true
  · rw [if_pos hpre, if_pos hpre]
    congr 1
    apply pyReplaceF_congr pat rep hp <;>
      first
        | exact le_rfl
        | (simp only [List.length_drop, List.length_cons]; omega)
  · rw [if_neg hpre, if_neg hpre]

theorem pyReplace_single (c0 : Char) (rep : PyStr) (s : PyStr) :
    pyReplace [c0] rep s = cmStr (fun x => if c0 = x then rep else [x]) s := by
  induction s with
  | nil => simp [pyReplace_nil, cmStr]
  | cons c rest ih =>
    rw [pyReplace_cons [c0] rep (by simp) c rest]
    by_cases hc : c0 = c
    · subst hc
      simp [isPre, cmStr, ih]
    · simp [isPre, hc, cmStr, ih]

theorem pyReplace_no_head (p0 : Char) (pr rep : PyStr) (s : PyStr)
    (h : ∀ c ∈ s, c ≠ p0) : pyReplace (p0 :: pr) rep s = s := by
  induction s with
  | nil => exact pyReplace_nil _ _
  | cons c rest ih =>
    rw [pyReplace_cons _ _ (by simp) c rest]
    have hc : c ≠ p0 := h c (List.mem_cons_self c rest)
    have hne : ¬ (p0 = c) := fun hx => hc hx.symm
    simp only [isPre, if_neg hne, Bool.false_eq_true, if_false]
    rw [ih (fun x hx => h x (List.mem_cons_of_mem c hx))]

theorem dropWhile_replicate_space (n : Nat) (s : PyStr) :
    (List.replicate n ' ' ++ s).dropWhile isPyWs = s.dropWhile isPyWs := by
  induction n with
  | zero => rfl
  | succ n ih => simpa [List.replicate_succ, List.dropWhile] using ih

theorem dropWhile_eq_self_of_forall {p : Char → Bool} (s : PyStr)
    (h : ∀ c ∈ s, p c = false) : s.dropWhile p = s := by
  cases s with
  | nil => rfl
  | cons c r =>
    rw [List.dropWhile_cons, if_neg]
    simp [h c (List.mem_cons_self c r)]

theorem pyRstrip_snoc (s : PyStr) (c : Char) (hc : isPyWs c = false) :
    pyRstrip (s ++ [c]) = s ++ [c] := by
  simp [pyRstrip, List.dropWhile, hc]

theorem pyStrip_indent (n : Nat) (core : PyStr)
    (h1 : core.dropWhile isPyWs = core) (h2 : pyRstrip core = core) :
    pyStrip (List.replicate n ' ' ++ core) = core := by
  simp only [pyStrip, pyStripBy, dropWhile_replicate_space, h1]
  exact h2

theorem pyStripQuotes_of_no_quote (s : PyStr) (h : ∀ c ∈ s, c ≠ '"') :
    pyStripQuotes s = s := by
  have hall : ∀ c ∈ s, (decide (c = '"')) = false := by
    intro c hc
    simp [h c hc]
  simp only [pyStripQuotes, pyStripBy]
  rw [dropWhile_eq_self_of_forall s hall,
    dropWhile_eq_self_of_forall s.reverse (fun c hc => hall c (List.mem_reverse.mp hc)),
    List.reverse_reverse]

theorem pyStripQuotes_wrap (s : PyStr)
    (hh : s.head? ≠ some '"') (hl : s.getLast? ≠ some '"') :
    pyStripQuotes ('"' :: (s ++ ['"'])) = s := by
  cases s with
  | nil => rfl
  | cons c t =>
    have hc : (decide (c = '"')) = false := by
      simp only [List.head?] at hh
      simp only [decide_eq_false_iff_not]
      intro h
      exact hh (by rw [h])
    have hne : c :: t ≠ [] := by simp
    have hdq : (decide ((c :: t).getLast hne = '"')) = false := by
      simp only [decide_eq_false_iff_not]
      intro h
      apply hl
      rw [List.getLast?_eq_getLast_of_ne_nil hne, h]
    have hsplit : (c :: t).dropLast ++ [(c :: t).getLast hne] = c :: t :=
      List.dropLast_append_getLast hne
    simp only [pyStripQuotes, pyStripBy]
    rw [List.dropWhile_cons, if_pos (by decide)]
    have hstep : List.dropWhile (fun x => decide (x = '"')) (c :: t ++ ['"']) =
        c :: t ++ ['"'] := by
      rw [List.cons_append, List.dropWhile_cons, if_neg (by simp [hc])]
    rw [hstep]
    have hrev : ((c :: t) ++ ['"']).reverse =
        '"' :: ((c :: t).getLast hne :: ((c :: t).dropLast).reverse) := by
      rw [List.reverse_append]
      simp only [List.reverse_cons, List.reverse_nil, List.nil_append,
        List.singleton_append, List.cons.injEq, true_and]
      rw [← List.reverse_cons]
      congr 1
      conv_lhs => rw [← hsplit]
      rw [List.reverse_append]
      rfl
    rw [hrev]
    rw [List.dropWhile_cons, if_pos (by decide)]
    rw [List.dropWhile_cons, if_neg (by simp [hdq])]
    rw [List.reverse_cons, List.reverse_reverse, hsplit]

/-! ## Round-trip groundwork: the escape layer -/

theorem cmStr_mem {f : Char → PyStr} {v : PyStr} {c : Char}
    (h : c ∈ cmStr f v) : ∃ x ∈ v, c ∈ f x := by
  induction v with
  | nil => cases h
  | cons a r ih =>
    simp only [cmStr, List.mem_append] at h
    rcases h with h | h
    · exact ⟨a, List.mem_cons_self a r, h⟩
    · obtain ⟨x, hx, hc⟩ := ih h
      exact ⟨x, List.mem_cons_of_mem a hx, hc⟩

theorem cmStr_append (f : Char → PyStr) (a b : PyStr) :
    cmStr f (a ++ b) = cmStr f a ++ cmStr f b := by
  induction a with
  | nil => rfl
  | cons c r ih => simp [cmStr, ih]

theorem cm_compose_escStr : ∀ v : PyStr,
    cmStr (fun x => if '\n' = x then pys "\\n" else [x])
      (cmStr (fun x => if '\t' = x then pys "\\t" else [x])
        (cmStr (fun x => if '"' = x then pys "\\\"" else [x]) v)) = escStr v := by
  intro v
  induction v with
  | nil => rfl
  | cons c r ih =>
    simp only [cmStr, cmStr_append, escStr]
    rw [ih]
    congr 1
    by_cases hq : '"' = c
    · subst hq; rfl
    · by_cases ht : '\t' = c
      · subst ht; rfl
      · by_cases hn : '\n' = c
        · subst hn; rfl
        · simp only [escChar, cmStr, if_neg hq, if_neg ht, if_neg hn,
            if_neg (show ¬ c = '"' from fun h => hq h.symm),
            if_neg (show ¬ c = '\t' from fun h => ht h.symm),
            if_neg (show ¬ c = '\n' from fun h => hn h.symm), List.append_nil,
            List.singleton_append]

theorem get_escaped_string_eq_escStr (v : PyStr) (hcr : ∀ c ∈ v, c ≠ '\x0d') :
    get_escaped_string v = escStr v := by
  have h1 : pyReplace (pys "\"") (pys "\\\"") v =
      cmStr (fun x => if '"' = x then pys "\\\"" else [x]) v := pyReplace_single _ _ v
  have h2 : ∀ w, pyReplace (pys "\t") (pys "\\t") w =
      cmStr (fun x => if '\t' = x then pys "\\t" else [x]) w :=
    fun w => pyReplace_single _ _ w
  have h4 : ∀ w, pyReplace (pys "\n") (pys "\\n") w =
      cmStr (fun x => if '\n' = x then pys "\\n" else [x]) w :=
    fun w => pyReplace_single _ _ w
  have hnocr : ∀ c ∈ cmStr (fun x => if '\t' = x then pys "\\t" else [x])
      (cmStr (fun x => if '"' = x then pys "\\\"" else [x]) v), c ≠ '\x0d' := by
    intro c hc
    obtain ⟨x, hx, hcx⟩ := cmStr_mem hc
    obtain ⟨y, hy, hxy⟩ := cmStr_mem hx
    have hyv : y ≠ '\x0d' := hcr y hy
    by_cases hq : '"' = y
    · simp only [if_pos hq] at hxy
      have : x = '\\' ∨ x = '"' := by
        have he : pys "\\\"" = ['\\', '"'] := rfl
        rw [he] at hxy
        simpa using hxy
      rcases this with h | h <;> subst h <;>
        simp only [show ¬ ('\t' = '\\') from by decide,
          show ¬ ('\t' = '"') from by decide, if_neg, if_false] at hcx <;>
        · have := List.mem_singleton.mp hcx
          subst this
          decide
    · simp only [if_neg hq] at hxy
      have hxy' : x = y := List.mem_singleton.mp hxy
      subst hxy'
      by_cases ht : '\t' = x
      · simp only [if_pos ht] at hcx
        have : c = '\\' ∨ c = 't' := by
          have he : pys "\\t" = ['\\', 't'] := rfl
          rw [he] at hcx
          simpa using hcx
        rcases this with h | h <;> subst h <;> decide
      · simp only [if_neg ht] at hcx
        have : c = x := List.mem_singleton.mp hcx
        subst this
        exact hyv
  have hstage3 : pyReplace (pys "\x0d\n") (pys "\\n")
      (cmStr (fun x => if '\t' = x then pys "\\t" else [x])
        (cmStr (fun x => if '"' = x then pys "\\\"" else [x]) v)) =
      cmStr (fun x => if '\t' = x then pys "\\t" else [x])
        (cmStr (fun x => if '"' = x then pys "\\\"" else [x]) v) := by
    have he : pys "\x0d\n" = '\x0d' :: ['\n'] := rfl
    rw [he]
    exact pyReplace_no_head _ _ _ _ hnocr
  show pyReplace (pys "\n") (pys "\\n") (pyReplace (pys "\x0d\n") (pys "\\n")
    (pyReplace (pys "\t") (pys "\\t") (pyReplace (pys "\"") (pys "\\\"") v))) = escStr v
  rw [h1, h2, hstage3, h4, cm_compose_escStr]

theorem isPre_append (pat rest : PyStr) : isPre pat (pat ++ rest) = true := by
  induction pat with
  | nil => rfl
  | cons c r ih => simp [isPre, ih]

theorem pyReplace_step_match (pat rep rest : PyStr) (hp : pat ≠ []) :
    pyReplace pat rep (pat ++ rest) = rep ++ pyReplace pat rep rest := by
  obtain ⟨c, pr, rfl⟩ := List.exists_cons_of_ne_nil hp
  rw [List.cons_append, pyReplace_cons _ _ (by simp)]
  rw [if_pos (by rw [← List.cons_append]; exact isPre_append _ rest)]
  congr 1
  rw [← List.cons_append, List.drop_left]

theorem pyReplace_step_skip (pat rep : PyStr) (hp : pat ≠ []) (c : Char) (rest : PyStr)
    (h : isPre pat (c :: rest) = false) :
    pyReplace pat rep (c :: rest) = c :: pyReplace pat rep rest := by
  rw [pyReplace_cons _ _ hp, if_neg (by simp [h])]

theorem unescape_stage1 (v : PyStr) (hbs : ∀ c ∈ v, c ≠ '\\') :
    pyReplace (pys "\\r\\n") (pys "\\n") (escStr v) = escStr v := by
  induction v with
  | nil => exact pyReplace_nil _ _
  | cons c r ih =>
    have hbs' : ∀ x ∈ r, x ≠ '\\' := fun x hx => hbs x (List.mem_cons_of_mem c hx)
    have hcb : c ≠ '\\' := hbs c (List.mem_cons_self c r)
    have hpne : (pys "\\r\\n") ≠ [] := by decide
    by_cases hq : c = '"'
    · subst hq
      show pyReplace (pys "\\r\\n") (pys "\\n") ('\\' :: '"' :: escStr r) = '\\' :: '"' :: escStr r
      rw [pyReplace_step_skip _ _ hpne _ _ (by simp [pys, isPre]),
        pyReplace_step_skip _ _ hpne _ _ (by simp [pys, isPre]), ih hbs']
    · by_cases ht : c = '\t'
      · subst ht
        show pyReplace (pys "\\r\\n") (pys "\\n") ('\\' :: 't' :: escStr r) = '\\' :: 't' :: escStr r
        rw [pyReplace_step_skip _ _ hpne _ _ (by simp [pys, isPre]),
          pyReplace_step_skip _ _ hpne _ _ (by simp [pys, isPre]), ih hbs']
      · by_cases hn : c = '\n'
        · subst hn
          show pyReplace (pys "\\r\\n") (pys "\\n") ('\\' :: 'n' :: escStr r) = '\\' :: 'n' :: escStr r
          rw [pyReplace_step_skip _ _ hpne _ _ (by simp [pys, isPre]),
            pyReplace_step_skip _ _ hpne _ _ (by simp [pys, isPre]), ih hbs']
        · show pyReplace (pys "\\r\\n") (pys "\\n") (escChar c ++ escStr r) = escChar c ++ escStr r
          have hne : ¬ ('\\' = c) := fun h => hcb h.symm
          rw [show escChar c = [c] from by simp [escChar, hq, ht, hn]]
          rw [List.singleton_append,
            pyReplace_step_skip _ _ hpne _ _ (by simp [pys, isPre, hne]),
            ih hbs']

theorem unescape_stage2 (v : PyStr) (hbs : ∀ c ∈ v, c ≠ '\\') :
    pyReplace (pys "\\\"") (pys "\"") (escStr v) = cmStr esc1 v := by
  induction v with
  | nil => exact pyReplace_nil _ _
  | cons c r ih =>
    have hbs' : ∀ x ∈ r, x ≠ '\\' := fun x hx => hbs x (List.mem_cons_of_mem c hx)
    have hcb : c ≠ '\\' := hbs c (List.mem_cons_self c r)
    have hpne : (pys "\\\"") ≠ [] := by decide
    by_cases hq : c = '"'
    · subst hq
      show pyReplace (pys "\\\"") (pys "\"") ((pys "\\\"") ++ escStr r) = cmStr esc1 ('"' :: r)
      rw [pyReplace_step_match _ _ _ hpne, ih hbs']
      rfl
    · by_cases ht : c = '\t'
      · subst ht
        show pyReplace (pys "\\\"") (pys "\"") ('\\' :: 't' :: escStr r) = cmStr esc1 ('\t' :: r)
        rw [pyReplace_step_skip _ _ hpne _ _ (by simp [pys, isPre]),
          pyReplace_step_skip _ _ hpne _ _ (by simp [pys, isPre]), ih hbs']
        rfl
      · by_cases hn : c = '\n'
        · subst hn
          show pyReplace (pys "\\\"") (pys "\"") ('\\' :: 'n' :: escStr r) = cmStr esc1 ('\n' :: r)
          rw [pyReplace_step_skip _ _ hpne _ _ (by simp [pys, isPre]),
            pyReplace_step_skip _ _ hpne _ _ (by simp [pys, isPre]), ih hbs']
          rfl
        · have hne : ¬ ('\\' = c) := fun h => hcb h.symm
          show pyReplace (pys "\\\"") (pys "\"") (escChar c ++ escStr r) = cmStr esc1 (c :: r)
          rw [show escChar c = [c] from by simp [escChar, hq, ht, hn], List.singleton_append,
            pyReplace_step_skip _ _ hpne _ _ (by simp [pys, isPre, hne]), ih hbs']
          show c :: cmStr esc1 r = esc1 c ++ cmStr esc1 r
          rw [show esc1 c = [c] from by simp [esc1, hq, ht, hn], List.singleton_append]

theorem unescape_stage3 (v : PyStr) (hbs : ∀ c ∈ v, c ≠ '\\') :
    pyReplace (pys "\\t") (pys "\t") (cmStr esc1 v) = cmStr esc2 v := by
  induction v with
  | nil => exact pyReplace_nil _ _
  | cons c r ih =>
    have hbs' : ∀ x ∈ r, x ≠ '\\' := fun x hx => hbs x (List.mem_cons_of_mem c hx)
    have hcb : c ≠ '\\' := hbs c (List.mem_cons_self c r)
    have hpne : (pys "\\t") ≠ [] := by decide
    by_cases hq : c = '"'
    · subst hq
      show pyReplace (pys "\\t") (pys "\t") ('"' :: cmStr esc1 r) = cmStr esc2 ('"' :: r)
      rw [pyReplace_step_skip _ _ hpne _ _ (by simp [pys, isPre]), ih hbs']
      rfl
    · by_cases ht : c = '\t'
      · subst ht
        show pyReplace (pys "\\t") (pys "\t") ((pys "\\t") ++ cmStr esc1 r) = cmStr esc2 ('\t' :: r)
        rw [pyReplace_step_match _ _ _ hpne, ih hbs']
        rfl
      · by_cases hn : c = '\n'
        · subst hn
          show pyReplace (pys "\\t") (pys "\t") ('\\' :: 'n' :: cmStr esc1 r) = cmStr esc2 ('\n' :: r)
          rw [pyReplace_step_skip _ _ hpne _ _ (by simp [pys, isPre]),
            pyReplace_step_skip _ _ hpne _ _ (by simp [pys, isPre]), ih hbs']
          rfl
        · have hne : ¬ ('\\' = c) := fun h => hcb h.symm
          show pyReplace (pys "\\t") (pys "\t") (esc1 c ++ cmStr esc1 r) = cmStr esc2 (c :: r)
          rw [show esc1 c = [c] from by simp [esc1, hq, ht, hn], List.singleton_append,
            pyReplace_step_skip _ _ hpne _ _ (by simp [pys, isPre, hne]), ih hbs']
          show c :: cmStr esc2 r = esc2 c ++ cmStr esc2 r
          rw [show esc2 c = [c] from by simp [esc2, hn], List.singleton_append]

theorem unescape_stage4 (v : PyStr) (hbs : ∀ c ∈ v, c ≠ '\\') :
    pyReplace (pys "\\n") (pys "\n") (cmStr esc2 v) = v := by
  induction v with
  | nil => exact pyReplace_nil _ _
  | cons c r ih =>
    have hbs' : ∀ x ∈ r, x ≠ '\\' := fun x hx => hbs x (List.mem_cons_of_mem c hx)
    have hcb : c ≠ '\\' := hbs c (List.mem_cons_self c r)
    have hpne : (pys "\\n") ≠ [] := by decide
    by_cases hn : c = '\n'
    · subst hn
      show pyReplace (pys "\\n") (pys "\n") ((pys "\\n") ++ cmStr esc2 r) = '\n' :: r
      rw [pyReplace_step_match _ _ _ hpne, ih hbs']
      rfl
    · have hne : ¬ ('\\' = c) := fun h => hcb h.symm
      show pyReplace (pys "\\n") (pys "\n") (esc2 c ++ cmStr esc2 r) = c :: r
      rw [show esc2 c = [c] from by simp [esc2, hn], List.singleton_append,
        pyReplace_step_skip _ _ hpne _ _ (by simp [pys, isPre, hne]), ih hbs']

/-- Reading back an escaped string: `unescape_escaped_string` undoes the
per-character escape and `rstrip`s the result. -/
theorem unescape_escStr (v : PyStr) (hbs : ∀ c ∈ v, c ≠ '\\') (hcr : ∀ c ∈ v, c ≠ '\r') :
    unescape_escaped_string (escStr v) = pyRstrip v := by
  show pyRstrip (pyReplace (pys "\\n") (pys "\n")
    (pyReplace (pys "\\t") (pys "\t")
      (pyReplace (pys "\\\"") (pys "\"")
        (pyReplace (pys "\\r\\n") (pys "\\n") (escStr v))))) = pyRstrip v
  rw [unescape_stage1 v hbs, unescape_stage2 v hbs, unescape_stage3 v hbs,
    unescape_stage4 v hbs]

/-- If the escaped text contains no backslash, nothing was escaped. -/
theorem escStr_no_bs_id (v : PyStr) (h : (escStr v).any (· = '\\') = false) :
    escStr v = v := by
  induction v with
  | nil => rfl
  | cons c r ih =>
    by_cases hq : c = '"'
    · subst hq
      exact absurd h (by simp [escStr, escChar])
    · by_cases ht : c = '\t'
      · subst ht
        exact absurd h (by simp [escStr, escChar])
      · by_cases hn : c = '\n'
        · subst hn
          exact absurd h (by simp [escStr, escChar])
        · have hesc : escChar c = [c] := by simp [escChar, hq, ht, hn]
          simp only [escStr, hesc, List.singleton_append, List.any_cons,
            Bool.or_eq_false_iff] at h ⊢
          rw [ih h.2]

/-- Characters of the escaped text. -/
theorem escStr_mem (v : PyStr) (c : Char) (h : c ∈ escStr v) :
    c = '\\' ∨ c = '"' ∨ c = 't' ∨ c = 'n' ∨
      (c ∈ v ∧ c ≠ '"' ∧ c ≠ '\t' ∧ c ≠ '\n') := by
  induction v with
  | nil => cases h
  | cons a r ih =>
    simp only [escStr, List.mem_append] at h
    rcases h with h | h
    · by_cases hq : a = '"'
      · subst hq
        have he : escChar '"' = ['\\', '"'] := rfl
        rw [he] at h
        have hm : c = '\\' ∨ c = '"' := by simpa using h
        rcases hm with h2 | h2
        · exact Or.inl h2
        · exact Or.inr (Or.inl h2)
      · by_cases ht : a = '\t'
        · subst ht
          have he : escChar '\t' = ['\\', 't'] := rfl
          rw [he] at h
          have hm : c = '\\' ∨ c = 't' := by simpa using h
          rcases hm with h2 | h2
          · exact Or.inl h2
          · exact Or.inr (Or.inr (Or.inl h2))
        · by_cases hn : a = '\n'
          · subst hn
            have he : escChar '\n' = ['\\', 'n'] := rfl
            rw [he] at h
            have hm : c = '\\' ∨ c = 'n' := by simpa using h
            rcases hm with h2 | h2
            · exact Or.inl h2
            · exact Or.inr (Or.inr (Or.inr (Or.inl h2)))
          · rw [show escChar a = [a] from by simp [escChar, hq, ht, hn]] at h
            have : c = a := by simpa using h
            subst this
            exact Or.inr (Or.inr (Or.inr (Or.inr
              ⟨List.mem_cons_self c r, hq, ht, hn⟩)))
    · rcases ih h with h2 | h2 | h2 | h2 | ⟨hm, h3, h4, h5⟩
      · exact Or.inl h2
      · exact Or.inr (Or.inl h2)
      · exact Or.inr (Or.inr (Or.inl h2))
      · exact Or.inr (Or.inr (Or.inr (Or.inl h2)))
      · exact Or.inr (Or.inr (Or.inr (Or.inr ⟨List.mem_cons_of_mem a hm, h3, h4, h5⟩)))

/-! ## Round-trip groundwork: dictionary concatenation and the machine -/

theorem appD_nil : ∀ d : NduDict, d.appD .nil = d
  | .nil => rfl
  | .cons k v r => by simp [NduDict.appD, appD_nil r]

theorem push_eq_appD (k : NduKey) (v : NduVal) :
    ∀ d : NduDict, NduDict.push d k v = d.appD (.cons k v .nil)
  | .nil => rfl
  | .cons k0 v0 r => by simp [NduDict.push, NduDict.appD, push_eq_appD k v r]

theorem appD_assoc : ∀ a b c : NduDict, (a.appD b).appD c = a.appD (b.appD c)
  | .nil, _, _ => rfl
  | .cons k v r, b, c => by simp [NduDict.appD, appD_assoc r b c]

theorem catD_eq_appD : ∀ e d : NduDict, catD d e = d.appD e
  | .nil, d => (appD_nil d).symm
  | .cons k v r, d => by
    show catD (d.push k v) r = d.appD (.cons k v r)
    rw [catD_eq_appD r (d.push k v), push_eq_appD, appD_assoc]
    rfl

theorem catD_nil_left (d : NduDict) : catD .nil d = d := by
  rw [catD_eq_appD]
  rfl

theorem appL_nil : ∀ l : NduList, l.appL .lnil = l
  | .lnil => rfl
  | .lcons e r => by simp [NduList.appL, appL_nil r]

theorem push_eq_appL (e : NduDict) :
    ∀ l : NduList, NduList.push l e = l.appL (.lcons e .lnil)
  | .lnil => rfl
  | .lcons x r => by simp [NduList.push, NduList.appL, push_eq_appL e r]

theorem appL_assoc : ∀ a b c : NduList, (a.appL b).appL c = a.appL (b.appL c)
  | .lnil, _, _ => rfl
  | .lcons x r, b, c => by simp [NduList.appL, appL_assoc r b c]

theorem catL_eq_appL : ∀ e l : NduList, catL l e = l.appL e
  | .lnil, l => (appL_nil l).symm
  | .lcons x r, l => by
    show catL (l.push x) r = l.appL (.lcons x r)
    rw [catL_eq_appL r (l.push x), push_eq_appL, appL_assoc]
    rfl

theorem catL_nil_left (l : NduList) : catL .lnil l = l := by
  rw [catL_eq_appL]
  rfl

theorem runLinesM_append (a b : List PyStr) : ∀ st : MachState,
    runLinesM st (a ++ b) =
      match runLinesM st a with
      | .error e => .error e
      | .ok st2 => runLinesM st2 b := by
  induction a with
  | nil => intro st; rfl
  | cons ln rest ih =>
    intro st
    rw [List.cons_append]
    cases hbl : build_dsl_line ln with
    | error e => simp [runLinesM, hbl]
    | ok dl =>
      cases hap : applyLine st dl with
      | error e => simp [runLinesM, hbl, hap]
      | ok st2 =>
        simp only [runLinesM, hbl, hap]
        exact ih st2

theorem takeWhile_stop {p : Char → Bool} :
    ∀ a : PyStr, a.all p = true → ∀ c : Char, p c = false → ∀ t : PyStr,
      (a ++ c :: t).takeWhile p = a ∧ (a ++ c :: t).dropWhile p = c :: t := by
  intro a
  induction a with
  | nil =>
    intro _ c hc t
    constructor
    · rw [List.nil_append, List.takeWhile_cons, if_neg (by simp [hc])]
    · rw [List.nil_append, List.dropWhile_cons, if_neg (by simp [hc])]
  | cons x xs ih =>
    intro ha c hc t
    rw [List.all_cons, Bool.and_eq_true] at ha
    obtain ⟨hx, hxs⟩ := ha
    obtain ⟨h1, h2⟩ := ih hxs c hc t
    constructor
    · rw [List.cons_append, List.takeWhile_cons, if_pos (by simp [hx]), h1]
    · rw [List.cons_append, List.dropWhile_cons, if_pos (by simp [hx]), h2]

theorem pyRstrip_of_last (s : PyStr)
    (h : ∀ c, s.getLast? = some c → isPyWs c = false) : pyRstrip s = s := by
  cases s with
  | nil => rfl
  | cons c t =>
    have hne : c :: t ≠ [] := by simp
    have hsplit : (c :: t).dropLast ++ [(c :: t).getLast hne] = c :: t :=
      List.dropLast_append_getLast hne
    have hc : isPyWs ((c :: t).getLast hne) = false :=
      h _ (List.getLast?_eq_getLast_of_ne_nil hne)
    conv_lhs => rw [← hsplit]
    rw [pyRstrip_snoc _ _ hc, hsplit]

theorem pyStrip_core (n : Nat) (core : PyStr)
    (hh : ∀ c, core.head? = some c → isPyWs c = false)
    (hl : ∀ c, core.getLast? = some c → isPyWs c = false) :
    pyStrip (List.replicate n ' ' ++ core) = core := by
  refine pyStrip_indent n core ?_ (pyRstrip_of_last core hl)
  cases core with
  | nil => rfl
  | cons c t =>
    rw [List.dropWhile_cons, if_neg (by simp [hh c rfl])]

theorem floatTokenChar_facts (c : Char) (h : floatTokenChar c = true) :
    isPyWs c = false ∧ c ≠ '"' ∧ c ≠ '\\' ∧ c ≠ '\n' ∧ c ≠ ' ' := by
  refine ⟨?_, ?_, ?_, ?_, ?_⟩
  · by_cases hw : isPyWs c = true
    · rcases isPyWs_cases c hw with h2 | h2 | h2 | h2 | h2 | h2 <;>
        (subst h2; exact absurd h (by decide))
    · simpa using hw
  · intro h2; subst h2; exact absurd h (by decide)
  · intro h2; subst h2; exact absurd h (by decide)
  · intro h2; subst h2; exact absurd h (by decide)
  · intro h2; subst h2; exact absurd h (by decide)

theorem escStr_no_newline (v : PyStr) (c : Char) (h : c ∈ escStr v) : c ≠ '\n' := by
  rcases escStr_mem v c h with h2 | h2 | h2 | h2 | ⟨_, _, _, h2⟩
  · subst h2; decide
  · subst h2; decide
  · subst h2; decide
  · subst h2; decide
  · exact h2

theorem escChar_ne_nil (c : Char) : escChar c ≠ [] := by
  by_cases h1 : c = '"'
  · subst h1; decide
  · by_cases h2 : c = '\t'
    · subst h2; decide
    · by_cases h3 : c = '\n'
      · subst h3; decide
      · simp [escChar, h1, h2, h3]

theorem escStr_ne_nil (v : PyStr) (h : v ≠ []) : escStr v ≠ [] := by
  cases v with
  | nil => exact absurd rfl h
  | cons c r =>
    show escChar c ++ escStr r ≠ []
    simp [escChar_ne_nil c]

theorem escStr_head_ne_quote (v : PyStr) : (escStr v).head? ≠ some '"' := by
  cases v with
  | nil => simp [escStr]
  | cons c r =>
    show (escChar c ++ escStr r).head? ≠ some '"'
    by_cases h1 : c = '"'
    · subst h1; simp [escChar]
    · by_cases h2 : c = '\t'
      · subst h2; simp [escChar]
      · by_cases h3 : c = '\n'
        · subst h3; simp [escChar]
        · rw [show escChar c = [c] from by simp [escChar, h1, h2, h3]]
          simp [h1]

theorem escStr_last_ne_quote : ∀ v : PyStr, v.getLast? ≠ some '"' →
    (escStr v).getLast? ≠ some '"' := by
  intro v
  induction v with
  | nil => intro _; simp [escStr]
  | cons c r ih =>
    intro hv
    by_cases hr : r = []
    · subst hr
      have hc : c ≠ '"' := by
        intro h2
        exact hv (by rw [h2]; rfl)
      show (escChar c ++ escStr []).getLast? ≠ some '"'
      by_cases h2 : c = '\t'
      · subst h2; simp [escChar, escStr]
      · by_cases h3 : c = '\n'
        · subst h3; simp [escChar, escStr]
        · rw [show escChar c = [c] from by simp [escChar, hc, h2, h3]]
          simp [escStr, hc]
    · obtain ⟨x, xs, rfl⟩ := List.exists_cons_of_ne_nil hr
      have hrl : (x :: xs).getLast? ≠ some '"' := by
        intro h2
        apply hv
        rw [List.getLast?_cons_cons]
        exact h2
      have := ih hrl
      show (escChar c ++ escStr (x :: xs)).getLast? ≠ some '"'
      rw [List.getLast?_append_of_ne_nil _ (escStr_ne_nil (x :: xs) hr)]
      exact this

theorem wfEscapedStr_unpack (s : PyStr) (h : wfEscapedStr s = true) :
    (∀ c ∈ s, c ≠ '\\') ∧ (∀ c ∈ s, c ≠ '\r') ∧ pyRstrip s = s ∧
      s.getLast? ≠ some '"' := by
  unfold wfEscapedStr at h
  rw [Bool.and_eq_true, Bool.and_eq_true, Bool.not_eq_true'] at h
  obtain ⟨⟨hany, hr⟩, hq⟩ := h
  rw [List.any_eq_false] at hany
  refine ⟨?_, ?_, of_decide_eq_true hr, of_decide_eq_true hq⟩
  · intro c hc heq
    have h2 := hany c hc
    subst heq
    simp at h2
  · intro c hc heq
    have h2 := hany c hc
    subst heq
    simp at h2

theorem wfLiteralStr_unpack (s : PyStr) (h : wfLiteralStr s = true) :
    ∀ c ∈ s, c ≠ '\\' ∧ c ≠ '\r' ∧ c ≠ '\n' ∧ c ≠ '"' := by
  unfold wfLiteralStr at h
  rw [Bool.not_eq_true'] at h
  rw [List.any_eq_false] at h
  intro c hc
  have h2 := h c hc
  refine ⟨?_, ?_, ?_, ?_⟩ <;> (intro heq; subst heq; simp at h2)

/-- Facts about a registry type name, by exhausting the 18 rows: the
tokenizer alternation recovers it exactly when followed by `(`, it starts
with `g`, and its membership in the category sets is determined by its
`internal_value_type`. -/
theorem registry_facts (t : PyStr) (vk : VKind) (h : vkindOf t = some vk) (r : PyStr) :
    matchTypeAlt DSL_TYPE_NAMES (t ++ '(' :: r) = some (t, '(' :: r) ∧
    (∃ t2, t = 'g' :: t2) ∧
    (vk = .vint → memS t NODE_TYPES = false ∧ memS t ESCAPED_STRING_TYPES = false ∧
      memS t LITERAL_STRING_TYPES = false ∧ t ≠ pys "gff.MagicTag" ∧
      t ≠ pys "gff.Struct") ∧
    (vk = .vfloat → memS t NODE_TYPES = false ∧ memS t ESCAPED_STRING_TYPES = false ∧
      memS t LITERAL_STRING_TYPES = false ∧ t ≠ pys "gff.MagicTag" ∧
      t ≠ pys "gff.Dword" ∧ t ≠ pys "gff.Struct") ∧
    (vk = .vstr → memS t NODE_TYPES = false ∧ t ≠ pys "gff.Dword" ∧
      t ≠ pys "gff.Struct" ∧
      (memS t ESCAPED_STRING_TYPES = true ∧ memS t LITERAL_STRING_TYPES = false ∧
         t ≠ pys "gff.MagicTag" ∨
       memS t ESCAPED_STRING_TYPES = false ∧ memS t LITERAL_STRING_TYPES = true)) ∧
    (vk = .vdict → t = pys "gff.CExoLocString" ∨ t = pys "gff.Struct") ∧
    (vk = .vlist → t = pys "gff.List") := by
  obtain ⟨fi, hfind, hvk⟩ := Option.map_eq_some'.mp h
  have hp : decide (fi.dslName = t) = true :=
    @List.find?_some _ (fun x => decide (x.dslName = t)) fi _ hfind
  have ht : fi.dslName = t := of_decide_eq_true hp
  have hmem : fi ∈ FIELD_TYPES := List.mem_of_find?_eq_some hfind
  have hlist : FIELD_TYPES = [
    ⟨pys "gff.Byte", .vint, some (pys "byte"), .gByte⟩,
    ⟨pys "gff.Char", .vint, some (pys "char"), .gChar⟩,
    ⟨pys "gff.Word", .vint, some (pys "word"), .gWord⟩,
    ⟨pys "gff.Short", .vint, some (pys "short"), .gShort⟩,
    ⟨pys "gff.Int", .vint, some (pys "int"), .gInt⟩,
    ⟨pys "gff.Dword", .vint, some (pys "dword"), .gDword⟩,
    ⟨pys "gff.Int64", .vint, some (pys "int64"), .gInt64⟩,
    ⟨pys "gff.Dword64", .vint, some (pys "dword64"), .gDword64⟩,
    ⟨pys "gff.Float", .vfloat, some (pys "float"), .gFloat⟩,
    ⟨pys "gff.Double", .vfloat, some (pys "double"), .gDouble⟩,
    ⟨pys "gff.MagicTag", .vstr, some (pys "__data_type"), .gStr⟩,
    ⟨pys "gff.ResRef", .vstr, some (pys "resref"), .gResRef⟩,
    ⟨pys "gff.CExoString", .vstr, some (pys "cexostring"), .gCExoString⟩,
    ⟨pys "gff.Language", .vstr, none, .gLang⟩,
    ⟨pys "gff.Base64String", .vstr, some (pys "void"), .gVoid⟩,
    ⟨pys "gff.CExoLocString", .vdict, some (pys "cexolocstring"), .gLocString⟩,
    ⟨pys "gff.Struct", .vdict, some (pys "struct"), .gStruct⟩,
    ⟨pys "gff.List", .vlist, some (pys "list"), .gList⟩] := rfl
  rw [hlist] at hmem
  simp only [List.mem_cons, List.not_mem_nil, or_false] at hmem
  rcases hmem with hfi | hfi | hfi | hfi | hfi | hfi | hfi | hfi | hfi | hfi |
    hfi | hfi | hfi | hfi | hfi | hfi | hfi | hfi <;>
    (subst hfi; rw [← ht]; cases hvk) <;>
    refine ⟨rfl, ⟨_, rfl⟩, fun hv => ?_, fun hv => ?_, fun hv => ?_,
      fun hv => ?_, fun hv => ?_⟩ <;>
    first
      | exact absurd hv (by decide)
      | exact ⟨rfl, rfl, rfl, by decide, by decide⟩
      | exact ⟨rfl, rfl, rfl, by decide, by decide, by decide⟩
      | exact ⟨rfl, by decide, by decide, Or.inl ⟨rfl, rfl, by decide⟩⟩
      | exact ⟨rfl, by decide, by decide, Or.inr ⟨rfl, rfl⟩⟩
      | exact Or.inl rfl
      | exact Or.inr rfl
      | exact rfl

set_option maxHeartbeats 4000000 in
/-- Case analysis of `wfPair`, mirroring the writer's dispatch. -/
theorem wfPair_cases (k : NduKey) (v : NduVal) (h : wfPair k v = true) :
    (∃ i d, k.ftype = pys "gff.Struct" ∧ k.fid = some i ∧ i ≠ -1 ∧
      v = .dictV d ∧ wfDict d = true ∧ wfName k.name = true) ∨
    (∃ d, k.ftype = pys "gff.CExoLocString" ∧ k.fid = none ∧
      v = .dictV d ∧ wfDict d = true ∧ wfName k.name = true) ∨
    (∃ l, k.ftype = pys "gff.List" ∧ k.fid = none ∧
      v = .listV l ∧ wfList l = true ∧ wfName k.name = true) ∨
    (memS k.ftype NODE_TYPES = false ∧ wfName k.name = true ∧ k.name ≠ [] ∧
      k.fid = none ∧
      ((∃ n, vkindOf k.ftype = some .vint ∧ v = .intV n ∧
         (k.ftype = pys "gff.Dword" → n ≠ -1)) ∨
       (∃ fr, vkindOf k.ftype = some .vfloat ∧ v = .floatV fr ∧
         pyFloatOk fr = true ∧ fr.all floatTokenChar = true) ∨
       (∃ s, vkindOf k.ftype = some .vstr ∧ v = .strV s ∧
         (memS k.ftype ESCAPED_STRING_TYPES = true → wfEscapedStr s = true) ∧
         (memS k.ftype ESCAPED_STRING_TYPES = false → wfLiteralStr s = true) ∧
         (k.ftype = pys "gff.MagicTag" → s.length = 4)))) := by
  rw [wfPair.eq_def] at h
  rw [Bool.and_eq_true] at h
  obtain ⟨hwn, hm⟩ := h
  by_cases hst : k.ftype = pys "gff.Struct"
  · rw [if_pos hst] at hm
    rcases hfid : k.fid with _ | i
    · rw [hfid] at hm
      cases v <;> exact Bool.noConfusion hm
    · rw [hfid] at hm
      cases v with
      | dictV d =>
        have hm2 : (decide (i ≠ -1) && wfDict d) = true := hm
        rw [Bool.and_eq_true] at hm2
        exact Or.inl ⟨i, d, hst, rfl, of_decide_eq_true hm2.1, rfl, hm2.2, hwn⟩
      | intV n => exact Bool.noConfusion hm
      | floatV fr => exact Bool.noConfusion hm
      | strV s => exact Bool.noConfusion hm
      | listV l => exact Bool.noConfusion hm
  · rw [if_neg hst] at hm
    by_cases hcx : k.ftype = pys "gff.CExoLocString"
    · rw [if_pos hcx] at hm
      rcases hfid : k.fid with _ | i
      · rw [hfid] at hm
        cases v with
        | dictV d =>
          exact Or.inr (Or.inl ⟨d, hcx, rfl, rfl, hm, hwn⟩)
        | intV n => exact Bool.noConfusion hm
        | floatV fr => exact Bool.noConfusion hm
        | strV s => exact Bool.noConfusion hm
        | listV l => exact Bool.noConfusion hm
      · rw [hfid] at hm
        cases v <;> exact Bool.noConfusion hm
    · rw [if_neg hcx] at hm
      by_cases hli : k.ftype = pys "gff.List"
      · rw [if_pos hli] at hm
        rcases hfid : k.fid with _ | i
        · rw [hfid] at hm
          cases v with
          | listV l =>
            exact Or.inr (Or.inr (Or.inl ⟨l, hli, rfl, rfl, hm, hwn⟩))
          | intV n => exact Bool.noConfusion hm
          | floatV fr => exact Bool.noConfusion hm
          | strV s => exact Bool.noConfusion hm
          | dictV d => exact Bool.noConfusion hm
        · rw [hfid] at hm
          cases v <;> exact Bool.noConfusion hm
      · rw [if_neg hli] at hm
        have hnode : memS k.ftype NODE_TYPES = false := by
          have h1 : pys "gff.CExoLocString" ≠ k.ftype := fun h2 => hcx h2.symm
          have h2 : pys "gff.Struct" ≠ k.ftype := fun h2 => hst h2.symm
          have h3 : pys "gff.List" ≠ k.ftype := fun h2 => hli h2.symm
          simp [memS, NODE_TYPES, h1, h2, h3]
        rw [Bool.and_eq_true, Bool.and_eq_true] at hm
        obtain ⟨⟨hn1, hn2⟩, hvm⟩ := hm
        refine Or.inr (Or.inr (Or.inr ⟨hnode, hwn, of_decide_eq_true hn1,
          of_decide_eq_true hn2, ?_⟩))
        rcases hvk : vkindOf k.ftype with _ | vk
        · rw [hvk] at hvm
          cases v <;> exact Bool.noConfusion hvm
        · rw [hvk] at hvm
          cases vk with
          | vint =>
            cases v with
            | intV n =>
              refine Or.inl ⟨n, rfl, rfl, fun hdw => ?_⟩
              have hvm2 : (if k.ftype = pys "gff.Dword" then decide (n ≠ -1)
                  else true) = true := hvm
              rw [if_pos hdw] at hvm2
              exact of_decide_eq_true hvm2
            | floatV fr => exact Bool.noConfusion hvm
            | strV s => exact Bool.noConfusion hvm
            | dictV d => exact Bool.noConfusion hvm
            | listV l => exact Bool.noConfusion hvm
          | vfloat =>
            cases v with
            | floatV fr =>
              have hvm2 : (pyFloatOk fr && fr.all floatTokenChar) = true := hvm
              rw [Bool.and_eq_true] at hvm2
              exact Or.inr (Or.inl ⟨fr, rfl, rfl, hvm2.1, hvm2.2⟩)
            | intV n => exact Bool.noConfusion hvm
            | strV s => exact Bool.noConfusion hvm
            | dictV d => exact Bool.noConfusion hvm
            | listV l => exact Bool.noConfusion hvm
          | vstr =>
            cases v with
            | strV s =>
              have hvm2 : (if memS k.ftype ESCAPED_STRING_TYPES = true then
                  wfEscapedStr s
                else if k.ftype = pys "gff.MagicTag" then
                  wfLiteralStr s && decide (s.length = 4)
                else wfLiteralStr s) = true := hvm
              refine Or.inr (Or.inr ⟨s, rfl, rfl, ?_, ?_, ?_⟩)
              · intro hesc
                rw [if_pos hesc] at hvm2
                exact hvm2
              · intro hesc
                rw [if_neg (by simp [hesc])] at hvm2
                by_cases hmt : k.ftype = pys "gff.MagicTag"
                · rw [if_pos hmt] at hvm2
                  rw [Bool.and_eq_true] at hvm2
                  exact hvm2.1
                · rw [if_neg hmt] at hvm2
                  exact hvm2
              · intro hmt
                have hescf : memS k.ftype ESCAPED_STRING_TYPES = false := by
                  rw [hmt]
                  decide
                rw [if_neg (by simp [hescf]), if_pos hmt, Bool.and_eq_true] at hvm2
                exact of_decide_eq_true hvm2.2
            | intV n => exact Bool.noConfusion hvm
            | floatV fr => exact Bool.noConfusion hvm
            | dictV d => exact Bool.noConfusion hvm
            | listV l => exact Bool.noConfusion hvm
          | vdict =>
            cases v <;> exact Bool.noConfusion hvm
          | vlist =>
            cases v <;> exact Bool.noConfusion hvm

theorem parseId_nil : parseIdGroup [] = (none, []) := rfl

theorem parseId_colon (r : PyStr) : parseIdGroup (':' :: r) = (none, ':' :: r) := rfl

theorem parseValue_nil : parseValueGroup [] = none := rfl

theorem parseValue_leaf (s2 : PyStr) (c : Char) (t : PyStr) (hs : s2 = c :: t)
    (hc : (c = ' ') = False) (hlf : s2.any (· = '\n') = false) :
    parseValueGroup (':' :: ' ' :: s2) = some s2 := by
  have hdw : (' ' :: s2).dropWhile (· = ' ') = s2 := by
    rw [List.dropWhile_cons, if_pos (by simp), hs, List.dropWhile_cons,
      if_neg (by simp [hc])]
  have hcond : (decide (s2 = []) || s2.any (· = '\n')) = false := by
    rw [Bool.or_eq_false_iff]
    refine ⟨?_, hlf⟩
    rw [hs]
    simp
  show (if (' ' :: s2).dropWhile (· = ' ') = [] ||
      ((' ' :: s2).dropWhile (· = ' ')).any (· = '\n') then none
    else some ((' ' :: s2).dropWhile (· = ' '))) = some s2
  rw [hdw, if_neg (by simp [hcond])]

theorem signSplit_other (c : Char) (t : PyStr) (h : c ≠ '-') :
    signSplit (c :: t) = (false, c :: t) := by
  rw [signSplit.eq_def]
  split
  · rename_i heq
    rw [List.cons.injEq] at heq
    exact absurd heq.1 h
  · rfl

/-- `parseIdGroup` on an emitted `.id(<digits>)` tail (nonnegative id). -/
theorem parseId_digits_pos (ds : PyStr) (hne : ds ≠ [])
    (hall : ds.all isDigitC = true) (hd0 : ∀ c ∈ ds, c ≠ '-') (rest : PyStr) :
    parseIdGroup (pys ".id(" ++ (ds ++ ')' :: rest)) = (some ds, rest) := by
  have hpre : isPre (pys ".id(") (pys ".id(" ++ (ds ++ ')' :: rest)) = true :=
    isPre_append _ _
  have hdrop : (pys ".id(" ++ (ds ++ ')' :: rest)).drop 4 = ds ++ ')' :: rest := by
    rw [show (4 : Nat) = (pys ".id(").length from rfl, List.drop_left]
  obtain ⟨hTW, hDW⟩ := takeWhile_stop ds hall ')' (by decide) rest
  obtain ⟨c, cs, rfl⟩ := List.exists_cons_of_ne_nil hne
  have hcm : c ≠ '-' := hd0 c (List.mem_cons_self c cs)
  have hsign : signSplit ((c :: cs) ++ ')' :: rest) =
      (false, (c :: cs) ++ ')' :: rest) := by
    rw [List.cons_append]
    exact signSplit_other c _ hcm
  unfold parseIdGroup
  rw [if_pos hpre]
  simp only [hdrop, hsign, hTW, hDW]
  rw [if_neg hne]
  rfl

/-- `parseIdGroup` on an emitted `.id(-<digits>)` tail (negative id). -/
theorem parseId_digits_neg (ds : PyStr) (hne : ds ≠ [])
    (hall : ds.all isDigitC = true) (rest : PyStr) :
    parseIdGroup (pys ".id(" ++ ('-' :: (ds ++ ')' :: rest))) =
      (some ('-' :: ds), rest) := by
  have hpre : isPre (pys ".id(")
      (pys ".id(" ++ ('-' :: (ds ++ ')' :: rest))) = true := isPre_append _ _
  have hdrop : (pys ".id(" ++ ('-' :: (ds ++ ')' :: rest))).drop 4 =
      '-' :: (ds ++ ')' :: rest) := by
    rw [show (4 : Nat) = (pys ".id(").length from rfl, List.drop_left]
  obtain ⟨hTW, hDW⟩ := takeWhile_stop ds hall ')' (by decide) rest
  have hsign : signSplit ('-' :: (ds ++ ')' :: rest)) = (true, ds ++ ')' :: rest) := rfl
  unfold parseIdGroup
  rw [if_pos hpre]
  simp only [hdrop, hsign, hTW, hDW]
  rw [if_neg hne]
  rfl

/-- The tokenizer on an emitted `type(name)<tail>` line. -/
theorem tokenizeDsl_emitted (t nm tail : PyStr)
    (hm : matchTypeAlt DSL_TYPE_NAMES (t ++ '(' :: (nm ++ ')' :: tail)) =
      some (t, '(' :: (nm ++ ')' :: tail)))
    (hnm : nm.all isWordOrSpace = true) :
    tokenizeDsl (t ++ '(' :: (nm ++ ')' :: tail)) =
      some ⟨t, nm, (parseIdGroup tail).1, parseValueGroup (parseIdGroup tail).2⟩ := by
  obtain ⟨hTW, hDW⟩ := takeWhile_stop nm hnm ')' (by decide) tail
  unfold tokenizeDsl
  simp only [hm, hTW, hDW]

theorem build_dsl_line_g (r : PyStr) (tk : DslTokens)
    (htk : tokenizeDsl ('g' :: r) = some tk) :
    build_dsl_line ('g' :: r) = build_dsl_from_tokens tk := by
  unfold build_dsl_line
  rw [if_neg (by simp [isPre, pys]), if_neg (by simp [pys]), htk]
  rfl

theorem intReprPy_ne_nil (n : Int) : intReprPy n ≠ [] := by
  unfold intReprPy
  split
  · simp
  · exact natReprPy_ne_nil _

theorem natReprPy_all_digits (n : Nat) : (natReprPy n).all isDigitC = true := by
  rw [List.all_eq_true]
  intro c hc
  exact (ten_digit_props c (natReprPy_mem_ten n c hc)).1

theorem natReprPy_no_minus (n : Nat) : ∀ c ∈ natReprPy n, c ≠ '-' :=
  fun c hc => (ten_digit_props c (natReprPy_mem_ten n c hc)).2.2.2.2.2.1

theorem intReprPy_clean (n : Int) (c : Char) (h : c ∈ intReprPy n) :
    c ≠ ' ' ∧ c ≠ '\n' ∧ c ≠ '"' ∧ c ≠ '\\' ∧ isPyWs c = false := by
  rcases intReprPy_chars n c h with h2 | h2
  · obtain ⟨_, hws, hq, hbs, hlf, _, _, hsp, _, _⟩ := ten_digit_props c h2
    exact ⟨hsp, hlf, hq, hbs, hws⟩
  · subst h2
    exact ⟨by decide, by decide, by decide, by decide, by decide⟩

theorem head_last_ne (s : PyStr) (p : Char) (h : ∀ c ∈ s, c ≠ p) :
    s.head? ≠ some p ∧ s.getLast? ≠ some p := by
  constructor
  · cases s with
    | nil => simp
    | cons c t =>
      have := h c (List.mem_cons_self c t)
      simp [this]
  · cases s with
    | nil => simp
    | cons c t =>
      have hne : c :: t ≠ [] := by simp
      rw [List.getLast?_eq_getLast_of_ne_nil hne]
      have := h _ (List.getLast_mem hne)
      simp [this]

theorem normalize_magic_tag_of_len4 (s : PyStr) (h : s.length = 4) :
    normalize_magic_tag s = s := by
  unfold normalize_magic_tag
  rw [List.take_of_length_le (by omega)]
  simp only [h]
  simp

theorem any_char_eq_false (s : PyStr) (p : Char) (h : ∀ c ∈ s, c ≠ p) :
    (s.any (· = p)) = false := by
  rw [List.any_eq_false]
  intro x hx
  simp [h x hx]

theorem last_of_append_snoc (A B : PyStr) (c : Char) :
    (A ++ (B ++ [c])).getLast? = some c := by
  rw [← List.append_assoc]
  exact List.getLast?_concat _

/-- `str(int)` of a pretty-printed sentinel reparses to the original value
through `get_unprettified_sentinel`. -/
theorem sentinel_text_roundtrip (n : Int) (h : n ≠ -1) :
    pyIntOfStr (get_unprettified_sentinel_str (intReprPy (get_pretty_sentinel n))) =
      some n := by
  by_cases hs : n = GFF_UINT32_SENTINEL
  · subst hs
    rfl
  · rw [show get_pretty_sentinel n = n from by simp [get_pretty_sentinel, hs]]
    unfold get_unprettified_sentinel_str
    rw [if_neg (fun h2 => h ((intReprPy_eq_neg_one_iff n).mp h2))]
    exact pyIntOfStr_intReprPy n

theorem parseId_intRepr (j : Int) (rest : PyStr) :
    parseIdGroup (pys ".id(" ++ (intReprPy j ++ ')' :: rest)) =
      (some (intReprPy j), rest) := by
  by_cases hneg : j < 0
  · rw [show intReprPy j = '-' :: natReprPy j.natAbs from by simp [intReprPy, hneg]]
    rw [List.cons_append]
    exact parseId_digits_neg (natReprPy j.natAbs) (natReprPy_ne_nil _)
      (natReprPy_all_digits _) rest
  · rw [show intReprPy j = natReprPy j.natAbs from by simp [intReprPy, hneg]]
    exact parseId_digits_pos (natReprPy j.natAbs) (natReprPy_ne_nil _)
      (natReprPy_all_digits _) (natReprPy_no_minus _) rest

theorem strip_end (depth : Nat) :
    pyStrip (get_indent_end depth ++ pys "end()") = pys "end()" := by
  refine pyStrip_core _ _ ?_ ?_
  · intro c h
    injection h with h2
    rw [← h2]
    decide
  · intro c h
    rw [show (pys "end()").getLast? = some ')' from rfl] at h
    injection h with h2
    rw [← h2]
    decide

theorem build_end_line : build_dsl_line (pys "end()") = .ok .nodeEnd := rfl

theorem build_dsl_line_tok (line : PyStr) (hg : line.head? = some 'g')
    (tk : DslTokens) (htk : tokenizeDsl line = some tk) :
    build_dsl_line line = build_dsl_from_tokens tk := by
  cases line with
  | nil => cases hg
  | cons c r =>
    rw [show (c :: r).head? = some c from rfl] at hg
    injection hg with h2
    subst h2
    exact build_dsl_line_g r tk htk

theorem applyLine_field_node_dict (st : MachState) (t nm : PyStr)
    (sid : Option PyStr) (v : Option PyStr) (k : NduKey) (d : NduDict)
    (hbf : build_ndugff_field t nm sid v true = .ok (k, .dictV d)) :
    applyLine st (.field t nm sid v true) = .ok (⟨some k, .fdict d⟩ :: st) := by
  show (match build_ndugff_field t nm sid v true with
    | .error e => Except.error e
    | .ok (k2, fv2) =>
      match fv2 with
      | NduVal.dictV d2 => Except.ok (⟨some k2, .fdict d2⟩ :: st)
      | NduVal.listV l2 => Except.ok (⟨some k2, .flist l2⟩ :: st)
      | _ => Except.error (pys "internal: non-container node")) =
    Except.ok (⟨some k, .fdict d⟩ :: st)
  rw [hbf]

theorem applyLine_field_node_list (st : MachState) (t nm : PyStr)
    (sid : Option PyStr) (v : Option PyStr) (k : NduKey) (l : NduList)
    (hbf : build_ndugff_field t nm sid v true = .ok (k, .listV l)) :
    applyLine st (.field t nm sid v true) = .ok (⟨some k, .flist l⟩ :: st) := by
  show (match build_ndugff_field t nm sid v true with
    | .error e => Except.error e
    | .ok (k2, fv2) =>
      match fv2 with
      | NduVal.dictV d2 => Except.ok (⟨some k2, .fdict d2⟩ :: st)
      | NduVal.listV l2 => Except.ok (⟨some k2, .flist l2⟩ :: st)
      | _ => Except.error (pys "internal: non-container node")) =
    Except.ok (⟨some k, .flist l⟩ :: st)
  rw [hbf]

theorem applyLine_field_leaf (ok0 : Option NduKey) (d0 : NduDict) (rest : MachState)
    (t nm : PyStr) (sid : Option PyStr) (v : Option PyStr) (k : NduKey) (fv : NduVal)
    (hbf : build_ndugff_field t nm sid v false = .ok (k, fv)) :
    applyLine (⟨ok0, .fdict d0⟩ :: rest) (.field t nm sid v false) =
      .ok (⟨ok0, .fdict (d0.push k fv)⟩ :: rest) := by
  show (match build_ndugff_field t nm sid v false with
    | .error e => Except.error e
    | .ok (k2, fv2) => Except.ok (⟨ok0, .fdict (d0.push k2 fv2)⟩ :: rest)) =
    Except.ok (⟨ok0, .fdict (d0.push k fv)⟩ :: rest)
  rw [hbf]

theorem run_open_cexo (depth : Nat) (nm : PyStr) (hnm : wfName nm = true)
    (st : MachState) (lns : List PyStr) :
    runLinesM st (pyStrip (get_indent depth ++
      get_formatted_key ⟨pys "gff.CExoLocString", nm, none⟩) :: lns) =
    runLinesM (⟨some ⟨pys "gff.CExoLocString", nm, none⟩, .fdict .nil⟩ :: st) lns := by
  have hkey : get_formatted_key ⟨pys "gff.CExoLocString", nm, none⟩ =
      pys "gff.CExoLocString" ++ '(' :: (nm ++ ')' :: []) := by
    unfold get_formatted_key
    rw [if_neg (by decide : ¬ (pys "gff.CExoLocString" = pys "gff.Struct"))]
    rw [show pys "(" = ['('] from rfl, show pys ")" = [')'] from rfl]
    simp only [List.append_assoc, List.cons_append, List.nil_append]
  have hlast : (pys "gff.CExoLocString" ++ '(' :: (nm ++ ')' :: [])).getLast? =
      some ')' := by
    simp [List.getLast?_append, List.getLast?_cons]
  have hstrip : pyStrip (get_indent depth ++
      (pys "gff.CExoLocString" ++ '(' :: (nm ++ ')' :: []))) =
      pys "gff.CExoLocString" ++ '(' :: (nm ++ ')' :: []) := by
    refine pyStrip_core (4 * depth) _ ?_ ?_
    · intro c h
      rw [show (pys "gff.CExoLocString" ++ '(' :: (nm ++ ')' :: [])).head? =
        some 'g' from rfl] at h
      injection h with h2
      rw [← h2]
      decide
    · intro c h
      rw [hlast] at h
      injection h with h2
      rw [← h2]
      decide
  have hm : matchTypeAlt DSL_TYPE_NAMES
      (pys "gff.CExoLocString" ++ '(' :: (nm ++ ')' :: [])) =
      some (pys "gff.CExoLocString", '(' :: (nm ++ ')' :: [])) := rfl
  have htok := tokenizeDsl_emitted (pys "gff.CExoLocString") nm [] hm hnm
  simp only [parseId_nil, parseValue_nil] at htok
  have hbuild := build_dsl_line_tok
    (pys "gff.CExoLocString" ++ '(' :: (nm ++ ')' :: [])) rfl
    ⟨pys "gff.CExoLocString", nm, none, none⟩ htok
  rw [show build_dsl_from_tokens ⟨pys "gff.CExoLocString", nm, none, none⟩ =
    .ok (.field (pys "gff.CExoLocString") nm none none true) from rfl] at hbuild
  have happ : applyLine st (.field (pys "gff.CExoLocString") nm none none true) =
      .ok (⟨some ⟨pys "gff.CExoLocString", nm, none⟩, .fdict .nil⟩ :: st) := rfl
  rw [hkey, hstrip]
  simp only [runLinesM, hbuild, happ]

theorem run_open_list (depth : Nat) (nm : PyStr) (hnm : wfName nm = true)
    (st : MachState) (lns : List PyStr) :
    runLinesM st (pyStrip (get_indent depth ++
      get_formatted_key ⟨pys "gff.List", nm, none⟩) :: lns) =
    runLinesM (⟨some ⟨pys "gff.List", nm, none⟩, .flist .lnil⟩ :: st) lns := by
  have hkey : get_formatted_key ⟨pys "gff.List", nm, none⟩ =
      pys "gff.List" ++ '(' :: (nm ++ ')' :: []) := by
    unfold get_formatted_key
    rw [if_neg (by decide : ¬ (pys "gff.List" = pys "gff.Struct"))]
    rw [show pys "(" = ['('] from rfl, show pys ")" = [')'] from rfl]
    simp only [List.append_assoc, List.cons_append, List.nil_append]
  have hlast : (pys "gff.List" ++ '(' :: (nm ++ ')' :: [])).getLast? = some ')' := by
    simp [List.getLast?_append, List.getLast?_cons]
  have hstrip : pyStrip (get_indent depth ++
      (pys "gff.List" ++ '(' :: (nm ++ ')' :: []))) =
      pys "gff.List" ++ '(' :: (nm ++ ')' :: []) := by
    refine pyStrip_core (4 * depth) _ ?_ ?_
    · intro c h
      rw [show (pys "gff.List" ++ '(' :: (nm ++ ')' :: [])).head? =
        some 'g' from rfl] at h
      injection h with h2
      rw [← h2]
      decide
    · intro c h
      rw [hlast] at h
      injection h with h2
      rw [← h2]
      decide
  have hm : matchTypeAlt DSL_TYPE_NAMES
      (pys "gff.List" ++ '(' :: (nm ++ ')' :: [])) =
      some (pys "gff.List", '(' :: (nm ++ ')' :: [])) := rfl
  have htok := tokenizeDsl_emitted (pys "gff.List") nm [] hm hnm
  simp only [parseId_nil, parseValue_nil] at htok
  have hbuild := build_dsl_line_tok
    (pys "gff.List" ++ '(' :: (nm ++ ')' :: [])) rfl
    ⟨pys "gff.List", nm, none, none⟩ htok
  rw [show build_dsl_from_tokens ⟨pys "gff.List", nm, none, none⟩ =
    .ok (.field (pys "gff.List") nm none none true) from rfl] at hbuild
  have happ : applyLine st (.field (pys "gff.List") nm none none true) =
      .ok (⟨some ⟨pys "gff.List", nm, none⟩, .flist .lnil⟩ :: st) := rfl
  rw [hkey, hstrip]
  simp only [runLinesM, hbuild, happ]

theorem run_open_struct (depth : Nat) (nm : PyStr) (i : Int)
    (hnm : wfName nm = true) (hi : i ≠ -1) (st : MachState) (lns : List PyStr) :
    runLinesM st (pyStrip (get_indent depth ++
      get_formatted_key ⟨pys "gff.Struct", nm, some i⟩) :: lns) =
    runLinesM (⟨some ⟨pys "gff.Struct", nm, some i⟩, .fdict .nil⟩ :: st) lns := by
  have hkey : get_formatted_key ⟨pys "gff.Struct", nm, some i⟩ =
      pys "gff.Struct" ++ '(' :: (nm ++ ')' ::
        (pys ".id(" ++ (intReprPy (get_pretty_sentinel i) ++ ')' :: []))) := by
    unfold get_formatted_key
    rw [if_pos rfl]
    rw [show pys "(" = ['('] from rfl, show pys ")" = [')'] from rfl,
      show pys ").id(" = ')' :: pys ".id(" from rfl]
    simp only [List.append_assoc, List.cons_append, List.nil_append]
  have hlast : (pys "gff.Struct" ++ '(' :: (nm ++ ')' ::
      (pys ".id(" ++ (intReprPy (get_pretty_sentinel i) ++ ')' :: [])))).getLast? =
      some ')' := by
    simp [List.getLast?_append, List.getLast?_cons]
  have hstrip : pyStrip (get_indent depth ++
      (pys "gff.Struct" ++ '(' :: (nm ++ ')' ::
        (pys ".id(" ++ (intReprPy (get_pretty_sentinel i) ++ ')' :: []))))) =
      pys "gff.Struct" ++ '(' :: (nm ++ ')' ::
        (pys ".id(" ++ (intReprPy (get_pretty_sentinel i) ++ ')' :: []))) := by
    refine pyStrip_core (4 * depth) _ ?_ ?_
    · intro c h
      rw [show (pys "gff.Struct" ++ '(' :: (nm ++ ')' ::
        (pys ".id(" ++ (intReprPy (get_pretty_sentinel i) ++ ')' :: [])))).head? =
        some 'g' from rfl] at h
      injection h with h2
      rw [← h2]
      decide
    · intro c h
      rw [hlast] at h
      injection h with h2
      rw [← h2]
      decide
  have hm : matchTypeAlt DSL_TYPE_NAMES
      (pys "gff.Struct" ++ '(' :: (nm ++ ')' ::
        (pys ".id(" ++ (intReprPy (get_pretty_sentinel i) ++ ')' :: [])))) =
      some (pys "gff.Struct", '(' :: (nm ++ ')' ::
        (pys ".id(" ++ (intReprPy (get_pretty_sentinel i) ++ ')' :: [])))) := rfl
  have htok := tokenizeDsl_emitted (pys "gff.Struct") nm
    (pys ".id(" ++ (intReprPy (get_pretty_sentinel i) ++ ')' :: [])) hm hnm
  rw [parseId_intRepr] at htok
  simp only [parseValue_nil] at htok
  have hbuild := build_dsl_line_tok
    (pys "gff.Struct" ++ '(' :: (nm ++ ')' ::
      (pys ".id(" ++ (intReprPy (get_pretty_sentinel i) ++ ')' :: [])))) rfl
    ⟨pys "gff.Struct", nm, some (intReprPy (get_pretty_sentinel i)), none⟩ htok
  rw [show build_dsl_from_tokens
      ⟨pys "gff.Struct", nm, some (intReprPy (get_pretty_sentinel i)), none⟩ =
    .ok (.field (pys "gff.Struct") nm
      (some (get_unprettified_sentinel_str (intReprPy (get_pretty_sentinel i))))
      none true) from rfl] at hbuild
  have hbf : build_ndugff_field (pys "gff.Struct") nm
      (some (get_unprettified_sentinel_str (intReprPy (get_pretty_sentinel i))))
      none true = .ok (⟨pys "gff.Struct", nm, some i⟩, .dictV .nil) := by
    unfold build_ndugff_field
    simp only [sentinel_text_roundtrip i hi]
    rfl
  have happ : applyLine st (.field (pys "gff.Struct") nm
      (some (get_unprettified_sentinel_str (intReprPy (get_pretty_sentinel i))))
      none true) =
      .ok (⟨some ⟨pys "gff.Struct", nm, some i⟩, .fdict .nil⟩ :: st) :=
    applyLine_field_node_dict st _ _ _ _ _ _ hbf
  rw [hkey, hstrip]
  simp only [runLinesM, hbuild, happ]

theorem run_end_dict (depth : Nat) (k : NduKey) (fb : FrameBody) (pk : Option NduKey)
    (pd : NduDict) (rest : MachState) (lns : List PyStr) :
    runLinesM (⟨some k, fb⟩ :: ⟨pk, .fdict pd⟩ :: rest)
      (pyStrip (get_indent_end depth ++ pys "end()") :: lns) =
    runLinesM (⟨pk, .fdict (pd.push k fb.toVal)⟩ :: rest) lns := by
  rw [strip_end]
  have happ : applyLine (⟨some k, fb⟩ :: ⟨pk, .fdict pd⟩ :: rest) .nodeEnd =
      .ok (⟨pk, .fdict (pd.push k fb.toVal)⟩ :: rest) := rfl
  simp only [runLinesM, build_end_line, happ]

theorem run_end_list (depth : Nat) (k : NduKey) (fb : FrameBody) (pk : Option NduKey)
    (pl : NduList) (rest : MachState) (lns : List PyStr) :
    runLinesM (⟨some k, fb⟩ :: ⟨pk, .flist pl⟩ :: rest)
      (pyStrip (get_indent_end depth ++ pys "end()") :: lns) =
    runLinesM (⟨pk, .flist (pl.push (.cons k fb.toVal .nil))⟩ :: rest) lns := by
  rw [strip_end]
  have happ : applyLine (⟨some k, fb⟩ :: ⟨pk, .flist pl⟩ :: rest) .nodeEnd =
      .ok (⟨pk, .flist (pl.push (.cons k fb.toVal .nil))⟩ :: rest) := rfl
  simp only [runLinesM, build_end_line, happ]

/-- Running one emitted leaf line for an `int`-valued field (`m` is the
pretty-printed value, `n` the stored one; they differ only for the
`Dword` sentinel). -/
theorem run_leaf_int_core (depth : Nat) (k : NduKey) (n m : Int)
    (hvk : vkindOf k.ftype = some .vint) (hwn : wfName k.name = true)
    (hne : k.name ≠ []) (hfid : k.fid = none)
    (hfmt : get_formatted_value k (.intV n) = ':' :: ' ' :: intReprPy m)
    (hparse : pyIntOfStr (if k.ftype = pys "gff.Dword" then
      get_unprettified_sentinel_str (intReprPy m) else intReprPy m) = some n)
    (ok0 : Option NduKey) (d0 : NduDict) (rest : MachState) (lns : List PyStr) :
    runLinesM (⟨ok0, .fdict d0⟩ :: rest)
      (pyStrip (get_indent depth ++
        (get_formatted_key k ++ get_formatted_value k (.intV n))) :: lns) =
    runLinesM (⟨ok0, .fdict (d0.push k (.intV n))⟩ :: rest) lns := by
  obtain ⟨hm, ⟨t2, ht2⟩, hintf, _, _, _, _⟩ :=
    registry_facts k.ftype _ hvk (k.name ++ ')' :: (':' :: ' ' :: intReprPy m))
  obtain ⟨hnodef, hescf, hlitf, hmt, hstru⟩ := hintf rfl
  have hline : get_formatted_key k ++ get_formatted_value k (.intV n) =
      k.ftype ++ '(' :: (k.name ++ ')' :: (':' :: ' ' :: intReprPy m)) := by
    unfold get_formatted_key
    rw [if_neg hstru, hfmt,
      show pys "(" = ['('] from rfl, show pys ")" = [')'] from rfl]
    simp only [List.append_assoc, List.cons_append, List.nil_append]
  obtain ⟨B, c0, hsnoc, hc0⟩ := intReprPy_snoc m
  have hlast : (k.ftype ++ '(' :: (k.name ++ ')' ::
      (':' :: ' ' :: intReprPy m))).getLast? = some c0 := by
    rw [hsnoc]
    simp [List.getLast?_append, List.getLast?_cons]
  have hstrip : pyStrip (get_indent depth ++
      (k.ftype ++ '(' :: (k.name ++ ')' :: (':' :: ' ' :: intReprPy m)))) =
      k.ftype ++ '(' :: (k.name ++ ')' :: (':' :: ' ' :: intReprPy m)) := by
    refine pyStrip_core (4 * depth) _ ?_ ?_
    · intro c h
      rw [ht2, List.cons_append, List.head?_cons] at h
      injection h with h2
      rw [← h2]
      decide
    · intro c h
      rw [hlast] at h
      injection h with h2
      rw [← h2]
      exact (ten_digit_props c0 hc0).2.1
  obtain ⟨ch, ct, hct⟩ := List.exists_cons_of_ne_nil (intReprPy_ne_nil m)
  have hch : ch ∈ intReprPy m := by
    rw [hct]
    exact List.mem_cons_self ch ct
  have hpv : parseValueGroup (':' :: ' ' :: intReprPy m) = some (intReprPy m) :=
    parseValue_leaf _ ch ct hct (by simp [(intReprPy_clean m ch hch).1])
      (any_char_eq_false _ _ (fun c hc => (intReprPy_clean m c hc).2.1))
  have htok := tokenizeDsl_emitted k.ftype k.name (':' :: ' ' :: intReprPy m) hm hwn
  simp only [parseId_colon, hpv] at htok
  have hg : (k.ftype ++ '(' :: (k.name ++ ')' ::
      (':' :: ' ' :: intReprPy m))).head? = some 'g' := by
    rw [ht2, List.cons_append, List.head?_cons]
  have hb := build_dsl_line_tok _ hg ⟨k.ftype, k.name, none, some (intReprPy m)⟩ htok
  have h1 : pyStripQuotes (intReprPy m) = intReprPy m :=
    pyStripQuotes_of_no_quote _ (fun c hc => (intReprPy_clean m c hc).2.2.1)
  have h2 : ((intReprPy m).any (· = '\\')) = false :=
    any_char_eq_false _ _ (fun c hc => (intReprPy_clean m c hc).2.2.2.1)
  have hbtok : build_dsl_from_tokens ⟨k.ftype, k.name, none, some (intReprPy m)⟩ =
      .ok (.field k.ftype k.name none
        (some (if k.ftype = pys "gff.Dword" then
          get_unprettified_sentinel_str (intReprPy m) else intReprPy m)) false) := by
    unfold build_dsl_from_tokens
    rw [if_neg (by simp [hnodef]), if_neg hne]
    simp only [h1, h2, Bool.false_eq_true, if_false]
    rw [if_neg hmt]
  rw [hbtok] at hb
  have hk : (⟨k.ftype, k.name, none⟩ : NduKey) = k := by
    rw [← hfid]
  have hbf : build_ndugff_field k.ftype k.name none
      (some (if k.ftype = pys "gff.Dword" then
        get_unprettified_sentinel_str (intReprPy m) else intReprPy m)) false =
      .ok (k, .intV n) := by
    unfold build_ndugff_field
    rw [if_neg hstru]
    simp only [hvk, hparse]
    rw [hk]
    rfl
  have happ := applyLine_field_leaf ok0 d0 rest _ _ _ _ _ _ hbf
  rw [hline, hstrip]
  simp only [runLinesM, hb, happ]

theorem run_leaf_int (depth : Nat) (k : NduKey) (n : Int)
    (hvk : vkindOf k.ftype = some .vint) (hwn : wfName k.name = true)
    (hne : k.name ≠ []) (hfid : k.fid = none)
    (hdwimp : k.ftype = pys "gff.Dword" → n ≠ -1)
    (ok0 : Option NduKey) (d0 : NduDict) (rest : MachState) (lns : List PyStr) :
    runLinesM (⟨ok0, .fdict d0⟩ :: rest)
      (pyStrip (get_indent depth ++
        (get_formatted_key k ++ get_formatted_value k (.intV n))) :: lns) =
    runLinesM (⟨ok0, .fdict (d0.push k (.intV n))⟩ :: rest) lns := by
  obtain ⟨_, _, hintf, _, _, _, _⟩ := registry_facts k.ftype _ hvk []
  obtain ⟨hnodef, hescf, hlitf, hmt, hstru⟩ := hintf rfl
  by_cases hdw : k.ftype = pys "gff.Dword"
  · refine run_leaf_int_core depth k n (get_pretty_sentinel n) hvk hwn hne hfid ?_ ?_
      ok0 d0 rest lns
    · unfold get_formatted_value
      rw [if_neg (by simp [hescf]), if_pos hdw]
      simp only [hescf, hlitf, Bool.or_self, Bool.false_eq_true, if_false]
      rfl
    · rw [if_pos hdw]
      exact sentinel_text_roundtrip n (hdwimp hdw)
  · refine run_leaf_int_core depth k n n hvk hwn hne hfid ?_ ?_ ok0 d0 rest lns
    · unfold get_formatted_value
      rw [if_neg (by simp [hescf]), if_neg hdw]
      simp only [hescf, hlitf, Bool.or_self, Bool.false_eq_true, if_false]
      rfl
    · rw [if_neg hdw]
      exact pyIntOfStr_intReprPy n

theorem run_leaf_float (depth : Nat) (k : NduKey) (fr : PyStr)
    (hvk : vkindOf k.ftype = some .vfloat) (hwn : wfName k.name = true)
    (hne : k.name ≠ []) (hfid : k.fid = none)
    (hfok : pyFloatOk fr = true) (hfcs : fr.all floatTokenChar = true)
    (ok0 : Option NduKey) (d0 : NduDict) (rest : MachState) (lns : List PyStr) :
    runLinesM (⟨ok0, .fdict d0⟩ :: rest)
      (pyStrip (get_indent depth ++
        (get_formatted_key k ++ get_formatted_value k (.floatV fr))) :: lns) =
    runLinesM (⟨ok0, .fdict (d0.push k (.floatV fr))⟩ :: rest) lns := by
  obtain ⟨hm, ⟨t2, ht2⟩, _, hfloatf, _, _, _⟩ :=
    registry_facts k.ftype _ hvk (k.name ++ ')' :: (':' :: ' ' :: fr))
  obtain ⟨hnodef, hescf, hlitf, hmt, hdwf, hstru⟩ := hfloatf rfl
  have hclean : ∀ c ∈ fr, floatTokenChar c = true := List.all_eq_true.mp hfcs
  have hfrne : fr ≠ [] := pyFloatOk_ne_nil fr hfok
  have hline : get_formatted_key k ++ get_formatted_value k (.floatV fr) =
      k.ftype ++ '(' :: (k.name ++ ')' :: (':' :: ' ' :: fr)) := by
    unfold get_formatted_key get_formatted_value
    rw [if_neg hstru, if_neg (by simp [hescf]), if_neg hdwf,
      show pys "(" = ['('] from rfl, show pys ")" = [')'] from rfl]
    simp only [hescf, hlitf, Bool.or_self, Bool.false_eq_true, if_false]
    simp only [List.append_assoc, List.cons_append, List.nil_append]
    rfl
  have hlast : (k.ftype ++ '(' :: (k.name ++ ')' ::
      (':' :: ' ' :: fr))).getLast? = some (fr.getLast hfrne) := by
    conv_lhs => rw [show fr = fr.dropLast ++ [fr.getLast hfrne] from
      (List.dropLast_append_getLast hfrne).symm]
    simp [List.getLast?_append, List.getLast?_cons]
  have hgl : floatTokenChar (fr.getLast hfrne) = true :=
    hclean _ (List.getLast_mem hfrne)
  have hstrip : pyStrip (get_indent depth ++
      (k.ftype ++ '(' :: (k.name ++ ')' :: (':' :: ' ' :: fr)))) =
      k.ftype ++ '(' :: (k.name ++ ')' :: (':' :: ' ' :: fr)) := by
    refine pyStrip_core (4 * depth) _ ?_ ?_
    · intro c h
      rw [ht2, List.cons_append, List.head?_cons] at h
      injection h with h2
      rw [← h2]
      decide
    · intro c h
      rw [hlast] at h
      injection h with h2
      rw [← h2]
      exact (floatTokenChar_facts _ hgl).1
  obtain ⟨ch, ct, hct⟩ := List.exists_cons_of_ne_nil hfrne
  have hch : floatTokenChar ch = true := hclean ch (by rw [hct]; exact List.mem_cons_self ch ct)
  have hpv : parseValueGroup (':' :: ' ' :: fr) = some fr :=
    parseValue_leaf _ ch ct hct (by simp [(floatTokenChar_facts ch hch).2.2.2.2])
      (any_char_eq_false _ _ (fun c hc => (floatTokenChar_facts c (hclean c hc)).2.2.2.1))
  have htok := tokenizeDsl_emitted k.ftype k.name (':' :: ' ' :: fr) hm hwn
  simp only [parseId_colon, hpv] at htok
  have hg : (k.ftype ++ '(' :: (k.name ++ ')' :: (':' :: ' ' :: fr))).head? =
      some 'g' := by
    rw [ht2, List.cons_append, List.head?_cons]
  have hb := build_dsl_line_tok _ hg ⟨k.ftype, k.name, none, some fr⟩ htok
  have h1 : pyStripQuotes fr = fr :=
    pyStripQuotes_of_no_quote _ (fun c hc => (floatTokenChar_facts c (hclean c hc)).2.1)
  have h2 : (fr.any (· = '\\')) = false :=
    any_char_eq_false _ _ (fun c hc => (floatTokenChar_facts c (hclean c hc)).2.2.1)
  have hbtok : build_dsl_from_tokens ⟨k.ftype, k.name, none, some fr⟩ =
      .ok (.field k.ftype k.name none (some fr) false) := by
    unfold build_dsl_from_tokens
    rw [if_neg (by simp [hnodef]), if_neg hne]
    simp only [h1, h2, Bool.false_eq_true, if_false]
    rw [if_neg hmt, if_neg hdwf]
  rw [hbtok] at hb
  have hk : (⟨k.ftype, k.name, none⟩ : NduKey) = k := by
    rw [← hfid]
  have hbf : build_ndugff_field k.ftype k.name none (some fr) false =
      .ok (k, .floatV fr) := by
    unfold build_ndugff_field
    rw [if_neg hstru]
    simp only [hvk]
    rw [hk]
    simp only [hfok, if_true]
    rfl
  have happ := applyLine_field_leaf ok0 d0 rest _ _ _ _ _ _ hbf
  rw [hline, hstrip]
  simp only [runLinesM, hb, happ]

/-- Running one emitted leaf line for a string-valued field, given the
formatted (quoted) payload text `q` and the facts the quoting layer needs:
the stripped text parses back to exactly `s`. -/
theorem run_leaf_str_core (depth : Nat) (k : NduKey) (s q : PyStr)
    (hvk : vkindOf k.ftype = some .vstr) (hwn : wfName k.name = true)
    (hne : k.name ≠ []) (hfid : k.fid = none)
    (hfmt : get_formatted_value k (.strV s) = ':' :: ' ' :: ('"' :: (q ++ ['"'])))
    (hnolf : ∀ c ∈ q, c ≠ '\n')
    (hqh : q.head? ≠ some '"') (hql : q.getLast? ≠ some '"')
    (hesc2 : (if q.any (· = '\\') then
        (if memS k.ftype ESCAPED_STRING_TYPES then
          Except.ok (unescape_escaped_string q)
        else if memS k.ftype LITERAL_STRING_TYPES then
          Except.error (pys "Backslashes are not allowed in literal strings")
        else Except.error (pys "Backslashes are not allowed in values")) else
        Except.ok q) = Except.ok s)
    (hnorm : (if k.ftype = pys "gff.MagicTag" then normalize_magic_tag s else s) = s)
    (ok0 : Option NduKey) (d0 : NduDict) (rest : MachState) (lns : List PyStr) :
    runLinesM (⟨ok0, .fdict d0⟩ :: rest)
      (pyStrip (get_indent depth ++
        (get_formatted_key k ++ get_formatted_value k (.strV s))) :: lns) =
    runLinesM (⟨ok0, .fdict (d0.push k (.strV s))⟩ :: rest) lns := by
  obtain ⟨hm, ⟨t2, ht2⟩, _, _, hstrf, _, _⟩ :=
    registry_facts k.ftype _ hvk (k.name ++ ')' :: (':' :: ' ' :: ('"' :: (q ++ ['"']))))
  obtain ⟨hnodef, hdwf, hstru, _⟩ := hstrf rfl
  have hline : get_formatted_key k ++ get_formatted_value k (.strV s) =
      k.ftype ++ '(' :: (k.name ++ ')' :: (':' :: ' ' :: ('"' :: (q ++ ['"'])))) := by
    unfold get_formatted_key
    rw [if_neg hstru, hfmt,
      show pys "(" = ['('] from rfl, show pys ")" = [')'] from rfl]
    simp only [List.append_assoc, List.cons_append, List.nil_append]
  have hlast : (k.ftype ++ '(' :: (k.name ++ ')' ::
      (':' :: ' ' :: ('"' :: (q ++ ['"']))))).getLast? = some '"' := by
    simp [List.getLast?_append, List.getLast?_cons]
  have hstrip : pyStrip (get_indent depth ++
      (k.ftype ++ '(' :: (k.name ++ ')' :: (':' :: ' ' :: ('"' :: (q ++ ['"'])))))) =
      k.ftype ++ '(' :: (k.name ++ ')' :: (':' :: ' ' :: ('"' :: (q ++ ['"'])))) := by
    refine pyStrip_core (4 * depth) _ ?_ ?_
    · intro c h
      rw [ht2, List.cons_append, List.head?_cons] at h
      injection h with h2
      rw [← h2]
      decide
    · intro c h
      rw [hlast] at h
      injection h with h2
      rw [← h2]
      decide
  have hpv : parseValueGroup (':' :: ' ' :: ('"' :: (q ++ ['"']))) =
      some ('"' :: (q ++ ['"'])) := by
    refine parseValue_leaf _ '"' (q ++ ['"']) rfl (by simp) ?_
    refine any_char_eq_false _ _ ?_
    intro c hc
    rcases List.mem_cons.mp hc with h2 | h2
    · subst h2
      decide
    · rcases List.mem_append.mp h2 with h3 | h3
      · exact hnolf c h3
      · have : c = '"' := by simpa using h3
        subst this
        decide
  have htok := tokenizeDsl_emitted k.ftype k.name
    (':' :: ' ' :: ('"' :: (q ++ ['"']))) hm hwn
  simp only [parseId_colon, hpv] at htok
  have hg : (k.ftype ++ '(' :: (k.name ++ ')' ::
      (':' :: ' ' :: ('"' :: (q ++ ['"']))))).head? = some 'g' := by
    rw [ht2, List.cons_append, List.head?_cons]
  have hb := build_dsl_line_tok _ hg
    ⟨k.ftype, k.name, none, some ('"' :: (q ++ ['"']))⟩ htok
  have h1 : pyStripQuotes ('"' :: (q ++ ['"'])) = q := pyStripQuotes_wrap q hqh hql
  have hbtok : build_dsl_from_tokens
      ⟨k.ftype, k.name, none, some ('"' :: (q ++ ['"']))⟩ =
      .ok (.field k.ftype k.name none (some s) false) := by
    unfold build_dsl_from_tokens
    rw [if_neg (by simp [hnodef]), if_neg hne]
    simp only [h1, hesc2, hnorm]
    rw [if_neg hdwf]
  rw [hbtok] at hb
  have hk : (⟨k.ftype, k.name, none⟩ : NduKey) = k := by
    rw [← hfid]
  have hbf : build_ndugff_field k.ftype k.name none (some s) false =
      .ok (k, .strV s) := by
    unfold build_ndugff_field
    rw [if_neg hstru]
    simp only [hvk]
    rw [hk]
    rfl
  have happ := applyLine_field_leaf ok0 d0 rest _ _ _ _ _ _ hbf
  rw [hline, hstrip]
  simp only [runLinesM, hb, happ]

theorem run_leaf_str (depth : Nat) (k : NduKey) (s : PyStr)
    (hvk : vkindOf k.ftype = some .vstr) (hwn : wfName k.name = true)
    (hne : k.name ≠ []) (hfid : k.fid = none)
    (hescimp : memS k.ftype ESCAPED_STRING_TYPES = true → wfEscapedStr s = true)
    (hlitimp : memS k.ftype ESCAPED_STRING_TYPES = false → wfLiteralStr s = true)
    (hmtimp : k.ftype = pys "gff.MagicTag" → s.length = 4)
    (ok0 : Option NduKey) (d0 : NduDict) (rest : MachState) (lns : List PyStr) :
    runLinesM (⟨ok0, .fdict d0⟩ :: rest)
      (pyStrip (get_indent depth ++
        (get_formatted_key k ++ get_formatted_value k (.strV s))) :: lns) =
    runLinesM (⟨ok0, .fdict (d0.push k (.strV s))⟩ :: rest) lns := by
  obtain ⟨_, _, _, _, hstrf, _, _⟩ := registry_facts k.ftype _ hvk []
  obtain ⟨hnodef, hdwf, hstru, hcls⟩ := hstrf rfl
  rcases hcls with ⟨hesc, hlit, hmt⟩ | ⟨hesc, hlit⟩
  · obtain ⟨hbs, hcr, hrs, hlq⟩ := wfEscapedStr_unpack s (hescimp hesc)
    refine run_leaf_str_core depth k s (escStr s) hvk hwn hne hfid ?_
      (escStr_no_newline s) (escStr_head_ne_quote s) (escStr_last_ne_quote s hlq)
      ?_ ?_ ok0 d0 rest lns
    · unfold get_formatted_value
      rw [if_pos hesc]
      rw [show pyStrOfVal (.strV s) = s from rfl]
      rw [get_escaped_string_eq_escStr s hcr]
      show (pys ": " ++ (if (memS k.ftype ESCAPED_STRING_TYPES ||
          memS k.ftype LITERAL_STRING_TYPES) = true then
          pys "\"" ++ escStr s ++ pys "\"" else escStr s)) =
        ':' :: ' ' :: ('"' :: (escStr s ++ ['"']))
      rw [if_pos (show (memS k.ftype ESCAPED_STRING_TYPES ||
        memS k.ftype LITERAL_STRING_TYPES) = true by rw [hesc]; rfl)]
      rw [show pys "\"" = ['"'] from rfl]
      simp only [List.append_assoc, List.cons_append, List.nil_append]
      rfl
    · by_cases hbs2 : ((escStr s).any (· = '\\')) = true
      · rw [if_pos hbs2, if_pos hesc, unescape_escStr s hbs hcr, hrs]
      · rw [if_neg hbs2, escStr_no_bs_id s (Bool.not_eq_true _ ▸ hbs2)]
    · rw [if_neg hmt]
  · have hwl := wfLiteralStr_unpack s (hlitimp hesc)
    have hnq : ∀ c ∈ s, c ≠ '"' := fun c hc => (hwl c hc).2.2.2
    obtain ⟨hqh, hql⟩ := head_last_ne s '"' hnq
    have hqbs : (s.any (· = '\\')) = false :=
      any_char_eq_false _ _ (fun c hc => (hwl c hc).1)
    refine run_leaf_str_core depth k s s hvk hwn hne hfid ?_
      (fun c hc => (hwl c hc).2.2.1) hqh hql ?_ ?_ ok0 d0 rest lns
    · unfold get_formatted_value
      rw [if_neg (show ¬ (memS k.ftype ESCAPED_STRING_TYPES = true) by
        simp [hesc])]
      rw [if_neg hdwf]
      show (pys ": " ++ (if (memS k.ftype ESCAPED_STRING_TYPES ||
          memS k.ftype LITERAL_STRING_TYPES) = true then
          pys "\"" ++ s ++ pys "\"" else s)) =
        ':' :: ' ' :: ('"' :: (s ++ ['"']))
      rw [if_pos (show (memS k.ftype ESCAPED_STRING_TYPES ||
        memS k.ftype LITERAL_STRING_TYPES) = true by rw [hesc, hlit]; rfl)]
      rw [show pys "\"" = ['"'] from rfl]
      simp only [List.append_assoc, List.cons_append, List.nil_append]
      rfl
    · rw [if_neg (by simp [hqbs])]
    · by_cases hmtq : k.ftype = pys "gff.MagicTag"
      · rw [if_pos hmtq, normalize_magic_tag_of_len4 s (hmtimp hmtq)]
      · rw [if_neg hmtq]

theorem run_leaf (depth : Nat) (k : NduKey) (v : NduVal) (hw : wfPair k v = true)
    (hnode : memS k.ftype NODE_TYPES = false)
    (ok0 : Option NduKey) (d0 : NduDict) (rest : MachState) (lns : List PyStr) :
    runLinesM (⟨ok0, .fdict d0⟩ :: rest)
      (pyStrip (get_indent depth ++
        (get_formatted_key k ++ get_formatted_value k v)) :: lns) =
    runLinesM (⟨ok0, .fdict (d0.push k v)⟩ :: rest) lns := by
  rcases wfPair_cases k v hw with ⟨i, d, hft, _⟩ | ⟨d, hft, _⟩ | ⟨l, hft, _⟩ |
    ⟨_, hwn, hne, hfid, hval⟩
  · rw [hft] at hnode
    exact absurd hnode (by decide)
  · rw [hft] at hnode
    exact absurd hnode (by decide)
  · rw [hft] at hnode
    exact absurd hnode (by decide)
  · rcases hval with ⟨n, hvk, rfl, hdwimp⟩ | ⟨fr, hvk, rfl, hfok, hfcs⟩ |
      ⟨s, hvk, rfl, hi1, hi2, hi3⟩
    · exact run_leaf_int depth k n hvk hwn hne hfid hdwimp ok0 d0 rest lns
    · exact run_leaf_float depth k fr hvk hwn hne hfid hfok hfcs ok0 d0 rest lns
    · exact run_leaf_str depth k s hvk hwn hne hfid hi1 hi2 hi3 ok0 d0 rest lns

set_option maxHeartbeats 4000000 in
mutual
/-- Running the machine over the emitted lines of a well-formed dictionary
appends exactly its pairs to the open dictionary frame. -/
theorem run_dump_d : ∀ (d : NduDict), wfDict d = true → ∀ (depth : Nat)
    (ok0 : Option NduKey) (d0 : NduDict) (rest : MachState),
    runLinesM (⟨ok0, .fdict d0⟩ :: rest) ((dump_dict_lines d depth).map pyStrip) =
      .ok (⟨ok0, .fdict (catD d0 d)⟩ :: rest)
  | .nil, hw, depth, ok0, d0, rest => by
    simp only [dump_dict_lines, List.map_nil]
    rfl
  | .cons k (.dictV dv) r, hw, depth, ok0, d0, rest => by
    have hw2 : (wfPair k (.dictV dv) && wfDict r) = true := hw
    rw [Bool.and_eq_true] at hw2
    obtain ⟨h1, h2⟩ := hw2
    obtain ⟨ft, nm, fid⟩ := k
    rcases wfPair_cases _ _ h1 with ⟨i, dv2, hft, hfid, hi, heq, hwd, hwn⟩ |
      ⟨dv2, hft, hfid, heq, hwd, hwn⟩ | ⟨lv2, hft, hfid, heq, hwl, hwn⟩ |
      ⟨hnodef, hwn, hnne, hfid, hval⟩
    · injection heq with heq2
      subst heq2
      simp only at hft hfid
      subst hft
      subst hfid
      simp only [dump_dict_lines]
      rw [if_pos (show memS (pys "gff.Struct") NODE_TYPES = true from rfl),
        List.append_nil]
      simp only [List.map_append, List.map_cons, List.map_nil, List.cons_append,
        List.append_assoc, List.nil_append]
      rw [run_open_struct depth nm i hwn hi]
      rw [runLinesM_append]
      have hdv := run_dump_d dv hwd (depth + 1) (some ⟨pys "gff.Struct", nm, some i⟩)
        .nil (⟨ok0, .fdict d0⟩ :: rest)
      rw [catD_nil_left] at hdv
      simp only [hdv]
      rw [run_end_dict depth _ (.fdict dv) ok0 d0 rest _]
      rw [show (FrameBody.fdict dv).toVal = NduVal.dictV dv from rfl]
      rw [run_dump_d r h2 depth ok0
        (d0.push ⟨pys "gff.Struct", nm, some i⟩ (.dictV dv)) rest]
      rfl
    · injection heq with heq2
      subst heq2
      simp only at hft hfid
      subst hft
      subst hfid
      simp only [dump_dict_lines]
      rw [if_pos (show memS (pys "gff.CExoLocString") NODE_TYPES = true from rfl),
        List.append_nil]
      simp only [List.map_append, List.map_cons, List.map_nil, List.cons_append,
        List.append_assoc, List.nil_append]
      rw [run_open_cexo depth nm hwn]
      rw [runLinesM_append]
      have hdv := run_dump_d dv hwd (depth + 1) (some ⟨pys "gff.CExoLocString", nm, none⟩)
        .nil (⟨ok0, .fdict d0⟩ :: rest)
      rw [catD_nil_left] at hdv
      simp only [hdv]
      rw [run_end_dict depth _ (.fdict dv) ok0 d0 rest _]
      rw [show (FrameBody.fdict dv).toVal = NduVal.dictV dv from rfl]
      rw [run_dump_d r h2 depth ok0
        (d0.push ⟨pys "gff.CExoLocString", nm, none⟩ (.dictV dv)) rest]
      rfl
    · simp at heq
    · rcases hval with ⟨n, _, heq, _⟩ | ⟨fr, _, heq, _, _⟩ | ⟨s, _, heq, _, _, _⟩ <;>
        simp at heq
  | .cons k (.listV lv) r, hw, depth, ok0, d0, rest => by
    have hw2 : (wfPair k (.listV lv) && wfDict r) = true := hw
    rw [Bool.and_eq_true] at hw2
    obtain ⟨h1, h2⟩ := hw2
    obtain ⟨ft, nm, fid⟩ := k
    rcases wfPair_cases _ _ h1 with ⟨i, dv2, hft, hfid, hi, heq, hwd, hwn⟩ |
      ⟨dv2, hft, hfid, heq, hwd, hwn⟩ | ⟨lv2, hft, hfid, heq, hwl, hwn⟩ |
      ⟨hnodef, hwn, hnne, hfid, hval⟩
    · simp at heq
    · simp at heq
    · injection heq with heq2
      subst heq2
      simp only at hft hfid
      subst hft
      subst hfid
      simp only [dump_dict_lines]
      rw [if_pos (show memS (pys "gff.List") NODE_TYPES = true from rfl),
        List.append_nil]
      simp only [List.map_append, List.map_cons, List.map_nil, List.cons_append,
        List.append_assoc, List.nil_append]
      rw [run_open_list depth nm hwn]
      rw [runLinesM_append]
      have hlv := run_dump_l lv hwl (depth + 1) (some ⟨pys "gff.List", nm, none⟩)
        .lnil (⟨ok0, .fdict d0⟩ :: rest)
      rw [catL_nil_left] at hlv
      simp only [hlv]
      rw [run_end_dict depth _ (.flist lv) ok0 d0 rest _]
      rw [show (FrameBody.flist lv).toVal = NduVal.listV lv from rfl]
      rw [run_dump_d r h2 depth ok0
        (d0.push ⟨pys "gff.List", nm, none⟩ (.listV lv)) rest]
      rfl
    · rcases hval with ⟨n, _, heq, _⟩ | ⟨fr, _, heq, _, _⟩ | ⟨s, _, heq, _, _, _⟩ <;>
        simp at heq
  | .cons k (.intV n) r, hw, depth, ok0, d0, rest => by
    have hw2 : (wfPair k (.intV n) && wfDict r) = true := hw
    rw [Bool.and_eq_true] at hw2
    obtain ⟨h1, h2⟩ := hw2
    obtain ⟨ft, nm, fid⟩ := k
    rcases wfPair_cases _ _ h1 with ⟨i, dv2, hft, hfid, hi, heq, hwd, hwn⟩ |
      ⟨dv2, hft, hfid, heq, hwd, hwn⟩ | ⟨lv2, hft, hfid, heq, hwl, hwn⟩ |
      ⟨hnodef, hwn, hnne, hfid, hval⟩
    · simp at heq
    · simp at heq
    · simp at heq
    · simp only at hnodef hfid
      subst hfid
      simp only [dump_dict_lines]
      rw [if_neg (show ¬ (memS ft NODE_TYPES = true) by simp [hnodef])]
      simp only [List.map_cons, List.map_append, List.map_nil, List.nil_append,
        List.cons_append, List.append_assoc]
      rw [run_leaf depth ⟨ft, nm, none⟩ _ h1 hnodef ok0 d0 rest _]
      rw [run_dump_d r h2 depth ok0 (d0.push ⟨ft, nm, none⟩ _) rest]
      rfl
  | .cons k (.floatV fr) r, hw, depth, ok0, d0, rest => by
    have hw2 : (wfPair k (.floatV fr) && wfDict r) = true := hw
    rw [Bool.and_eq_true] at hw2
    obtain ⟨h1, h2⟩ := hw2
    obtain ⟨ft, nm, fid⟩ := k
    rcases wfPair_cases _ _ h1 with ⟨i, dv2, hft, hfid, hi, heq, hwd, hwn⟩ |
      ⟨dv2, hft, hfid, heq, hwd, hwn⟩ | ⟨lv2, hft, hfid, heq, hwl, hwn⟩ |
      ⟨hnodef, hwn, hnne, hfid, hval⟩
    · simp at heq
    · simp at heq
    · simp at heq
    · simp only at hnodef hfid
      subst hfid
      simp only [dump_dict_lines]
      rw [if_neg (show ¬ (memS ft NODE_TYPES = true) by simp [hnodef])]
      simp only [List.map_cons, List.map_append, List.map_nil, List.nil_append,
        List.cons_append, List.append_assoc]
      rw [run_leaf depth ⟨ft, nm, none⟩ _ h1 hnodef ok0 d0 rest _]
      rw [run_dump_d r h2 depth ok0 (d0.push ⟨ft, nm, none⟩ _) rest]
      rfl
  | .cons k (.strV s) r, hw, depth, ok0, d0, rest => by
    have hw2 : (wfPair k (.strV s) && wfDict r) = true := hw
    rw [Bool.and_eq_true] at hw2
    obtain ⟨h1, h2⟩ := hw2
    obtain ⟨ft, nm, fid⟩ := k
    rcases wfPair_cases _ _ h1 with ⟨i, dv2, hft, hfid, hi, heq, hwd, hwn⟩ |
      ⟨dv2, hft, hfid, heq, hwd, hwn⟩ | ⟨lv2, hft, hfid, heq, hwl, hwn⟩ |
      ⟨hnodef, hwn, hnne, hfid, hval⟩
    · simp at heq
    · simp at heq
    · simp at heq
    · simp only at hnodef hfid
      subst hfid
      simp only [dump_dict_lines]
      rw [if_neg (show ¬ (memS ft NODE_TYPES = true) by simp [hnodef])]
      simp only [List.map_cons, List.map_append, List.map_nil, List.nil_append,
        List.cons_append, List.append_assoc]
      rw [run_leaf depth ⟨ft, nm, none⟩ _ h1 hnodef ok0 d0 rest _]
      rw [run_dump_d r h2 depth ok0 (d0.push ⟨ft, nm, none⟩ _) rest]
      rfl
termination_by d _ depth ok0 d0 rest => d.szD
decreasing_by
  all_goals simp only [NduDict.szD, NduVal.szV, NduList.szL]
  all_goals omega

/-- Running the machine over the emitted lines of a well-formed list of
struct elements appends exactly its elements to the open list frame. -/
theorem run_dump_l : ∀ (l : NduList), wfList l = true → ∀ (depth : Nat)
    (k0 : Option NduKey) (l0 : NduList) (rest : MachState),
    runLinesM (⟨k0, .flist l0⟩ :: rest) ((dump_list_lines l depth).map pyStrip) =
      .ok (⟨k0, .flist (catL l0 l)⟩ :: rest)
  | .lnil, hw, depth, k0, l0, rest => by
    simp only [dump_list_lines, List.map_nil]
    rfl
  | .lcons .nil r, hw, depth, k0, l0, rest => by
    have hw2 : (false && wfList r) = true := hw
    simp at hw2
  | .lcons (.cons k v (.cons k2 v2 e3)) r, hw, depth, k0, l0, rest => by
    have hw2 : (false && wfList r) = true := hw
    simp at hw2
  | .lcons (.cons k (.dictV dv) .nil) r, hw, depth, k0, l0, rest => by
    have hw2 : (wfElem (.cons k (.dictV dv) .nil) && wfList r) = true := hw
    rw [Bool.and_eq_true] at hw2
    obtain ⟨h1, h2⟩ := hw2
    have h3 : (wfPair k (.dictV dv) && memS k.ftype NODE_TYPES) = true := h1
    rw [Bool.and_eq_true] at h3
    obtain ⟨hp, hn⟩ := h3
    obtain ⟨ft, nm, fid⟩ := k
    rcases wfPair_cases _ _ hp with ⟨i, dv2, hft, hfid, hi, heq, hwd, hwn⟩ |
      ⟨dv2, hft, hfid, heq, hwd, hwn⟩ | ⟨lv2, hft, hfid, heq, hwl2, hwn⟩ |
      ⟨hnodef, _, _, _, _⟩
    · injection heq with heq2
      subst heq2
      simp only at hft hfid
      subst hft
      subst hfid
      simp only [dump_list_lines, dump_dict_lines]
      rw [if_pos (show memS (pys "gff.Struct") NODE_TYPES = true from rfl)]
      simp only [List.append_nil, List.map_append, List.map_cons, List.map_nil,
            List.cons_append, List.append_assoc, List.nil_append]
      rw [run_open_struct depth nm i hwn hi]
      rw [runLinesM_append]
      have hdv := run_dump_d dv hwd (depth + 1)
            (some ⟨pys "gff.Struct", nm, some i⟩) .nil (⟨k0, .flist l0⟩ :: rest)
      rw [catD_nil_left] at hdv
      simp only [hdv]
      rw [run_end_list depth _ (.fdict dv) k0 l0 rest _]
      rw [show (FrameBody.fdict dv).toVal = NduVal.dictV dv from rfl]
      rw [run_dump_l r h2 depth k0
            (l0.push (.cons ⟨pys "gff.Struct", nm, some i⟩ (.dictV dv) .nil)) rest]
      rfl
    · injection heq with heq2
      subst heq2
      simp only at hft hfid
      subst hft
      subst hfid
      simp only [dump_list_lines, dump_dict_lines]
      rw [if_pos (show memS (pys "gff.CExoLocString") NODE_TYPES = true from rfl)]
      simp only [List.append_nil, List.map_append, List.map_cons, List.map_nil,
            List.cons_append, List.append_assoc, List.nil_append]
      rw [run_open_cexo depth nm hwn]
      rw [runLinesM_append]
      have hdv := run_dump_d dv hwd (depth + 1)
            (some ⟨pys "gff.CExoLocString", nm, none⟩) .nil (⟨k0, .flist l0⟩ :: rest)
      rw [catD_nil_left] at hdv
      simp only [hdv]
      rw [run_end_list depth _ (.fdict dv) k0 l0 rest _]
      rw [show (FrameBody.fdict dv).toVal = NduVal.dictV dv from rfl]
      rw [run_dump_l r h2 depth k0
            (l0.push (.cons ⟨pys "gff.CExoLocString", nm, none⟩ (.dictV dv) .nil)) rest]
      rfl
    · simp at heq
    · simp only at hnodef hn
      rw [hnodef] at hn
      exact Bool.noConfusion hn
  | .lcons (.cons k (.listV lv) .nil) r, hw, depth, k0, l0, rest => by
    have hw2 : (wfElem (.cons k (.listV lv) .nil) && wfList r) = true := hw
    rw [Bool.and_eq_true] at hw2
    obtain ⟨h1, h2⟩ := hw2
    have h3 : (wfPair k (.listV lv) && memS k.ftype NODE_TYPES) = true := h1
    rw [Bool.and_eq_true] at h3
    obtain ⟨hp, hn⟩ := h3
    obtain ⟨ft, nm, fid⟩ := k
    rcases wfPair_cases _ _ hp with ⟨i, dv2, hft, hfid, hi, heq, hwd, hwn⟩ |
      ⟨dv2, hft, hfid, heq, hwd, hwn⟩ | ⟨lv2, hft, hfid, heq, hwl2, hwn⟩ |
      ⟨hnodef, _, _, _, _⟩
    · simp at heq
    · simp at heq
    · injection heq with heq2
      subst heq2
      simp only at hft hfid
      subst hft
      subst hfid
      simp only [dump_list_lines, dump_dict_lines]
      rw [if_pos (show memS (pys "gff.List") NODE_TYPES = true from rfl)]
      simp only [List.append_nil, List.map_append, List.map_cons, List.map_nil,
            List.cons_append, List.append_assoc, List.nil_append]
      rw [run_open_list depth nm hwn]
      rw [runLinesM_append]
      have hlv := run_dump_l lv hwl2 (depth + 1)
            (some ⟨pys "gff.List", nm, none⟩) .lnil (⟨k0, .flist l0⟩ :: rest)
      rw [catL_nil_left] at hlv
      simp only [hlv]
      rw [run_end_list depth _ (.flist lv) k0 l0 rest _]
      rw [show (FrameBody.flist lv).toVal = NduVal.listV lv from rfl]
      rw [run_dump_l r h2 depth k0
            (l0.push (.cons ⟨pys "gff.List", nm, none⟩ (.listV lv) .nil)) rest]
      rfl
    · simp only at hnodef hn
      rw [hnodef] at hn
      exact Bool.noConfusion hn
  | .lcons (.cons k (.intV n) .nil) r, hw, depth, k0, l0, rest => by
    have hw2 : (wfElem (.cons k (.intV n) .nil) && wfList r) = true := hw
    rw [Bool.and_eq_true] at hw2
    obtain ⟨h1, h2⟩ := hw2
    have h3 : (wfPair k (.intV n) && memS k.ftype NODE_TYPES) = true := h1
    rw [Bool.and_eq_true] at h3
    obtain ⟨hp, hn⟩ := h3
    obtain ⟨ft, nm, fid⟩ := k
    simp only at hn
    rcases wfPair_cases _ _ hp with ⟨i, dv2, hft, hfid, hi, heq, hwd, hwn⟩ |
      ⟨dv2, hft, hfid, heq, hwd, hwn⟩ | ⟨lv2, hft, hfid, heq, hwl2, hwn⟩ |
      ⟨hnodef, _, _, _, _⟩
    · simp at heq
    · simp at heq
    · simp at heq
    · simp only at hnodef
      rw [hnodef] at hn
      exact Bool.noConfusion hn
  | .lcons (.cons k (.floatV fr) .nil) r, hw, depth, k0, l0, rest => by
    have hw2 : (wfElem (.cons k (.floatV fr) .nil) && wfList r) = true := hw
    rw [Bool.and_eq_true] at hw2
    obtain ⟨h1, h2⟩ := hw2
    have h3 : (wfPair k (.floatV fr) && memS k.ftype NODE_TYPES) = true := h1
    rw [Bool.and_eq_true] at h3
    obtain ⟨hp, hn⟩ := h3
    obtain ⟨ft, nm, fid⟩ := k
    simp only at hn
    rcases wfPair_cases _ _ hp with ⟨i, dv2, hft, hfid, hi, heq, hwd, hwn⟩ |
      ⟨dv2, hft, hfid, heq, hwd, hwn⟩ | ⟨lv2, hft, hfid, heq, hwl2, hwn⟩ |
      ⟨hnodef, _, _, _, _⟩
    · simp at heq
    · simp at heq
    · simp at heq
    · simp only at hnodef
      rw [hnodef] at hn
      exact Bool.noConfusion hn
  | .lcons (.cons k (.strV s) .nil) r, hw, depth, k0, l0, rest => by
    have hw2 : (wfElem (.cons k (.strV s) .nil) && wfList r) = true := hw
    rw [Bool.and_eq_true] at hw2
    obtain ⟨h1, h2⟩ := hw2
    have h3 : (wfPair k (.strV s) && memS k.ftype NODE_TYPES) = true := h1
    rw [Bool.and_eq_true] at h3
    obtain ⟨hp, hn⟩ := h3
    obtain ⟨ft, nm, fid⟩ := k
    simp only at hn
    rcases wfPair_cases _ _ hp with ⟨i, dv2, hft, hfid, hi, heq, hwd, hwn⟩ |
      ⟨dv2, hft, hfid, heq, hwd, hwn⟩ | ⟨lv2, hft, hfid, heq, hwl2, hwn⟩ |
      ⟨hnodef, _, _, _, _⟩
    · simp at heq
    · simp at heq
    · simp at heq
    · simp only at hnodef
      rw [hnodef] at hn
      exact Bool.noConfusion hn
termination_by l _ depth k0 l0 rest => l.szL
decreasing_by
  all_goals simp only [NduDict.szD, NduVal.szV, NduList.szL]
  all_goals omega
end

/-- Write-then-parse identity on the machine level: the parser rebuilds a
well-formed dictionary exactly (before the loader's final `reorder`). -/
theorem build_roundtrip (d : NduDict) (h : wfDict d = true) :
    build_ndugff_dict (write_ndugff_lines d) = .ok d := by
  have hrun := run_dump_d d h 0 none .nil []
  rw [catD_nil_left] at hrun
  unfold build_ndugff_dict write_ndugff_lines
  simp only [hrun]
  rfl

/-- What `load_ndugff` actually returns on a re-read written document: the
canonically reordered dictionary. -/
theorem load_roundtrip_reorder (d : NduDict) (h : wfDict d = true) :
    load_ndugff_lines (write_ndugff_lines d) = .ok (reorder d) := by
  unfold load_ndugff_lines
  rw [build_roundtrip d h]

/-- C1 (counterexample): the DSL round-trip breaks on a string value
containing a backslash.  The written form of the backslash-t-x value is
read back as TAB-x (the un-escaper fires on the raw backslash), and such a
value is reachable: `load_json`'s converter accepts it unchanged. -/
theorem C1_backslash_roundtrip_fails :
    load_ndugff_lines (write_ndugff_lines docC1) =
      .ok (.cons ⟨pys "gff.CExoString", pys "Text", none⟩
        (.strV (pys "\tx")) .nil) ∧
    (NduDict.cons ⟨pys "gff.CExoString", pys "Text", none⟩
      (.strV (pys "\tx")) .nil) ≠ docC1 ∧
    get_ndugff_value_json (pys "gff.CExoString") (.jstr (pys "\\tx")) =
      .ok (.strV (pys "\\tx")) := by
  refine ⟨?_, ?_, ?_⟩
  · rfl
  · decide
  · rfl

/-- C1: writing a loaded document with `write_ndugff` and re-loading the
text with `load_ndugff` yields the document back, for every well-formed
document that is already in canonical order — in particular for string
values containing quotes, tabs and newlines; backslashes are excluded
(see the counterexample). -/
theorem C1_wf_roundtrip (d : NduDict) (h : wfDict d = true)
    (hord : reorder d = d) :
    load_ndugff_lines (write_ndugff_lines d) = .ok d := by
  rw [load_roundtrip_reorder d h, hord]

theorem C1_wf_roundtrip_witness :
    wfDict docW = true ∧ reorder docW = docW ∧
      load_ndugff_lines (write_ndugff_lines docW) = .ok docW :=
  ⟨by rfl, by rfl, C1_wf_roundtrip docW (by rfl) (by rfl)⟩

/-- C8: canonical reordering is not confined to the DSL writer — every
loader ends by calling `reorder`.  The parser itself preserves insertion
order (`build_ndugff_dict` returns the document exactly), and the
`load_ndugff` pipeline then returns the canonically reordered form. -/
theorem C8_amended_loaders_reorder (d : NduDict) (h : wfDict d = true) :
    build_ndugff_dict (write_ndugff_lines d) = .ok d ∧
    load_ndugff_lines (write_ndugff_lines d) = .ok (reorder d) :=
  ⟨build_roundtrip d h, load_roundtrip_reorder d h⟩

theorem C8_amended_loaders_reorder_witness :
    wfDict docW8 = true ∧ reorder docW8 ≠ docW8 ∧
      build_ndugff_dict (write_ndugff_lines docW8) = .ok docW8 ∧
      load_ndugff_lines (write_ndugff_lines docW8) = .ok (reorder docW8) :=
  ⟨by rfl, by decide, (C8_amended_loaders_reorder docW8 (by rfl)).1,
    (C8_amended_loaders_reorder docW8 (by rfl)).2⟩
